import Mathlib

/-!
# iostat-reporter: parser and axis scaler

A shallow embedding of `parser/parser.go` (`ParseIostatOutput` and its
helpers) and `reporter/axis.go` (`CalcScale`), with the properties of
the specification stated and proved over it.

Conventions of the embedding

* A Go `string` / `[]byte` is a list of runes, `Str := List Char`.
* The standard-library calls `strconv.ParseFloat(s, 64)` and
  `time.Parse("01/02/06 15:04:05", s)` are not code of this repository;
  they are parameters of the model, collected in `Lib`.  Every theorem
  about the parser holds for whatever these two functions accept.
* `bufio.Scanner` is modelled by the sequence of outcomes of the
  successive calls of `scanner.Scan()`: `some line` when the call
  returns `true` with `scanner.Text() = line`, `none` when it returns
  `false` although further calls can still deliver a token (this only
  happens after a line that exceeds the scanner's token limit).  Once
  the sequence is exhausted every call returns `false`.
* `map[string]T` is an association list; a lookup of an absent key
  yields the zero value, as in Go.
* `float64` is IEEE 754 binary64 with rounding to nearest, ties to even:
  a value is NaN, an infinity, or a finite number `± n · 2^-1074`, and
  every operation rounds its exact result to the nearest such number
  with at most 53 significant bits.
-/

namespace Iostat

/-! ## Strings -/

/-- A Go string, as its sequence of runes. -/
abbrev Str := List Char

/-- Go `unicode.IsSpace`: the Latin-1 spaces `\t \n \v \f \r`, space, U+0085,
U+00A0, and the other code points with the White_Space property. -/
def isSpace (c : Char) : Bool :=
  let n := c.toNat
  (9 ≤ n && n ≤ 13) || n == 32 || n == 133 || n == 160 || n == 5760 ||
  (8192 ≤ n && n ≤ 8202) || n == 8232 || n == 8233 || n == 8239 ||
  n == 8287 || n == 12288

/-- Go `strings.TrimSpace`: drop leading and trailing white space. -/
def trimSpace (s : Str) : Str :=
  ((s.dropWhile isSpace).reverse.dropWhile isSpace).reverse

/-- Worker of `fields`: `cur` is the token being read, reversed. -/
def fieldsGo : Str → Str → List Str
  | cur, [] => if cur = [] then [] else [cur.reverse]
  | cur, c :: cs =>
    if isSpace c then
      (if cur = [] then fieldsGo [] cs else cur.reverse :: fieldsGo [] cs)
    else fieldsGo (c :: cur) cs

/-- Go `strings.Fields`: the maximal runs of non-space runes. -/
def fields (s : Str) : List Str := fieldsGo [] s

/-- Go `strings.HasPrefix`. -/
def hasPrefix (s p : Str) : Bool := p.isPrefixOf s

/-- Go `strings.TrimPrefix(h, "%")`. -/
def trimPercent : Str → Str
  | '%' :: rest => rest
  | s => s

/-! ## The scanner -/

/-- Go `bufio.MaxScanTokenSize`, the capacity of the scanner's buffer. -/
def maxScanTokenSize : Nat := 64 * 1024

/-- Length of a string in bytes (UTF-8). -/
def byteLen (s : Str) : Nat := (s.map Char.utf8Size).sum

/-- Worker of `rawLines`: `cur` is the line being read, reversed. -/
def rawLinesGo : Str → Str → List Str
  | cur, [] => if cur = [] then [] else [cur.reverse]
  | cur, c :: cs =>
    if c = '\n' then cur.reverse :: rawLinesGo [] cs else rawLinesGo (c :: cur) cs

/-- The newline-terminated lines of the input, and the unterminated
last line when it is not empty (`bufio.ScanLines` before `dropCR`). -/
def rawLines (data : Str) : List Str := rawLinesGo [] data

/-- The `dropCR` of `bufio.ScanLines`: one trailing carriage return is removed. -/
def dropCR (s : Str) : Str :=
  if s.getLast? = some '\r' then s.dropLast else s

/-- The first `n` bytes of `s`, as runes: the runes that fit entirely,
then one U+FFFD for every byte of a rune cut by the limit (Go decodes
each byte of an incomplete encoding as `utf8.RuneError`). -/
def takeBytes : Nat → Str → Str
  | _, [] => []
  | n, c :: cs =>
    if c.utf8Size ≤ n then c :: takeBytes (n - c.utf8Size) cs
    else List.replicate n (Char.ofNat 65533)

/-- Outcomes of the successive `scanner.Scan()` calls. -/
abbrev Stream := List (Option Str)

/-- The scanner over a list of raw lines.  A line is delivered when its
newline (or the end of input) is found before the buffer of
`maxScanTokenSize` bytes is full.  Otherwise `Scan` reports
`ErrTooLong` and returns `false`; the next call hands out the buffer
content as a last token, and every later call returns `false`. -/
def scanLines : List Str → Stream
  | [] => []
  | l :: rest =>
    if byteLen l < maxScanTokenSize then some (dropCR l) :: scanLines rest
    else [none, some (dropCR (takeBytes maxScanTokenSize l))]

/-- The scanner created by `bufio.NewScanner(bytes.NewReader(data))`. -/
def newScanner (data : Str) : Stream := scanLines (rawLines data)

/-! ## Data model (`parser/models.go`) -/

/-- Go `CPUStats`. -/
structure CPUStats (F T : Type) where
  Timestamp : T
  User : F
  Nice : F
  System : F
  Iowait : F
  Steal : F
  Idle : F
deriving DecidableEq, Repr

/-- Go `DeviceStats`, with the `QueueSize` field that `ParseIostatOutput` fills. -/
structure DeviceStats (F T : Type) where
  Timestamp : T
  Name : Str
  ReadsPerSec : F
  ReadKBPerSec : F
  ReadMergedPerSec : F
  ReadPctMerged : F
  ReadAwaitMs : F
  ReadReqSzKB : F
  WritesPerSec : F
  WriteKBPerSec : F
  WriteMergedPerSec : F
  WritePctMerged : F
  WriteAwaitMs : F
  WriteReqSzKB : F
  QueueSize : F
deriving DecidableEq, Repr

/-- Go `map[string][]DeviceStats`, keys in order of first insertion. -/
abbrev DeviceMap (F T : Type) := List (Str × List (DeviceStats F T))

/-- Go `ParsedData`. -/
structure ParsedData (F T : Type) where
  CPUs : List (CPUStats F T)
  Devices : DeviceMap F T
deriving DecidableEq, Repr

/-- The errors `ParseIostatOutput` can return: the `*strconv.NumError`
of a token that `ParseFloat` rejects, and the scanner's `ErrTooLong`. -/
inductive ParseError where
  | num (tok : Str)
  | tooLong
deriving DecidableEq, Repr

/-- The standard-library functions the parser calls. -/
structure Lib (F T : Type) where
  /-- the zero value of `float64` -/
  zero : F
  /-- `strconv.ParseFloat(s, 64)`, `none` when it returns an error -/
  parseFloat : Str → Option F
  /-- `time.Parse("01/02/06 15:04:05", s)`, `none` when it returns an error -/
  parseTime : Str → Option T

/-- Go `map[string]float64`: the latest binding of a key comes first. -/
abbrev FloatMap (F : Type) := List (Str × F)

/-- Go `m[key]`: the zero value when the key is absent. -/
def FloatMap.get {F T : Type} (L : Lib F T) (m : FloatMap F) (key : Str) : F :=
  (m.lookup key).getD L.zero

/-- Go `m[key]` on the device map: `nil` when the key is absent. -/
def DeviceMap.get {F T : Type} (m : DeviceMap F T) (name : Str) : List (DeviceStats F T) :=
  (m.lookup name).getD []

/-- Go `m[name] = append(m[name], dev)`. -/
def DeviceMap.push {F T : Type} (dev : DeviceStats F T) :
    DeviceMap F T → DeviceMap F T
  | [] => [(dev.Name, [dev])]
  | (k, v) :: rest =>
    if k = dev.Name then (k, v ++ [dev]) :: rest else (k, v) :: DeviceMap.push dev rest

/-- The keys of the device map. -/
def DeviceMap.keys {F T : Type} (m : DeviceMap F T) : List Str := m.map Prod.fst

/-! ## `ParseIostatOutput` (`parser/parser.go`) -/

section Parser

variable {F T : Type}

/-- Lines 33-42: scan for the line starting with `avg-cpu:`; the CPU
header is `parts[1:]` when that line has more than one token. -/
def findCpuHeader : Stream → List Str × Stream
  | [] => ([], [])
  | none :: rest => ([], rest)
  | some raw :: rest =>
    let text := trimSpace raw
    if hasPrefix text "avg-cpu:".toList then
      let parts := fields text
      (if parts.length > 1 then parts.drop 1 else [], rest)
    else findCpuHeader rest

/-- Lines 45-52: the tokens of the next non-blank line. -/
def findCpuValues : Stream → List Str × Stream
  | [] => ([], [])
  | none :: rest => ([], rest)
  | some raw :: rest =>
    let text := trimSpace raw
    if text = [] then findCpuValues rest else (fields text, rest)

/-- Lines 55-64: `for i, h := range cpuHeader`, from index `i` on. -/
def cpuMapLoop (L : Lib F T) (cpuValues : List Str) :
    Nat → List Str → FloatMap F → Except ParseError (FloatMap F)
  | _, [], m => .ok m
  | i, h :: hs, m =>
    let key := trimPercent h
    if i < cpuValues.length then
      match L.parseFloat (cpuValues.getD i []) with
      | none => .error (.num (cpuValues.getD i []))
      | some v => cpuMapLoop L cpuValues (i + 1) hs ((key, v) :: m)
    else cpuMapLoop L cpuValues (i + 1) hs m

/-- Lines 65-73: the CPU sample read off the map. -/
def mkCPUStats (L : Lib F T) (ts : T) (cpuMap : FloatMap F) : CPUStats F T :=
  { Timestamp := ts
    User := cpuMap.get L "user".toList
    Nice := cpuMap.get L "nice".toList
    System := cpuMap.get L "system".toList
    Iowait := cpuMap.get L "iowait".toList
    Steal := cpuMap.get L "steal".toList
    Idle := cpuMap.get L "idle".toList }

/-- Lines 77-86: skip blank lines up to the line starting with `Device`. -/
def findDevHeader : Stream → List Str × Stream
  | [] => ([], [])
  | none :: rest => ([], rest)
  | some raw :: rest =>
    let text := trimSpace raw
    if text = [] then findDevHeader rest
    else if hasPrefix text "Device".toList then (fields text, rest)
    else findDevHeader rest

/-- Lines 95-105: `for i, h := range devHeader`, from index `i` on. -/
def devMapLoop (L : Lib F T) (flds : List Str) :
    Nat → List Str → FloatMap F → Except ParseError (FloatMap F)
  | _, [], m => .ok m
  | i, h :: hs, m =>
    if i = 0 ∨ i ≥ flds.length then devMapLoop L flds (i + 1) hs m
    else
      let key := trimPercent h
      match L.parseFloat (flds.getD i []) with
      | none => .error (.num (flds.getD i []))
      | some v => devMapLoop L flds (i + 1) hs ((key, v) :: m)

/-- Lines 106-123: the device sample read off the map. -/
def mkDeviceStats (L : Lib F T) (ts : T) (flds : List Str) (devMap : FloatMap F) :
    DeviceStats F T :=
  { Timestamp := ts
    Name := flds.getD 0 []
    ReadsPerSec := devMap.get L "r/s".toList
    ReadKBPerSec := devMap.get L "rkB/s".toList
    ReadMergedPerSec := devMap.get L "rrqm/s".toList
    ReadPctMerged := devMap.get L "rrqm".toList
    ReadAwaitMs := devMap.get L "r_await".toList
    ReadReqSzKB := devMap.get L "rareq-sz".toList
    WritesPerSec := devMap.get L "w/s".toList
    WriteKBPerSec := devMap.get L "wkB/s".toList
    WriteMergedPerSec := devMap.get L "wrqm/s".toList
    WritePctMerged := devMap.get L "wrqm".toList
    WriteAwaitMs := devMap.get L "w_await".toList
    WriteReqSzKB := devMap.get L "wareq-sz".toList
    QueueSize := devMap.get L "aqu-sz".toList }

/-- Lines 88-125: consume device rows up to a blank line or the end of
the scan.  Returns the data, the error of an early `return parsed, err`,
and the rest of the scan. -/
def deviceLoop (L : Lib F T) (ts : T) (devHeader : List Str) :
    Stream → ParsedData F T → ParsedData F T × Option ParseError × Stream
  | [], p => (p, none, [])
  | none :: rest, p => (p, none, rest)
  | some raw :: rest, p =>
    let text := trimSpace raw
    if text = [] then (p, none, rest)
    else
      let flds := fields text
      match devMapLoop L flds 0 devHeader [] with
      | .error e => (p, some e, rest)
      | .ok devMap =>
        let dev := mkDeviceStats L ts flds devMap
        deviceLoop L ts devHeader rest { p with Devices := DeviceMap.push dev p.Devices }

/-- Lines 19-126: the outer `for scanner.Scan()` loop.  Every iteration
consumes at least one outcome of the scan, so `fuel` = length of the
scan is never exhausted (`parseLoop_fuel`). -/
def parseLoop (L : Lib F T) :
    Nat → Stream → ParsedData F T → ParsedData F T × Option ParseError
  | 0, _, p => (p, none)
  | _ + 1, [], p => (p, none)
  | _ + 1, none :: _, p => (p, none)
  | n + 1, some raw :: rest, p =>
    let line := trimSpace raw
    if line = [] then parseLoop L n rest p
    else
      match L.parseTime line with
      | none => parseLoop L n rest p
      | some ts =>
        let (cpuHeader, s1) := findCpuHeader rest
        let (cpuValues, s2) := findCpuValues s1
        match cpuMapLoop L cpuValues 0 cpuHeader [] with
        | .error e => (p, some e)
        | .ok cpuMap =>
          let p1 := { p with CPUs := p.CPUs ++ [mkCPUStats L ts cpuMap] }
          let (devHeader, s3) := findDevHeader s2
          match deviceLoop L ts devHeader s3 p1 with
          | (p2, some e, _) => (p2, some e)
          | (p2, none, s4) => parseLoop L n s4 p2

/-- The outer loop started on scan `s` with data `p`. -/
def parseFrom (L : Lib F T) (s : Stream) (p : ParsedData F T) :
    ParsedData F T × Option ParseError :=
  parseLoop L s.length s p

/-- Lines 128-131: `scanner.Err()` after the loop: `ErrTooLong` when a
call of `Scan` met a line beyond the limit. -/
def scannerErr (s : Stream) : Option ParseError :=
  if s.contains none then some .tooLong else none

/-- Go `ParseIostatOutput`: the returned `ParsedData` and `error`
(`none` for `nil`). -/
def ParseIostatOutput (L : Lib F T) (data : Str) : ParsedData F T × Option ParseError :=
  let s := newScanner data
  match parseFrom L s { CPUs := [], Devices := [] } with
  | (p, some e) => (p, some e)
  | (p, none) => (p, scannerErr s)

end Parser

/-! ## The block structure of an input

The vocabulary in which the properties of the parser are stated.  The
lenient scan (section 4.1 of the specification, steps 1, 2, 3, 5 and 6)
delimits the blocks of an input without looking at any number; steps 4,
6, 7 and 8 then turn the blocks into samples, one after the other, and
stop at the first token that is not numeric.  `parseLoop_eq_runBlocks`
proves that `parseLoop` is the composition of the two. -/

/-- The lines the scanner hands out when every line fits its buffer. -/
def scannedLines (data : Str) : List Str := (rawLines data).map dropCR

/-- Every line of the input fits the scanner's line limit. -/
def LinesFit (data : Str) : Prop := ∀ l ∈ rawLines data, byteLen l < maxScanTokenSize

instance (data : Str) : Decidable (LinesFit data) := by
  unfold LinesFit; infer_instance

/-- One block as the scan delimits it: the time of its timestamp line,
the column names after `avg-cpu:`, the tokens of the CPU value line,
the tokens of the `Device` line and the tokens of each device row. -/
structure RawBlock (T : Type) where
  ts : T
  cpuHeader : List Str
  cpuValues : List Str
  devHeader : List Str
  rows : List (List Str)
deriving DecidableEq, Repr

/-- Step 6: the tokens of the rows up to a blank line or the end of the scan. -/
def deviceRows : Stream → List (List Str) × Stream
  | [] => ([], [])
  | none :: rest => ([], rest)
  | some raw :: rest =>
    let text := trimSpace raw
    if text = [] then ([], rest)
    else
      let r := deviceRows rest
      (fields text :: r.1, r.2)

section Blocks

variable {F T : Type}

/-- Steps 1-6, repeated: the blocks of a scan. -/
def blocksLoop (L : Lib F T) : Nat → Stream → List (RawBlock T)
  | 0, _ => []
  | _ + 1, [] => []
  | _ + 1, none :: _ => []
  | n + 1, some raw :: rest =>
    let line := trimSpace raw
    if line = [] then blocksLoop L n rest
    else
      match L.parseTime line with
      | none => blocksLoop L n rest
      | some ts =>
        let c := findCpuHeader rest
        let v := findCpuValues c.2
        let d := findDevHeader v.2
        let r := deviceRows d.2
        { ts := ts, cpuHeader := c.1, cpuValues := v.1, devHeader := d.1, rows := r.1 } ::
          blocksLoop L n r.2

/-- The blocks of a scan. -/
def rawBlocks (L : Lib F T) (s : Stream) : List (RawBlock T) := blocksLoop L s.length s

/-- Steps 4 and 6: header names, stripped of a leading `%`, zipped with
the value tokens; a token that is not numeric aborts. -/
def bindPairs (L : Lib F T) : List (Str × Str) → FloatMap F → Except ParseError (FloatMap F)
  | [], m => .ok m
  | (h, v) :: ps, m =>
    match L.parseFloat v with
    | none => .error (.num v)
    | some x => bindPairs L ps ((trimPercent h, x) :: m)

/-- Steps 6-8 on the rows of one block. -/
def runRows (L : Lib F T) (ts : T) (devHeader : List Str) :
    List (List Str) → ParsedData F T → ParsedData F T × Option ParseError
  | [], p => (p, none)
  | flds :: rows, p =>
    match devMapLoop L flds 0 devHeader [] with
    | .error e => (p, some e)
    | .ok devMap =>
      runRows L ts devHeader rows
        { p with Devices := DeviceMap.push (mkDeviceStats L ts flds devMap) p.Devices }

/-- Steps 4, 7 and 8 over the blocks, in order. -/
def runBlocks (L : Lib F T) :
    List (RawBlock T) → ParsedData F T → ParsedData F T × Option ParseError
  | [], p => (p, none)
  | b :: bs, p =>
    match cpuMapLoop L b.cpuValues 0 b.cpuHeader [] with
    | .error e => (p, some e)
    | .ok cpuMap =>
      match runRows L b.ts b.devHeader b.rows
          { p with CPUs := p.CPUs ++ [mkCPUStats L b.ts cpuMap] } with
      | (p2, some e) => (p2, some e)
      | (p2, none) => runBlocks L bs p2

/-- A CPU value token under a column of the avg-cpu header is not numeric. -/
def BadCpu (L : Lib F T) (b : RawBlock T) : Prop :=
  ∃ i, i < b.cpuHeader.length ∧ i < b.cpuValues.length ∧
    L.parseFloat (b.cpuValues.getD i []) = none

/-- A token of a device row at a position `i ≥ 1` under a column of the
Device header is not numeric. -/
def BadRow (L : Lib F T) (devHeader flds : List Str) : Prop :=
  ∃ i, 1 ≤ i ∧ i < devHeader.length ∧ i < flds.length ∧
    L.parseFloat (flds.getD i []) = none

/-- The block holds a token that must be numeric and is not. -/
def BadBlock (L : Lib F T) (b : RawBlock T) : Prop :=
  BadCpu L b ∨ ∃ flds ∈ b.rows, BadRow L b.devHeader flds

end Blocks

/-! ## Go `float64`

Every finite binary64 number is an integer multiple of `2^-1074`, the
smallest positive one, so a finite value is kept as its sign and that
multiple `n`; the largest finite number has `n < 2^2098`.  The numbers of
the format are those whose `n` has at most 53 significant bits.  Signed
zeros are `fin false 0` and `fin true 0`. -/

set_option exponentiation.threshold 4096

/-- Go `float64`: `fin neg n` is the number `± n · 2^-1074`. -/
inductive F64 where
  | fin (neg : Bool) (n : Nat)
  | inf (neg : Bool)
  | nan
deriving DecidableEq, Repr

namespace F64

/-- The number of binary digits of `n`, for `n < 2^4096`. -/
def bitLen (n : Nat) : Nat :=
  if n = 0 then 0
  else [2048, 1024, 512, 256, 128, 64, 32, 16, 8, 4, 2, 1].foldl
    (fun acc i => if 2 ^ (acc + i) ≤ n then acc + i else acc) 0 + 1

/-- Rounding to nearest, ties to even: the multiple of `2^-1074` in the
format that is nearest to `p / q` multiples, `none` when the rounded
value is `2^1024` or more (overflow). -/
def roundUnits (p q : Nat) : Option Nat :=
  if 2 ^ 2098 ≤ p / q then none
  else
    let s := bitLen (p / q) - 53
    let den := q * 2 ^ s
    let k := p / den
    let r := p % den
    let k2 :=
      if 2 * r < den then k else if den < 2 * r then k + 1 else if k % 2 = 0 then k else k + 1
    if k2 * 2 ^ s < 2 ^ 2098 then some (k2 * 2 ^ s) else none

/-- The `float64` nearest to `± p / q` multiples of `2^-1074`. -/
def ofUnits (neg : Bool) (p q : Nat) : F64 :=
  match roundUnits p q with
  | some n => .fin neg n
  | none => .inf neg

/-- The `float64` of the decimal literal `± num / den`. -/
def ofDec (neg : Bool) (num den : Nat) : F64 := ofUnits neg (num * 2 ^ 1074) den

/-- Go `float64(i)` for an integer `i`. -/
def ofInt (i : Int) : F64 := ofUnits (decide (i < 0)) (i.natAbs * 2 ^ 1074) 1

/-- Go `-x`. -/
def neg : F64 → F64
  | .fin a n => .fin (!a) n
  | .inf a => .inf (!a)
  | .nan => .nan

/-- Go `x + y`. -/
def add : F64 → F64 → F64
  | .nan, _ => .nan
  | _, .nan => .nan
  | .inf a, .inf b => if a = b then .inf a else .nan
  | .inf a, .fin _ _ => .inf a
  | .fin _ _, .inf b => .inf b
  | .fin a n, .fin b m =>
    if a = b then ofUnits a (n + m) 1
    else if n = m then .fin false 0
    else if m < n then ofUnits a (n - m) 1
    else ofUnits b (m - n) 1

/-- Go `x - y`. -/
def sub (x y : F64) : F64 := add x (neg y)

/-- Go `x * y`. -/
def mul : F64 → F64 → F64
  | .nan, _ => .nan
  | _, .nan => .nan
  | .inf a, .inf b => .inf (a != b)
  | .inf a, .fin b m => if m = 0 then .nan else .inf (a != b)
  | .fin a n, .inf b => if n = 0 then .nan else .inf (a != b)
  | .fin a n, .fin b m => ofUnits (a != b) (n * m) (2 ^ 1074)

/-- Go `x / y`; a division by zero gives an infinity or NaN. -/
def div : F64 → F64 → F64
  | .nan, _ => .nan
  | _, .nan => .nan
  | .inf _, .inf _ => .nan
  | .inf a, .fin b _ => .inf (a != b)
  | .fin a _, .inf b => .fin (a != b) 0
  | .fin a n, .fin b m =>
    if m = 0 then (if n = 0 then .nan else .inf (a != b))
    else ofUnits (a != b) (n * 2 ^ 1074) m

/-- The signed multiple of a finite value. -/
def sval (a : Bool) (n : Nat) : Int := if a then -(n : Int) else n

/-- Go `x < y`: false when an operand is NaN. -/
def lt : F64 → F64 → Bool
  | .nan, _ => false
  | _, .nan => false
  | .inf a, .inf b => a && !b
  | .inf a, .fin _ _ => a
  | .fin _ _, .inf b => !b
  | .fin a n, .fin b m => decide (sval a n < sval b m)

/-- Go `x == y`: false when an operand is NaN, true for the two zeros. -/
def eq : F64 → F64 → Bool
  | .nan, _ => false
  | _, .nan => false
  | .inf a, .inf b => a == b
  | .inf _, .fin _ _ => false
  | .fin _ _, .inf _ => false
  | .fin a n, .fin b m => decide (sval a n = sval b m)

end F64

/-! ## `CalcScale` (`reporter/axis.go`) -/

/-- Go `math.Round`: the nearest integer, halves away from zero; zeros,
infinities and NaN are returned as they are. -/
def mathRound : F64 → F64
  | .fin a n =>
    let q := n / 2 ^ 1074
    let r := n % 2 ^ 1074
    .fin a ((if 2 ^ 1074 ≤ 2 * r then q + 1 else q) * 2 ^ 1074)
  | x => x

/-- Lines 32-34: the expression `math.Round(x*100) / 100`. -/
def roundHundredths (x : F64) : F64 :=
  F64.div (mathRound (F64.mul x (F64.ofInt 100))) (F64.ofInt 100)

/-- The state of the scan of lines 8-23: `first`, `min`, `max`. -/
abbrev ScaleState := Bool × F64 × F64

/-- Lines 11-21: the body of the inner loop, for one value `v`. -/
def scaleStep (st : ScaleState) (v : F64) : ScaleState :=
  if st.1 then (false, v, v)
  else (false, if F64.lt v st.2.1 then v else st.2.1, if F64.lt st.2.2 v then v else st.2.2)

/-- Go `CalcScale`: `(min, max, interval)`.  `splits` is a Go `int`; the
model takes any integer. -/
def CalcScale (splits : Int) (arrs : List (List F64)) : F64 × F64 × F64 :=
  let st := arrs.foldl (fun st arr => arr.foldl scaleStep st)
    ((true, .fin false 0, .fin false 0) : ScaleState)
  if st.1 then (.fin false 0, .fin false 0, .fin false 0)
  else
    let min := st.2.1
    let max := if F64.eq st.2.2 min then F64.add min (F64.ofInt 1) else st.2.2
    let interval := F64.div (F64.sub max min) (F64.ofInt splits)
    (roundHundredths min, roundHundredths max, roundHundredths interval)

/-- Rounding to two decimals, halves away from zero: the `float64`
nearest to the exact value of `x` rounded to hundredths. -/
def round2 : F64 → F64
  | .fin a n => F64.ofUnits a ((n * 200 + 2 ^ 1074) / (2 * 2 ^ 1074) * 2 ^ 1074) 100
  | x => x

/-- The `float64` of a non-negative decimal literal `num / den`. -/
def dec (num den : Nat) : F64 := F64.ofDec false num den

/-! ## An executable instance of the library parameters

Used to run the model on concrete inputs.  `sampleParseFloat` accepts
the plain decimal literals of iostat output (`digits`, `digits.d`,
`digits.dd`) and yields their value in hundredths; `sampleParseTime`
accepts timestamps of the exact shape `MM/DD/YY HH:MM:SS`.  Every token
they accept is accepted by `strconv.ParseFloat` and `time.Parse` with
that value, and the tokens of the examples that they reject (`N/A`, the
empty string, banner text) are rejected by the library as well. -/

/-- A date and time of day. -/
structure Stamp where
  year : Nat
  month : Nat
  day : Nat
  hour : Nat
  minute : Nat
  second : Nat
deriving DecidableEq, Repr

/-- The value of a non-empty string of decimal digits. -/
def readNat (s : Str) : Option Nat :=
  if s = [] then none
  else s.foldl (fun acc c =>
    match acc with
    | none => none
    | some n => if c.isDigit then some (10 * n + (c.toNat - 48)) else none) (some 0)

/-- Decimal literals with at most two fraction digits, in hundredths. -/
def sampleParseFloat (s : Str) : Option Int :=
  match s.span (fun c => c != '.') with
  | (ip, []) => (readNat ip).map (fun n => (100 * n : Int))
  | (ip, _ :: fp) =>
    match readNat ip, readNat fp with
    | some n, some f =>
      if fp.length = 1 then some (100 * n + 10 * f : Int)
      else if fp.length = 2 then some (100 * n + f : Int)
      else none
    | _, _ => none

/-- Number of days of a month. -/
def daysIn (year month : Nat) : Nat :=
  if month = 2 then (if year % 4 = 0 ∧ (year % 100 ≠ 0 ∨ year % 400 = 0) then 29 else 28)
  else if month = 4 ∨ month = 6 ∨ month = 9 ∨ month = 11 then 30 else 31

/-- Timestamps of the exact shape `MM/DD/YY HH:MM:SS`. -/
def sampleParseTime (s : Str) : Option Stamp :=
  match s with
  | [m1, m2, '/', d1, d2, '/', y1, y2, ' ', h1, h2, ':', n1, n2, ':', s1, s2] =>
    match readNat [m1, m2], readNat [d1, d2], readNat [y1, y2],
          readNat [h1, h2], readNat [n1, n2], readNat [s1, s2] with
    | some mo, some d, some y, some h, some mi, some se =>
      let year := if y ≥ 69 then 1900 + y else 2000 + y
      if 1 ≤ mo ∧ mo ≤ 12 ∧ 1 ≤ d ∧ d ≤ daysIn year mo ∧ h < 24 ∧ mi < 60 ∧ se < 60 then
        some { year := year, month := mo, day := d, hour := h, minute := mi, second := se }
      else none
    | _, _, _, _, _, _ => none
  | _ => none

/-- The executable instance. -/
def sampleLib : Lib Int Stamp :=
  { zero := 0, parseFloat := sampleParseFloat, parseTime := sampleParseTime }

/-! ## Well-formed iostat text (specification, section 6)

```
MM/DD/YY HH:MM:SS
avg-cpu:  %user   %nice %system %iowait  %steal   %idle
  <numeric fields>
<blank lines, optional>
Device  <metric-column-names...>
<device-name>  <numeric fields>
...
<blank lines>
```
-/

/-- The tokens of a line: `strings.Fields(strings.TrimSpace(line))`. -/
def tokens (l : Str) : List Str := fields (trimSpace l)

/-- The lines of one block of iostat output, and the time its first line denotes. -/
structure BlockText (T : Type) where
  ts : T
  tsLine : Str
  cpuHeaderLine : Str
  cpuValueLine : Str
  blanks : List Str
  devHeaderLine : Str
  rowLines : List Str
  trail : List Str

section BlockTexts

variable {F T : Type}

/-- The lines of a block, in order. -/
def BlockText.lines (b : BlockText T) : List Str :=
  b.tsLine :: b.cpuHeaderLine :: b.cpuValueLine ::
    (b.blanks ++ b.devHeaderLine :: (b.rowLines ++ b.trail))

/-- The first token of every device row. -/
def BlockText.rowNames (b : BlockText T) : List Str :=
  b.rowLines.map (fun l => (tokens l).getD 0 [])

/-- A well-formed block: a timestamp line, the avg-cpu header, a line of
numeric CPU values, optional blank lines, the Device header, device rows
with pairwise distinct names and numeric fields, and blank lines after them. -/
structure BlockText.WellFormed (L : Lib F T) (b : BlockText T) : Prop where
  ts_nonblank : trimSpace b.tsLine ≠ []
  ts_parses : L.parseTime (trimSpace b.tsLine) = some b.ts
  cpu_header : hasPrefix (trimSpace b.cpuHeaderLine) "avg-cpu:".toList = true
  cpu_values_nonblank : trimSpace b.cpuValueLine ≠ []
  cpu_values_numeric : ∀ tok ∈ tokens b.cpuValueLine, L.parseFloat tok ≠ none
  blanks_blank : ∀ l ∈ b.blanks, trimSpace l = []
  dev_header : hasPrefix (trimSpace b.devHeaderLine) "Device".toList = true
  rows_nonblank : ∀ l ∈ b.rowLines, trimSpace l ≠ []
  rows_numeric : ∀ l ∈ b.rowLines, ∀ tok ∈ (tokens l).tail, L.parseFloat tok ≠ none
  names_distinct : b.rowNames.Nodup
  trail_blank : ∀ l ∈ b.trail, trimSpace l = []

/-- Every block but the last ends with a blank line. -/
def Separated : List (BlockText T) → Prop
  | [] => True
  | [_] => True
  | b :: b2 :: bs => b.trail ≠ [] ∧ Separated (b2 :: bs)

/-- The block structure a well-formed block is read as. -/
def BlockText.rawBlock (b : BlockText T) : RawBlock T :=
  { ts := b.ts
    cpuHeader := (tokens b.cpuHeaderLine).drop 1
    cpuValues := tokens b.cpuValueLine
    devHeader := tokens b.devHeaderLine
    rows := b.rowLines.map tokens }

/-- The map of a successful zipping, the empty map otherwise. -/
def okMap : Except ParseError (FloatMap F) → FloatMap F
  | .ok m => m
  | .error _ => []

/-- The CPU sample of a block (steps 4 and 7). -/
def RawBlock.cpuSample (L : Lib F T) (b : RawBlock T) : CPUStats F T :=
  mkCPUStats L b.ts (okMap (cpuMapLoop L b.cpuValues 0 b.cpuHeader []))

/-- The device sample of a row (steps 6 and 7). -/
def rowSample (L : Lib F T) (ts : T) (devHeader flds : List Str) : DeviceStats F T :=
  mkDeviceStats L ts flds (okMap (devMapLoop L flds 0 devHeader []))

/-- The device samples of a block, in the order of its rows. -/
def RawBlock.rowSamples (L : Lib F T) (b : RawBlock T) : List (DeviceStats F T) :=
  b.rows.map (rowSample L b.ts b.devHeader)

/-- Appending samples to the device map, one after the other. -/
def pushAll (ds : List (DeviceStats F T)) (m : DeviceMap F T) : DeviceMap F T :=
  ds.foldl (fun acc d => DeviceMap.push d acc) m

end BlockTexts

/-! ## The columns of the specification -/

/-- The six column names of the avg-cpu header. -/
def cpuColumns : List Str :=
  ["%user".toList, "%nice".toList, "%system".toList, "%iowait".toList, "%steal".toList,
   "%idle".toList]

/-- The twelve base columns of the Device header. -/
def baseColumns : List Str :=
  ["r/s".toList, "rkB/s".toList, "rrqm/s".toList, "%rrqm".toList, "r_await".toList,
   "rareq-sz".toList, "w/s".toList, "wkB/s".toList, "wrqm/s".toList, "%wrqm".toList,
   "w_await".toList, "wareq-sz".toList]

/-- The keys of the twelve base columns: their names without a leading `%`. -/
def baseKeys : List Str := baseColumns.map trimPercent

/-- The twelve read/write metrics of a device sample, in the order of the base columns. -/
def DeviceStats.metrics {F T : Type} (d : DeviceStats F T) : List F :=
  [d.ReadsPerSec, d.ReadKBPerSec, d.ReadMergedPerSec, d.ReadPctMerged, d.ReadAwaitMs,
   d.ReadReqSzKB, d.WritesPerSec, d.WriteKBPerSec, d.WriteMergedPerSec, d.WritePctMerged,
   d.WriteAwaitMs, d.WriteReqSzKB]

/-- The keys of the six CPU fields: the column names without the leading `%`. -/
def cpuKeys : List Str := cpuColumns.map trimPercent

/-- The six percentages of a CPU sample, in the order of `cpuKeys`. -/
def CPUStats.values {F T : Type} (c : CPUStats F T) : List F :=
  [c.User, c.Nice, c.System, c.Iowait, c.Steal, c.Idle]

/-- The keys of the thirteen numeric fields of a device sample. -/
def deviceKeys : List Str := baseKeys ++ ["aqu-sz".toList]

/-- The thirteen numeric fields of a device sample, in the order of `deviceKeys`. -/
def DeviceStats.values {F T : Type} (d : DeviceStats F T) : List F :=
  d.metrics ++ [d.QueueSize]

/-! ## Texts made of lines -/

/-- The text of a sequence of lines, each terminated by a newline. -/
def joinLines (ls : List Str) : Str := (ls.map (fun l => l ++ ['\n'])).flatten

/-! ## Example inputs -/

/-- Example for C10: a banner and no block. -/
def c10Input : Str :=
  "Linux 5.15.0 (host) \t09/04/24 \t_x86_64_\t(8 CPU)\r\n\n12:07:20\n".toList

/-- Example for C1: one block whose device row holds `N/A`. -/
def c1Input : Str :=
  "09/04/24 12:07:20\navg-cpu:  %user %idle\n  2.36 97.20\n\nDevice r/s w/s\nsda 2.08 N/A\n".toList

/-- Example for C2: a complete block, then a block whose CPU value line
holds `N/A`. -/
def c2Input : Str :=
  ("09/04/24 12:07:20\navg-cpu:  %user %idle\n  2.36 97.20\n\nDevice r/s w/s\nsda 2.08 9.58\n\n" ++
   "09/04/24 12:07:21\navg-cpu:  %user %idle\n  N/A 97.20\n\nDevice r/s w/s\nsda 2.08 9.58\n").toList

/-- Example for C3: the block of `TestParseIostatMultipleDevices`. -/
def c3Block : BlockText Stamp :=
  { ts := { year := 2024, month := 9, day := 4, hour := 12, minute := 10, second := 0 }
    tsLine := "09/04/24 12:10:00".toList
    cpuHeaderLine := "avg-cpu:  %user   %nice  %system  %iowait   %steal   %idle".toList
    cpuValueLine := "           5.00     0.00     1.00     0.10     0.00   93.90".toList
    blanks := [[]]
    devHeaderLine :=
      "Device            r/s     rkB/s   rrqm/s  %rrqm  r_await  rareq-sz   w/s     wkB/s   wrqm/s  %wrqm  w_await  wareq-sz".toList
    rowLines :=
      ["sda               1.23     50.00     0.10   8.33     2.00     40.65   10.00    100.00    1.00  9.09     1.50     10.00".toList,
       "sdb               9.87    200.00     0.00   0.00     1.00     20.00    5.00     75.00    0.50  9.09     0.80      15.00".toList]
    trail := [] }

/-- Example for C3: the input of `TestParseIostatMultipleDevices`. -/
def c3Input : Str :=
  ("\n09/04/24 12:10:00\n" ++
   "avg-cpu:  %user   %nice  %system  %iowait   %steal   %idle\n" ++
   "           5.00     0.00     1.00     0.10     0.00   93.90\n" ++
   "\n" ++
   "Device            r/s     rkB/s   rrqm/s  %rrqm  r_await  rareq-sz   w/s     wkB/s   wrqm/s  %wrqm  w_await  wareq-sz\n" ++
   "sda               1.23     50.00     0.10   8.33     2.00     40.65   10.00    100.00    1.00  9.09     1.50     10.00\n" ++
   "sdb               9.87    200.00     0.00   0.00     1.00     20.00    5.00     75.00    0.50  9.09     0.80      15.00\n").toList

/-- Example for C4: a block with the rows `sda` and `sdb`. -/
def c4Block1 : BlockText Stamp :=
  { ts := { year := 2024, month := 9, day := 4, hour := 12, minute := 7, second := 20 }
    tsLine := "09/04/24 12:07:20".toList
    cpuHeaderLine := "avg-cpu:  %user   %nice %system %iowait  %steal   %idle".toList
    cpuValueLine := "           2.36    0.00    0.40    0.04    0.01   97.20".toList
    blanks := [[]]
    devHeaderLine := "Device            r/s     w/s  aqu-sz".toList
    rowLines := ["sda              2.08    9.58    0.03".toList,
                 "sdb              0.00    1.00    0.00".toList]
    trail := [[]] }

/-- Example for C4: a later block with the row `sda` only. -/
def c4Block2 : BlockText Stamp :=
  { ts := { year := 2024, month := 9, day := 4, hour := 12, minute := 7, second := 21 }
    tsLine := "09/04/24 12:07:21".toList
    cpuHeaderLine := "avg-cpu:  %user   %nice %system %iowait  %steal   %idle".toList
    cpuValueLine := "          33.91    0.00    7.67    2.72    0.00   55.69".toList
    blanks := []
    devHeaderLine := "Device            r/s     w/s  aqu-sz".toList
    rowLines := ["sda              0.00  395.00    3.42".toList]
    trail := [] }

/-- Example for C4: the two blocks, after a banner line. -/
def c4Input : Str :=
  ("Linux 5.15.0 (host)\n\n" ++
   "09/04/24 12:07:20\n" ++
   "avg-cpu:  %user   %nice %system %iowait  %steal   %idle\n" ++
   "           2.36    0.00    0.40    0.04    0.01   97.20\n" ++
   "\n" ++
   "Device            r/s     w/s  aqu-sz\n" ++
   "sda              2.08    9.58    0.03\n" ++
   "sdb              0.00    1.00    0.00\n" ++
   "\n" ++
   "09/04/24 12:07:21\n" ++
   "avg-cpu:  %user   %nice %system %iowait  %steal   %idle\n" ++
   "          33.91    0.00    7.67    2.72    0.00   55.69\n" ++
   "Device            r/s     w/s  aqu-sz\n" ++
   "sda              0.00  395.00    3.42").toList

/-- Example for C5: the block of `TestParseIostatOutput`. -/
def c5Block : BlockText Stamp :=
  { ts := { year := 2024, month := 9, day := 4, hour := 12, minute := 7, second := 20 }
    tsLine := "09/04/24 12:07:20".toList
    cpuHeaderLine := "avg-cpu:  %user   %nice %system %iowait  %steal   %idle".toList
    cpuValueLine := "           2.36    0.00    0.40    0.04    0.01   97.20".toList
    blanks := [[]]
    devHeaderLine :=
      "Device            r/s     rkB/s   rrqm/s  %rrqm r_await rareq-sz     w/s     wkB/s   wrqm/s  %wrqm w_await wareq-sz".toList
    rowLines :=
      ["sda              2.08     94.38     0.31  13.07    0.89    45.47    9.58    210.39     5.55  36.68    2.74    21.96".toList]
    trail := [] }

/-- Example for C5: the input of `TestParseIostatOutput`. -/
def c5Input : Str :=
  ("\n09/04/24 12:07:20\n" ++
   "avg-cpu:  %user   %nice %system %iowait  %steal   %idle\n" ++
   "           2.36    0.00    0.40    0.04    0.01   97.20\n" ++
   "\n" ++
   "Device            r/s     rkB/s   rrqm/s  %rrqm r_await rareq-sz     w/s     wkB/s   wrqm/s  %wrqm w_await wareq-sz\n" ++
   "sda              2.08     94.38     0.31  13.07    0.89    45.47    9.58    210.39     5.55  36.68    2.74    21.96\n").toList

/-- Example for C6: the base columns followed by a second column `r/s`. -/
def c6Input : Str :=
  ("09/04/24 12:07:20\n" ++
   "avg-cpu:  %user   %nice %system %iowait  %steal   %idle\n" ++
   "           2.36    0.00    0.40    0.04    0.01   97.20\n" ++
   "\n" ++
   "Device r/s rkB/s rrqm/s %rrqm r_await rareq-sz w/s wkB/s wrqm/s %wrqm w_await wareq-sz r/s\n" ++
   "sda 1.00 2.00 3.00 4.00 5.00 6.00 7.00 8.00 9.00 10.00 11.00 12.00 13.00\n").toList

/-- Example for C6 and C9: the Device header of `TestParseIostatOutputExtended`. -/
def extendedHeader : List Str :=
  tokens "Device            r/s     rkB/s   rrqm/s  %rrqm r_await rareq-sz     w/s     wkB/s   wrqm/s  %wrqm w_await wareq-sz     d/s     dkB/s   drqm/s  %drqm d_await dareq-sz     f/s f_await  aqu-sz  %util".toList

/-- Example for C6 and C9: the device row of `TestParseIostatOutputExtended`. -/
def extendedRow : Str :=
  "sda              0.00      0.00     0.00   0.00    0.00     0.00  161.39    550.50    52.48  24.54    0.35     3.41    0.00      0.00     0.00   0.00    0.00     0.00   82.18    0.06    0.06  19.41".toList

/-- Example for C6 and C9: the time of the block of `TestParseIostatOutputExtended`. -/
def extendedStamp : Stamp :=
  { year := 2024, month := 9, day := 4, hour := 12, minute := 7, second := 26 }

/-- Example for C6: the columns of `extendedHeader` after the twelve base columns. -/
def extendedExtra : List Str :=
  ["d/s".toList, "dkB/s".toList, "drqm/s".toList, "%drqm".toList, "d_await".toList,
   "dareq-sz".toList, "f/s".toList, "f_await".toList, "aqu-sz".toList, "%util".toList]

/-- Example for C6: the tokens of `extendedRow` under the twelve base columns. -/
def extendedBase : List Str :=
  ["0.00".toList, "0.00".toList, "0.00".toList, "0.00".toList, "0.00".toList, "0.00".toList,
   "161.39".toList, "550.50".toList, "52.48".toList, "24.54".toList, "0.35".toList,
   "3.41".toList]

/-- Example for C6: the tokens of `extendedRow` under the further columns. -/
def extendedMore : List Str :=
  ["0.00".toList, "0.00".toList, "0.00".toList, "0.00".toList, "0.00".toList, "0.00".toList,
   "82.18".toList, "0.06".toList, "0.06".toList, "19.41".toList]

/-- Example for C12: the last block of `TestParseIostatFullSample`, whose
avg-cpu header ends in `**idle**`. -/
def c12Block : BlockText Stamp :=
  { ts := { year := 2024, month := 9, day := 4, hour := 12, minute := 7, second := 26 }
    tsLine := "09/04/24 12:07:26".toList
    cpuHeaderLine := "avg-cpu:  %user   %nice %system %iowait  %steal   **idle**".toList
    cpuValueLine := "          21.73    0.00    5.93    0.49    0.25   71.60".toList
    blanks := [[]]
    devHeaderLine := "Device            r/s     w/s  aqu-sz".toList
    rowLines := ["sda              0.00  161.39    0.06".toList]
    trail := [] }

/-- Example for C12: the text of `c12Block`. -/
def c12Input : Str :=
  ("09/04/24 12:07:26\n" ++
   "avg-cpu:  %user   %nice %system %iowait  %steal   **idle**\n" ++
   "          21.73    0.00    5.93    0.49    0.25   71.60\n" ++
   "\n" ++
   "Device            r/s     w/s  aqu-sz\n" ++
   "sda              0.00  161.39    0.06\n").toList

/-- Example for C14: a CPU value line of two tokens under six columns,
a device row that stops before `aqu-sz`, and a row that is only a name. -/
def c14Block : BlockText Stamp :=
  { ts := { year := 2024, month := 9, day := 4, hour := 12, minute := 7, second := 20 }
    tsLine := "09/04/24 12:07:20".toList
    cpuHeaderLine := "avg-cpu:  %user   %nice %system %iowait  %steal   %idle".toList
    cpuValueLine := "           2.36    0.00".toList
    blanks := []
    devHeaderLine := "Device            r/s     w/s  aqu-sz".toList
    rowLines := ["sda              2.08    9.58".toList, "sdb".toList]
    trail := [] }

/-- Example for C14: the text of `c14Block`. -/
def c14Input : Str :=
  ("09/04/24 12:07:20\n" ++
   "avg-cpu:  %user   %nice %system %iowait  %steal   %idle\n" ++
   "           2.36    0.00\n" ++
   "Device            r/s     w/s  aqu-sz\n" ++
   "sda              2.08    9.58\n" ++
   "sdb\n").toList

/-- Example for C16: a banner line and a blank line. -/
def c16Lead : List Str := ["Linux 5.15.0 (host) \t09/04/24 \t_x86_64_\t(8 CPU)".toList, []]

/-- Example for C13: the lines of a block up to its `Device` line. -/
def c13Lead : List Str :=
  ["09/04/24 12:07:20".toList,
   "avg-cpu:  %user   %idle".toList,
   "           2.36   97.20".toList,
   [],
   "Device            r/s     w/s".toList]

/-- Example for C13: a device row as wide as the `Device` line. -/
def c13Row : Str := "sda              2.08    9.58".toList

/-- Example for C13: the block of `c13Lead` with the row `c13Row`. -/
def c13Input : Str := joinLines c13Lead ++ c13Row

/-- Example for C13: `c13Input` with two more tokens on the CPU value line. -/
def c13WideCpu : Str :=
  ("09/04/24 12:07:20\n" ++
   "avg-cpu:  %user   %idle\n" ++
   "           2.36   97.20   N/A   7\n" ++
   "\n" ++
   "Device            r/s     w/s\n" ++
   "sda              2.08    9.58").toList

/-- Example for C13: `c13Input` with two more tokens on the device row. -/
def c13WideRow : Str := c13Input ++ "   0.06  extra".toList

/-- Example for C28 and C29: a timestamp. -/
def c28Stamp : Stamp :=
  { year := 2024, month := 9, day := 4, hour := 12, minute := 7, second := 20 }

/-- Example for C21: a block whose device rows are followed, without a
blank line, by the timestamp line of a second block. -/
def c21Input : Str :=
  ("09/04/24 12:07:20\n" ++
   "avg-cpu:  %user   %idle\n" ++
   "           2.36   97.20\n" ++
   "\n" ++
   "Device            r/s     w/s\n" ++
   "sda              2.08    9.58\n" ++
   "09/04/24 12:07:21\n" ++
   "avg-cpu:  %user   %idle\n" ++
   "           3.00   97.00\n" ++
   "\n" ++
   "Device            r/s     w/s\n" ++
   "sda              1.00    2.00\n").toList

/-- Example for C22: a timestamp line followed by lines without `avg-cpu:`. -/
def c22Input : Str :=
  ("09/04/24 12:07:20\n" ++
   "Device            r/s     w/s\n" ++
   "sda              2.08    9.58\n").toList

/-- Example for C23: the lines of a block up to a line that starts with
`Devices:`. -/
def c23Lead : List Str :=
  ["09/04/24 12:07:20".toList,
   "avg-cpu:  %user   %idle".toList,
   "           2.36   97.20".toList,
   [],
   "Devices:          r/s     w/s".toList]

/-- Example for C23: the block of `c23Lead` with one device row. -/
def c23Input : Str := joinLines (c23Lead ++ ["sda              2.08    9.58".toList])

/-- Example for C27: the block `c4Block1`, which ends with a blank line. -/
def c27A : Str := joinLines c4Block1.lines

/-- Example for C25: the lines of a block up to its `Device` line, whose
last column is `%util`. -/
def c25Lead : List Str :=
  ["09/04/24 12:07:20".toList,
   "avg-cpu:  %user   %idle".toList,
   "           2.36   97.20".toList,
   [],
   "Device            r/s     w/s  aqu-sz   %util".toList]

/-- Example for C25: a device row up to its token under `%util`. -/
def c25Row : Str := "sda              2.08    9.58    0.03".toList

/-- Example for C25: a block with the rows `sda` and `sdb`. -/
def c25Input : Str :=
  joinLines (c25Lead ++ ["sdb              0.00    1.00    0.00    0.50".toList]) ++
    (c25Row ++ "   19.41".toList)

/-- Example for C25: `c25Input` with other values under `%util`. -/
def c25Other : Str :=
  joinLines (c25Lead ++ ["sdb              0.00    1.00    0.00   77.00".toList]) ++
    (c25Row ++ "    0.00".toList)

/-- Example for C26: a CPU value line with two tokens that are not numeric. -/
def c26Input : Str :=
  ("09/04/24 12:07:20\n" ++
   "avg-cpu:  %user   %idle\n" ++
   "            N/A     n/a\n").toList

/-- Example for C26: `c26Input` with the two CPU columns exchanged. -/
def c26Swapped : Str :=
  ("09/04/24 12:07:20\n" ++
   "avg-cpu:  %idle   %user\n" ++
   "            n/a     N/A\n").toList

/-- Example for C26: a block with three CPU columns and three device columns. -/
def c26Good : Str :=
  ("09/04/24 12:07:20\n" ++
   "avg-cpu:  %user   %nice   %idle\n" ++
   "           2.36    0.10   97.20\n" ++
   "\n" ++
   "Device            r/s     w/s  aqu-sz\n" ++
   "sda              2.08    9.58    0.03\n" ++
   "sdb              0.00    1.00    0.00\n").toList

/-- Example for C26: `c26Good` with the columns rotated. -/
def c26Rotated : Str :=
  ("09/04/24 12:07:20\n" ++
   "avg-cpu:  %idle   %user   %nice\n" ++
   "          97.20    2.36    0.10\n" ++
   "\n" ++
   "Device         aqu-sz     r/s     w/s\n" ++
   "sda              0.03    2.08    9.58\n" ++
   "sdb              0.00    0.00    1.00\n").toList

/-! ## The timestamp layout

`ParseIostatOutput` hands each trimmed line to Go's `time.Parse` with the
layout `01/02/06 15:04:05`.  `time.Parse` belongs to the Go standard
library, so the parser above takes it as the parameter `Lib.parseTime`.
What the layout denotes is fixed below, following the specification:
two-digit month, day and year, a space, and two-digit hour, minute and
second. -/

/-- Modelled from the spec: Go `time.Parse("01/02/06 15:04:05", s)`, which
is standard-library code outside the repository.  A line matches only if
it has exactly the shape `MM/DD/YY HH:MM:SS` and denotes a valid
date-time; the year is `20YY` for `YY < 69` and `19YY` otherwise. -/
def timeParse (s : Str) : Option Stamp :=
  match s with
  | [m1, m2, '/', d1, d2, '/', y1, y2, ' ', h1, h2, ':', n1, n2, ':', s1, s2] =>
    match readNat [m1, m2], readNat [d1, d2], readNat [y1, y2],
          readNat [h1, h2], readNat [n1, n2], readNat [s1, s2] with
    | some mo, some d, some y, some h, some mi, some se =>
      let year := if y < 69 then 2000 + y else 1900 + y
      if 1 ≤ mo ∧ mo ≤ 12 ∧ 1 ≤ d ∧ d ≤ daysIn year mo ∧ h < 24 ∧ mi < 60 ∧ se < 60 then
        some { year := year, month := mo, day := d, hour := h, minute := mi, second := se }
      else none
    | _, _, _, _, _, _ => none
  | _ => none

/-- The two decimal digits of a number below 100. -/
def twoDigits (n : Nat) : Str := [Char.ofNat (48 + n / 10), Char.ofNat (48 + n % 10)]

/-- The line `MM/DD/YY HH:MM:SS` of six numbers below 100. -/
def stampText (mo d y h mi se : Nat) : Str :=
  twoDigits mo ++ '/' :: twoDigits d ++ '/' :: twoDigits y ++ ' ' ::
    twoDigits h ++ ':' :: twoDigits mi ++ ':' :: twoDigits se

/-- The executable instance with the timestamp layout of the specification. -/
def specLib : Lib Int Stamp :=
  { zero := 0, parseFloat := sampleParseFloat, parseTime := timeParse }

/-! ## The parser, one call of `scanner.Scan()` at a time

`ParseIostatOutput` reads its input with one scanner from six `for`
loops: the outer loop of lines 19-126 and the loops nested in it.  Which
loop receives a line depends on the lines before it.  `step` is the
same code as one transition per call of `Scan`: the phase names the loop
that makes the call, and `parseFrom_eq_run` proves that running the
transitions over a scan gives what `parseFrom` returns. -/

/-- The loop that makes the next call of `scanner.Scan()`. -/
inductive Phase (T : Type) where
  /-- the outer loop, lines 19-29: looking for a timestamp line -/
  | seekTimestamp
  /-- lines 33-42: looking for the `avg-cpu:` line -/
  | seekCpuHeader (ts : T)
  /-- lines 45-52: looking for the CPU value line -/
  | seekCpuValues (ts : T) (cpuHeader : List Str)
  /-- lines 77-86: looking for the `Device` line -/
  | seekDevHeader (ts : T)
  /-- lines 88-125: reading device rows -/
  | deviceLines (ts : T) (devHeader : List Str)
  /-- `ParseIostatOutput` has left its loops, with error `err` or none -/
  | stopped (err : Option ParseError)
deriving DecidableEq, Repr

section Machine

variable {F T : Type}

/-- Lines 53-73, with the CPU value tokens in hand: bind them and append
the CPU sample, or stop with the error of `ParseFloat`. -/
def cpuDone (L : Lib F T) (ts : T) (cpuHeader cpuValues : List Str) (p : ParsedData F T) :
    Phase T × ParsedData F T :=
  match cpuMapLoop L cpuValues 0 cpuHeader [] with
  | .error e => (.stopped (some e), p)
  | .ok cpuMap => (.seekDevHeader ts, { p with CPUs := p.CPUs ++ [mkCPUStats L ts cpuMap] })

/-- One call of `scanner.Scan()`: `none` when it returns `false`, which
ends the loop that made the call. -/
def step (L : Lib F T) : Phase T × ParsedData F T → Option Str → Phase T × ParsedData F T
  | (.seekTimestamp, p), none => (.stopped none, p)
  | (.seekTimestamp, p), some raw =>
    let line := trimSpace raw
    if line = [] then (.seekTimestamp, p)
    else
      match L.parseTime line with
      | none => (.seekTimestamp, p)
      | some ts => (.seekCpuHeader ts, p)
  | (.seekCpuHeader ts, p), none => (.seekCpuValues ts [], p)
  | (.seekCpuHeader ts, p), some raw =>
    let text := trimSpace raw
    if hasPrefix text "avg-cpu:".toList then
      let parts := fields text
      (.seekCpuValues ts (if parts.length > 1 then parts.drop 1 else []), p)
    else (.seekCpuHeader ts, p)
  | (.seekCpuValues ts cpuHeader, p), none => cpuDone L ts cpuHeader [] p
  | (.seekCpuValues ts cpuHeader, p), some raw =>
    let text := trimSpace raw
    if text = [] then (.seekCpuValues ts cpuHeader, p)
    else cpuDone L ts cpuHeader (fields text) p
  | (.seekDevHeader ts, p), none => (.deviceLines ts [], p)
  | (.seekDevHeader ts, p), some raw =>
    let text := trimSpace raw
    if text = [] then (.seekDevHeader ts, p)
    else if hasPrefix text "Device".toList then (.deviceLines ts (fields text), p)
    else (.seekDevHeader ts, p)
  | (.deviceLines _ _, p), none => (.seekTimestamp, p)
  | (.deviceLines ts devHeader, p), some raw =>
    let text := trimSpace raw
    if text = [] then (.seekTimestamp, p)
    else
      let flds := fields text
      match devMapLoop L flds 0 devHeader [] with
      | .error e => (.stopped (some e), p)
      | .ok devMap =>
        let dev := mkDeviceStats L ts flds devMap
        (.deviceLines ts devHeader, { p with Devices := DeviceMap.push dev p.Devices })
  | (.stopped e, p), _ => (.stopped e, p)

/-- The end of the scan: every further call of `Scan` returns `false`,
and five calls let the loops end one after the other. -/
def finish (L : Lib F T) (st : Phase T × ParsedData F T) :
    ParsedData F T × Option ParseError :=
  match (List.replicate 5 (none : Option Str)).foldl (step L) st with
  | (.stopped e, p) => (p, e)
  | (_, p) => (p, none)

/-- The state of the parser after the calls of `Scan` with outcomes `s`. -/
def phaseAfter (L : Lib F T) (s : Stream) : Phase T × ParsedData F T :=
  s.foldl (step L) (.seekTimestamp, { CPUs := [], Devices := [] })

/-- The transitions over a whole scan. -/
def run (L : Lib F T) (st : Phase T × ParsedData F T) (s : Stream) :
    ParsedData F T × Option ParseError :=
  finish L (s.foldl (step L) st)

end Machine

/-! ## The helpers `parseCPUStats` and `parseDeviceStats` (`parser/parser.go`, lines 145-243)

They take the tokens of one line by position; `ParseIostatOutput` does
not call them. -/

/-- The errors of the helpers: the `errors.New("...: wrong number of
fields")` of the length check, and the `*strconv.NumError` of a token
that `ParseFloat` rejects. -/
inductive FieldsError where
  | wrongCount
  | num (tok : Str)
deriving DecidableEq, Repr

section Helpers

variable {F T : Type}

/-- `ParseFloat` on `fields[i]`, `fields[i+1]`, ... for `n` indices, in
order, with `return` at the first error: the loop of lines 150-156 and
the twelve calls of `get` of lines 179-226. -/
def floatsLoop (L : Lib F T) (fields : List Str) : Nat → Nat → Except FieldsError (List F)
  | 0, _ => .ok []
  | n + 1, i =>
    match L.parseFloat (fields.getD i []) with
    | none => .error (.num (fields.getD i []))
    | some v =>
      match floatsLoop L fields n (i + 1) with
      | .error e => .error e
      | .ok vals => .ok (v :: vals)

/-- Go `parseCPUStats`. -/
def parseCPUStats (L : Lib F T) (ts : T) (fields : List Str) :
    Except FieldsError (CPUStats F T) :=
  if fields.length ≠ 6 then .error .wrongCount
  else
    match floatsLoop L fields 6 0 with
    | .error e => .error e
    | .ok vals =>
      .ok { Timestamp := ts
            User := vals.getD 0 L.zero
            Nice := vals.getD 1 L.zero
            System := vals.getD 2 L.zero
            Iowait := vals.getD 3 L.zero
            Steal := vals.getD 4 L.zero
            Idle := vals.getD 5 L.zero }

/-- Go `parseDeviceStats`; the struct literal does not set `QueueSize`,
which keeps its zero value. -/
def parseDeviceStats (L : Lib F T) (ts : T) (fields : List Str) :
    Except FieldsError (DeviceStats F T) :=
  if fields.length < 13 then .error .wrongCount
  else
    match floatsLoop L fields 12 1 with
    | .error e => .error e
    | .ok vals =>
      .ok { Timestamp := ts
            Name := fields.getD 0 []
            ReadsPerSec := vals.getD 0 L.zero
            ReadKBPerSec := vals.getD 1 L.zero
            ReadMergedPerSec := vals.getD 2 L.zero
            ReadPctMerged := vals.getD 3 L.zero
            ReadAwaitMs := vals.getD 4 L.zero
            ReadReqSzKB := vals.getD 5 L.zero
            WritesPerSec := vals.getD 6 L.zero
            WriteKBPerSec := vals.getD 7 L.zero
            WriteMergedPerSec := vals.getD 8 L.zero
            WritePctMerged := vals.getD 9 L.zero
            WriteAwaitMs := vals.getD 10 L.zero
            WriteReqSzKB := vals.getD 11 L.zero
            QueueSize := L.zero }

end Helpers

/-! ## Relations between two inputs -/

section Relations

variable {F T : Type}

/-- Two device rows under the header `devHeader` have the same tokens,
except under columns (other than the name column) whose name, stripped
of one leading `%`, is none of `deviceKeys`; there both rows hold a
token that `ParseFloat` accepts. -/
def TokensAgree (L : Lib F T) (devHeader flds flds2 : List Str) : Prop :=
  flds2.length = flds.length ∧
  ∀ i, i < flds.length →
    flds2.getD i [] = flds.getD i [] ∨
    (1 ≤ i ∧ i < devHeader.length ∧ trimPercent (devHeader.getD i []) ∉ deviceKeys ∧
      (L.parseFloat (flds.getD i [])).isSome = true ∧
      (L.parseFloat (flds2.getD i [])).isSome = true)

instance (L : Lib F T) (devHeader flds flds2 : List Str) :
    Decidable (TokensAgree L devHeader flds flds2) := by
  unfold TokensAgree; infer_instance

/-- Two outcomes of the same call of `Scan` in two runs that have reached
the state `st`: the same outcome, or two device rows that agree up to
tokens under unrecognized columns. -/
def SameUpToUnrecognized (L : Lib F T) (st : Phase T × ParsedData F T)
    (x x2 : Option Str) : Prop :=
  x2 = x ∨
  ∃ raw raw2 ts dh, x = some raw ∧ x2 = some raw2 ∧ st.1 = .deviceLines ts dh ∧
    trimSpace raw ≠ [] ∧ TokensAgree L dh (tokens raw) (tokens raw2)

/-- One permutation applied to the columns `hdr` and to the tokens `vals`
under them gives `hdr2` and `vals2`; the column names, stripped of one
leading `%`, are pairwise distinct, and there are as many tokens as
columns. -/
def ColumnsPermuted (hdr vals hdr2 vals2 : List Str) : Prop :=
  (hdr.map trimPercent).Nodup ∧ vals.length = hdr.length ∧ vals2.length = hdr2.length ∧
  List.Perm (hdr2.zip vals2) (hdr.zip vals)

/-- Block `b2` is block `b` with the columns of the avg-cpu header and
of the CPU value line permuted, or left as they are, and with the
columns of the Device header after the first and of every device row
permuted, or left as they are. -/
def BlockPermuted (b b2 : RawBlock T) : Prop :=
  b2.ts = b.ts ∧
  ((b2.cpuHeader = b.cpuHeader ∧ b2.cpuValues = b.cpuValues) ∨
    ColumnsPermuted b.cpuHeader b.cpuValues b2.cpuHeader b2.cpuValues) ∧
  ((b2.devHeader = b.devHeader ∧ b2.rows = b.rows) ∨
    (b2.devHeader.head? = b.devHeader.head? ∧
      List.Forall₂ (fun r r2 => r2.head? = r.head? ∧
        ColumnsPermuted b.devHeader.tail r.tail b2.devHeader.tail r2.tail) b.rows b2.rows))

end Relations

/-! ## Rendering a parsed result back to iostat text

The repository has no function that writes iostat text; the round-trip
property of the specification speaks of "the textual rendering of a
parsed result".  The rendering is fixed here from its description: per
CPU sample a timestamp line, the avg-cpu header and values, the Device
header with the recognized columns, one row per device and a blank
separator.  How a number is printed "with two decimals" and a timestamp
as `MM/DD/YY HH:MM:SS` is a parameter, like the library functions that
read them back. -/

/-- Modelled from the spec: the printing of a number with two decimals
and of a timestamp as `MM/DD/YY HH:MM:SS`, which the repository does not
contain. -/
structure Fmt (F T : Type) where
  float : F → Str
  time : T → Str

/-- A non-empty string without white space. -/
def IsToken (s : Str) : Prop := s ≠ [] ∧ ∀ c ∈ s, isSpace c = false

instance (s : Str) : Decidable (IsToken s) := by
  unfold IsToken; infer_instance

/-- Tokens separated by one space. -/
def unwords : List Str → Str
  | [] => []
  | [t] => t
  | t :: t2 :: ts => t ++ ' ' :: unwords (t2 :: ts)

/-- The avg-cpu header line with the six recognized columns. -/
def cpuHeaderText : Str := unwords ("avg-cpu:".toList :: cpuColumns)

/-- The Device header line with the thirteen recognized columns. -/
def devHeaderText : Str := unwords ("Device".toList :: (baseColumns ++ ["aqu-sz".toList]))

section Render

variable {F T : Type}

/-- Modelled from the spec: the row of a device sample, its name and its
thirteen numbers printed with two decimals. -/
def renderRow (fmt : Fmt F T) (d : DeviceStats F T) : Str :=
  unwords (d.Name :: d.values.map fmt.float)

/-- Modelled from the spec: the lines of one block, "timestamp line,
avg-cpu header and values, Device header with the recognized columns, one
row per device, blank separator". -/
def renderBlock (fmt : Fmt F T) (c : CPUStats F T) (rows : List (DeviceStats F T)) : List Str :=
  fmt.time c.Timestamp :: cpuHeaderText :: unwords (c.values.map fmt.float) ::
    devHeaderText :: (rows.map (renderRow fmt) ++ [[]])

/-- The sample number `j` of every device, in the order of the map. -/
def rowsAt (devs : DeviceMap F T) (j : Nat) : List (DeviceStats F T) :=
  devs.filterMap (fun kv => kv.2[j]?)

/-- The blocks of the CPU samples `cs`, the first of which has number `j`. -/
def renderFrom (fmt : Fmt F T) (devs : DeviceMap F T) :
    Nat → List (CPUStats F T) → List Str
  | _, [] => []
  | j, c :: cs => renderBlock fmt c (rowsAt devs j) ++ renderFrom fmt devs (j + 1) cs

/-- Modelled from the spec: the iostat text of a parsed result, one block
per CPU sample. -/
def render (fmt : Fmt F T) (p : ParsedData F T) : Str :=
  joinLines (renderFrom fmt p.Devices 0 p.CPUs)

/-- The block of `renderBlock` as the scanner hands it out. -/
def renderedBlock (fmt : Fmt F T) (c : CPUStats F T) (rows : List (DeviceStats F T)) :
    BlockText T :=
  { ts := c.Timestamp
    tsLine := dropCR (fmt.time c.Timestamp)
    cpuHeaderLine := dropCR cpuHeaderText
    cpuValueLine := dropCR (unwords (c.values.map fmt.float))
    blanks := []
    devHeaderLine := dropCR devHeaderText
    rowLines := rows.map (fun d => dropCR (renderRow fmt d))
    trail := [[]] }

/-- The blocks of `renderFrom` as the scanner hands them out. -/
def renderedBlocks (fmt : Fmt F T) (devs : DeviceMap F T) :
    Nat → List (CPUStats F T) → List (BlockText T)
  | _, [] => []
  | j, c :: cs => renderedBlock fmt c (rowsAt devs j) :: renderedBlocks fmt devs (j + 1) cs

/-- The numbers of a parsed result. -/
def ParsedData.numbers (p : ParsedData F T) : List F :=
  (p.CPUs.map CPUStats.values).flatten ++
    (p.Devices.map (fun kv => (kv.2.map DeviceStats.values).flatten)).flatten

/-- Every device has one sample per CPU sample: as many samples as there
are CPU samples, the sample number `j` taken at the time of CPU sample
number `j`. -/
def Aligned (p : ParsedData F T) : Prop :=
  ∀ kv ∈ p.Devices, kv.2.map (fun d => d.Timestamp) = p.CPUs.map (fun c => c.Timestamp)

/-- The shape of the device map of a parsed result: every name is a key
once, is a token, and heads the samples that carry it. -/
def DeviceMap.Proper (m : DeviceMap F T) : Prop :=
  (m.map Prod.fst).Nodup ∧ ∀ kv ∈ m, IsToken kv.1 ∧ ∀ d ∈ kv.2, d.Name = kv.1

end Render

/-- Digits of a natural number. -/
def natText (n : Nat) : Str := Nat.toDigits 10 n

/-- Hundredths printed with two decimals. -/
def sampleFloatText (x : Int) : Str :=
  (if x < 0 then ['-'] else []) ++ natText (x.natAbs / 100) ++ '.' :: twoDigits (x.natAbs % 100)

/-- The executable instance of the printing functions. -/
def sampleFmt : Fmt Int Stamp :=
  { float := sampleFloatText
    time := fun t => stampText t.month t.day (t.year % 100) t.hour t.minute t.second }

/-! ## Example inputs for the round trip -/

/-- Example for C24: two blocks, the rows `sda` and `sdb` in each. -/
def c24Input : Str :=
  ("Linux 5.15.0 (host) \t09/04/24 \t_x86_64_\t(8 CPU)\n\n" ++
   "09/04/24 12:07:20\n" ++
   "avg-cpu:  %user   %nice %system %iowait  %steal   %idle\n" ++
   "           2.36    0.00    0.40    0.04    0.01   97.20\n" ++
   "\n" ++
   "Device            r/s     w/s  aqu-sz\n" ++
   "sda              2.08    9.58    0.03\n" ++
   "sdb              0.00    1.00    0.00\n" ++
   "\n" ++
   "09/04/24 12:07:21\n" ++
   "avg-cpu:  %user   %idle\n" ++
   "           1.5    98.5\n" ++
   "\n" ++
   "Device            r/s     w/s\n" ++
   "sda              3       10.1\n" ++
   "sdb              0.25    0\n").toList

/-- Example for C24: thirteen tokens `1`. -/
def c24Ones : List Str := List.replicate 13 ['1']

/-- Example for C24: the lines of a block with one device called `nm`,
every number written `1`. -/
def c24Lines (nm : Str) : List Str :=
  ["09/04/24 12:07:20".toList, cpuHeaderText, "1 1 1 1 1 1".toList, devHeaderText,
   unwords (nm :: c24Ones), []]

/-- Example for C24: a device name of 65500 letters. -/
def c24Name : Str := List.replicate 65500 'x'

/-- Example for C24: a block whose device row of 65526 bytes is below the
scanner's limit. -/
def c24Long : Str := joinLines (c24Lines c24Name)

/-- Example for C24: a CPU sample whose numbers are all `1.00` (in
hundredths). -/
def c24Cpu : CPUStats Int Stamp :=
  { Timestamp := c28Stamp, User := 100, Nice := 100, System := 100, Iowait := 100,
    Steal := 100, Idle := 100 }

/-- Example for C24: a sample of the device `nm` whose numbers are all
`1.00` (in hundredths). -/
def c24Dev (nm : Str) : DeviceStats Int Stamp :=
  { Timestamp := c28Stamp, Name := nm, ReadsPerSec := 100, ReadKBPerSec := 100,
    ReadMergedPerSec := 100, ReadPctMerged := 100, ReadAwaitMs := 100, ReadReqSzKB := 100,
    WritesPerSec := 100, WriteKBPerSec := 100, WriteMergedPerSec := 100,
    WritePctMerged := 100, WriteAwaitMs := 100, WriteReqSzKB := 100, QueueSize := 100 }

/-- Example for C24: the parsed result of `c24Lines nm`. -/
def c24Data (nm : Str) : ParsedData Int Stamp :=
  { CPUs := [c24Cpu], Devices := [(nm, [c24Dev nm])] }

/-- The printing of `c24Lines`: every number as the single digit `1`. -/
def c24Digit : Fmt Int Stamp := { float := fun _ => ['1'], time := sampleFmt.time }

/-! ## Further example inputs -/

/-- Example for C6 and C9: the input of `TestParseIostatOutputExtended`. -/
def extendedInput : Str :=
  ("\n09/04/24 12:07:26\n" ++
   "avg-cpu:  %user   %nice %system %iowait  %steal   %idle\n" ++
   "          21.73    0.00    5.93    0.49    0.25   71.60\n" ++
   "\n" ++
   "Device            r/s     rkB/s   rrqm/s  %rrqm r_await rareq-sz     w/s     wkB/s   wrqm/s  %wrqm w_await wareq-sz     d/s     dkB/s   drqm/s  %drqm d_await dareq-sz     f/s f_await  aqu-sz  %util\n" ++
   "sda              0.00      0.00     0.00   0.00    0.00     0.00  161.39    550.50    52.48  24.54    0.35     3.41    0.00      0.00     0.00   0.00    0.00     0.00   82.18    0.06    0.06  19.41\n").toList

/-- Example for C6 and C9: the block of `extendedInput`. -/
def extendedBlock : RawBlock Stamp :=
  { ts := extendedStamp
    cpuHeader := cpuColumns
    cpuValues := ["21.73".toList, "0.00".toList, "5.93".toList, "0.49".toList, "0.25".toList,
      "71.60".toList]
    devHeader := extendedHeader
    rows := [tokens extendedRow] }

set_option maxRecDepth 100000


/-! ## The scanner on inputs whose lines fit -/

theorem scanLines_fit (ls : List Str) (h : ∀ l ∈ ls, byteLen l < maxScanTokenSize) :
    scanLines ls = (ls.map dropCR).map some := by
  induction ls with
  | nil => rfl
  | cons l rest ih =>
    have h1 : byteLen l < maxScanTokenSize := h l (List.mem_cons_self _ _)
    have h2 : ∀ x ∈ rest, byteLen x < maxScanTokenSize :=
      fun x hx => h x (List.mem_cons_of_mem _ hx)
    simp [scanLines, h1, ih h2]

theorem newScanner_fit (data : Str) (h : LinesFit data) :
    newScanner data = (scannedLines data).map some :=
  scanLines_fit _ h

theorem scannerErr_map_some (ls : List Str) : scannerErr (ls.map some) = none := by
  simp [scannerErr]

/-! ## Header and value tokens are zipped by position -/

section Zipping

variable {F T : Type}

theorem cpuMapLoop_eq_bindPairs (L : Lib F T) (vals : List Str) (hs : List Str) :
    ∀ (i : Nat) (m : FloatMap F),
      cpuMapLoop L vals i hs m = bindPairs L (hs.zip (vals.drop i)) m := by
  induction hs with
  | nil => intro i m; simp [cpuMapLoop, bindPairs]
  | cons h hs ih =>
    intro i m
    by_cases hi : i < vals.length
    · have hd : vals.drop i = vals.getD i [] :: vals.drop (i + 1) := by
        rw [List.getD_eq_getElem _ _ hi]
        exact List.drop_eq_getElem_cons hi
      rw [hd]
      simp only [cpuMapLoop, hi, if_true, List.zip_cons_cons, bindPairs]
      cases hpf : L.parseFloat (vals.getD i []) with
      | none => rfl
      | some v => simp only []; exact ih (i + 1) _
    · have hd : vals.drop i = [] := List.drop_eq_nil_of_le (Nat.le_of_not_lt hi)
      have hd1 : vals.drop (i + 1) = [] := List.drop_eq_nil_of_le (by omega)
      rw [hd]
      simp only [cpuMapLoop, hi, if_false, List.zip_nil_right, bindPairs]
      rw [ih (i + 1) m, hd1]
      simp [bindPairs]

theorem devMapLoop_eq_cpuMapLoop (L : Lib F T) (flds : List Str) (hs : List Str) :
    ∀ (i : Nat) (m : FloatMap F), 1 ≤ i →
      devMapLoop L flds i hs m = cpuMapLoop L flds i hs m := by
  induction hs with
  | nil => intro i m _; simp [cpuMapLoop, devMapLoop]
  | cons h hs ih =>
    intro i m hi
    have h0 : i ≠ 0 := by omega
    by_cases hlt : i < flds.length
    · have hge : ¬ (i ≥ flds.length) := by omega
      simp only [cpuMapLoop, devMapLoop, hlt, h0, hge, or_self, if_true, if_false]
      cases hpf : L.parseFloat (flds.getD i []) with
      | none => rfl
      | some v => simp only []; exact ih (i + 1) _ (by omega)
    · have hge : i ≥ flds.length := by omega
      simp only [cpuMapLoop, devMapLoop, hlt, hge, or_true, if_true, if_false]
      exact ih (i + 1) _ (by omega)

theorem devMapLoop_eq_bindPairs (L : Lib F T) (flds devHeader : List Str) :
    devMapLoop L flds 0 devHeader [] = bindPairs L (devHeader.tail.zip flds.tail) [] := by
  cases devHeader with
  | nil => simp [devMapLoop, bindPairs]
  | cons h hs =>
    simp only [devMapLoop, true_or, if_true, List.tail_cons, Nat.zero_add]
    rw [devMapLoop_eq_cpuMapLoop L flds hs 1 [] (le_refl 1), cpuMapLoop_eq_bindPairs]
    simp

end Zipping


section Refinement

variable {F T : Type}

/-! ## When the zipping fails -/

theorem bindPairs_error_iff (L : Lib F T) (ps : List (Str × Str)) :
    ∀ m : FloatMap F, (∃ e, bindPairs L ps m = .error e) ↔ ∃ p ∈ ps, L.parseFloat p.2 = none := by
  induction ps with
  | nil => intro m; simp [bindPairs]
  | cons q ps ih =>
    intro m
    obtain ⟨h, v⟩ := q
    cases hpf : L.parseFloat v with
    | none => simp [bindPairs, hpf]
    | some x => simp [bindPairs, hpf, ih]

theorem bindPairs_error_num (L : Lib F T) (ps : List (Str × Str)) :
    ∀ (m : FloatMap F) (e : ParseError), bindPairs L ps m = .error e →
      ∃ tok, e = .num tok ∧ L.parseFloat tok = none := by
  induction ps with
  | nil => intro m e h; simp [bindPairs] at h
  | cons q ps ih =>
    intro m e h
    obtain ⟨hd, v⟩ := q
    cases hpf : L.parseFloat v with
    | none =>
      simp only [bindPairs, hpf] at h
      exact ⟨v, by cases h; rfl, hpf⟩
    | some x =>
      simp only [bindPairs, hpf] at h
      exact ih _ e h

theorem exists_zip_iff (P : Str → Prop) (hs : List Str) :
    ∀ vs : List Str, (∃ p ∈ hs.zip vs, P p.2) ↔
      ∃ i, i < hs.length ∧ i < vs.length ∧ P (vs.getD i []) := by
  induction hs with
  | nil => intro vs; simp
  | cons h hs ih =>
    intro vs
    cases vs with
    | nil => simp
    | cons v vs =>
      simp only [List.zip_cons_cons, List.mem_cons, exists_eq_or_imp, List.length_cons, ih vs]
      constructor
      · rintro (h0 | ⟨i, h1, h2, h3⟩)
        · exact ⟨0, by omega, by omega, by simpa using h0⟩
        · exact ⟨i + 1, by omega, by omega, by simpa using h3⟩
      · rintro ⟨i, h1, h2, h3⟩
        cases i with
        | zero => left; simpa using h3
        | succ j => right; exact ⟨j, by omega, by omega, by simpa using h3⟩

theorem cpuMapLoop_error_iff (L : Lib F T) (b : RawBlock T) :
    (∃ e, cpuMapLoop L b.cpuValues 0 b.cpuHeader [] = .error e) ↔ BadCpu L b := by
  rw [cpuMapLoop_eq_bindPairs, bindPairs_error_iff, List.drop_zero]
  exact exists_zip_iff (fun t => L.parseFloat t = none) _ _

theorem devMapLoop_error_iff (L : Lib F T) (devHeader flds : List Str) :
    (∃ e, devMapLoop L flds 0 devHeader [] = .error e) ↔ BadRow L devHeader flds := by
  rw [devMapLoop_eq_bindPairs, bindPairs_error_iff,
    exists_zip_iff (fun t => L.parseFloat t = none)]
  unfold BadRow
  cases devHeader with
  | nil => simp
  | cons h hs =>
    cases flds with
    | nil => simp
    | cons f fs =>
      simp only [List.tail_cons, List.length_cons]
      constructor
      · rintro ⟨i, h1, h2, h3⟩
        exact ⟨i + 1, by omega, by omega, by omega, by simpa using h3⟩
      · rintro ⟨i, h0, h1, h2, h3⟩
        obtain ⟨j, rfl⟩ : ∃ j, i = j + 1 := ⟨i - 1, by omega⟩
        exact ⟨j, by omega, by omega, by simpa using h3⟩

theorem runRows_error_iff (L : Lib F T) (ts : T) (devHeader : List Str)
    (rows : List (List Str)) :
    ∀ p : ParsedData F T, (runRows L ts devHeader rows p).2 ≠ none ↔
      ∃ flds ∈ rows, BadRow L devHeader flds := by
  induction rows with
  | nil => intro p; simp [runRows]
  | cons flds rows ih =>
    intro p
    cases hm : devMapLoop L flds 0 devHeader [] with
    | error e =>
      have hb : BadRow L devHeader flds := (devMapLoop_error_iff L devHeader flds).1 ⟨e, hm⟩
      simp [runRows, hm, hb]
    | ok m =>
      have hb : ¬ BadRow L devHeader flds := by
        intro hb
        obtain ⟨e, he⟩ := (devMapLoop_error_iff L devHeader flds).2 hb
        rw [hm] at he; cases he
      simp [runRows, hm, hb, ih]

theorem runBlocks_error_iff (L : Lib F T) (bs : List (RawBlock T)) :
    ∀ p : ParsedData F T, (runBlocks L bs p).2 ≠ none ↔ ∃ b ∈ bs, BadBlock L b := by
  induction bs with
  | nil => intro p; simp [runBlocks]
  | cons b bs ih =>
    intro p
    cases hm : cpuMapLoop L b.cpuValues 0 b.cpuHeader [] with
    | error e =>
      have hb : BadBlock L b := Or.inl ((cpuMapLoop_error_iff L b).1 ⟨e, hm⟩)
      simp [runBlocks, hm, hb]
    | ok m =>
      have hc : ¬ BadCpu L b := by
        intro hb
        obtain ⟨e, he⟩ := (cpuMapLoop_error_iff L b).2 hb
        rw [hm] at he; cases he
      have hrows := runRows_error_iff L b.ts b.devHeader b.rows
        { p with CPUs := p.CPUs ++ [mkCPUStats L b.ts m] }
      cases hr : runRows L b.ts b.devHeader b.rows
          { p with CPUs := p.CPUs ++ [mkCPUStats L b.ts m] } with
      | mk p2 e =>
        rw [hr] at hrows
        cases e with
        | some e =>
          have hb : BadBlock L b := Or.inr (hrows.1 (by simp))
          simp [runBlocks, hm, hr, hb]
        | none =>
          have hb : ¬ BadBlock L b := by
            rintro (h1 | h2)
            · exact hc h1
            · exact (hrows.2 h2) rfl
          simp [runBlocks, hm, hr, hb, ih]

/-! ## The parser is the block-wise run of the block structure -/

theorem deviceLoop_eq_runRows (L : Lib F T) (ts : T) (devHeader : List Str) (s : Stream) :
    ∀ p : ParsedData F T,
      (deviceLoop L ts devHeader s p).1 = (runRows L ts devHeader (deviceRows s).1 p).1 ∧
      (deviceLoop L ts devHeader s p).2.1 = (runRows L ts devHeader (deviceRows s).1 p).2 ∧
      ((runRows L ts devHeader (deviceRows s).1 p).2 = none →
        (deviceLoop L ts devHeader s p).2.2 = (deviceRows s).2) := by
  induction s with
  | nil => intro p; simp [deviceLoop, deviceRows, runRows]
  | cons x rest ih =>
    intro p
    cases x with
    | none => simp [deviceLoop, deviceRows, runRows]
    | some raw =>
      by_cases hb : trimSpace raw = []
      · simp [deviceLoop, deviceRows, runRows, hb]
      · cases hm : devMapLoop L (fields (trimSpace raw)) 0 devHeader [] with
        | error e => simp [deviceLoop, deviceRows, runRows, hb, hm]
        | ok m =>
          simp only [deviceLoop, deviceRows, runRows, hb, hm, if_false]
          exact ih _

theorem parseLoop_eq_runBlocks (L : Lib F T) (n : Nat) :
    ∀ (s : Stream) (p : ParsedData F T),
      parseLoop L n s p = runBlocks L (blocksLoop L n s) p := by
  induction n with
  | zero => intro s p; simp [parseLoop, blocksLoop, runBlocks]
  | succ n ih =>
    intro s p
    cases s with
    | nil => simp [parseLoop, blocksLoop, runBlocks]
    | cons x rest =>
      cases x with
      | none => simp [parseLoop, blocksLoop, runBlocks]
      | some raw =>
        by_cases hb : trimSpace raw = []
        · simp only [parseLoop, blocksLoop, hb, if_true]; exact ih _ _
        · cases ht : L.parseTime (trimSpace raw) with
          | none => simp only [parseLoop, blocksLoop, hb, ht, if_false]; exact ih _ _
          | some ts =>
            simp only [parseLoop, blocksLoop, hb, ht, if_false, runBlocks]
            cases hm : cpuMapLoop L (findCpuValues (findCpuHeader rest).2).1 0
                (findCpuHeader rest).1 [] with
            | error e => rfl
            | ok m =>
              simp only []
              have hd := deviceLoop_eq_runRows L ts
                (findDevHeader (findCpuValues (findCpuHeader rest).2).2).1
                (findDevHeader (findCpuValues (findCpuHeader rest).2).2).2
                { p with CPUs := p.CPUs ++ [mkCPUStats L ts m] }
              generalize deviceLoop L ts
                (findDevHeader (findCpuValues (findCpuHeader rest).2).2).1
                (findDevHeader (findCpuValues (findCpuHeader rest).2).2).2
                { p with CPUs := p.CPUs ++ [mkCPUStats L ts m] } = dl at hd ⊢
              generalize runRows L ts
                (findDevHeader (findCpuValues (findCpuHeader rest).2).2).1
                (deviceRows (findDevHeader (findCpuValues (findCpuHeader rest).2).2).2).1
                { p with CPUs := p.CPUs ++ [mkCPUStats L ts m] } = rr at hd ⊢
              obtain ⟨p2, e2, s4⟩ := dl
              obtain ⟨q2, f2⟩ := rr
              obtain ⟨h1, h2, h3⟩ := hd
              simp only at h1 h2 h3
              subst h1; subst h2
              cases e2 with
              | some e => rfl
              | none =>
                simp only []
                rw [h3 rfl]
                exact ih _ _

end Refinement


section WhiteSpace

variable {F T : Type}

/-! ## White space -/

theorem trimSpace_eq_nil_of_all_space (s : Str) (h : ∀ c ∈ s, isSpace c = true) :
    trimSpace s = [] := by
  have h1 : s.dropWhile isSpace = [] := List.dropWhile_eq_nil_iff.2 h
  simp [trimSpace, h1]

theorem exists_not_space_of_trimSpace_ne_nil (s : Str) (h : trimSpace s ≠ []) :
    ∃ c ∈ s, isSpace c = false := by
  by_contra hcon
  apply h
  apply trimSpace_eq_nil_of_all_space
  intro c hc
  by_contra hsp
  exact hcon ⟨c, hc, by simpa using hsp⟩

theorem fieldsGo_ne_nil (s : Str) :
    ∀ cur : Str, (cur ≠ [] ∨ ∃ c ∈ s, isSpace c = false) → fieldsGo cur s ≠ [] := by
  induction s with
  | nil =>
    intro cur h
    rcases h with h | ⟨c, hc, _⟩
    · simp [fieldsGo, h]
    · cases hc
  | cons a s ih =>
    intro cur h
    by_cases ha : isSpace a = true
    · by_cases hcur : cur = []
      · have hs : ∃ c ∈ s, isSpace c = false := by
          rcases h with h | ⟨c, hc, hsp⟩
          · exact absurd hcur h
          · rcases List.mem_cons.1 hc with rfl | hc
            · rw [ha] at hsp; cases hsp
            · exact ⟨c, hc, hsp⟩
        simp only [fieldsGo, ha, hcur, if_true]
        exact ih [] (Or.inr hs)
      · simp [fieldsGo, ha, hcur]
    · simp only [fieldsGo, ha]
      exact ih (a :: cur) (Or.inl (List.cons_ne_nil _ _))

/-- The row whose name `ParseIostatOutput` reads with `fields[0]` has a
first token: the index is in range whenever the trimmed line is not empty. -/
theorem fields_trimSpace_ne_nil (raw : Str) (h : trimSpace raw ≠ []) :
    fields (trimSpace raw) ≠ [] := by
  have hne : ((raw.dropWhile isSpace).reverse.dropWhile isSpace) ≠ [] := by
    intro h0; apply h; simp [trimSpace, h0]
  have hmem : ((raw.dropWhile isSpace).reverse.dropWhile isSpace).head hne ∈ trimSpace raw := by
    simp only [trimSpace, List.mem_reverse]
    exact List.head_mem hne
  have hsp : isSpace (((raw.dropWhile isSpace).reverse.dropWhile isSpace).head hne) = false := by
    have := List.head_dropWhile_not isSpace (raw.dropWhile isSpace).reverse hne
    simpa using this
  exact fieldsGo_ne_nil _ [] (Or.inr ⟨_, hmem, hsp⟩)

end WhiteSpace


section Blockwise

variable {F T : Type}

/-! ## `ParseIostatOutput` through the block structure -/

theorem parseFrom_eq_runBlocks (L : Lib F T) (s : Stream) (p : ParsedData F T) :
    parseFrom L s p = runBlocks L (rawBlocks L s) p :=
  parseLoop_eq_runBlocks L s.length s p

theorem runRows_error_is_num (L : Lib F T) (ts : T) (devHeader : List Str)
    (rows : List (List Str)) :
    ∀ (p : ParsedData F T) (e : ParseError), (runRows L ts devHeader rows p).2 = some e →
      ∃ tok, e = .num tok ∧ L.parseFloat tok = none := by
  induction rows with
  | nil => intro p e h; simp [runRows] at h
  | cons flds rows ih =>
    intro p e h
    cases hm : devMapLoop L flds 0 devHeader [] with
    | error e2 =>
      simp only [runRows, hm] at h
      cases h
      rw [devMapLoop_eq_bindPairs] at hm
      exact bindPairs_error_num L _ _ _ hm
    | ok m =>
      simp only [runRows, hm] at h
      exact ih _ e h

theorem runRows_CPUs (L : Lib F T) (ts : T) (devHeader : List Str) (rows : List (List Str)) :
    ∀ p : ParsedData F T, (runRows L ts devHeader rows p).1.CPUs = p.CPUs := by
  induction rows with
  | nil => intro p; rfl
  | cons flds rows ih =>
    intro p
    cases hm : devMapLoop L flds 0 devHeader [] with
    | error e => simp [runRows, hm]
    | ok m => simp only [runRows, hm]; rw [ih]

theorem runBlocks_error_is_num (L : Lib F T) (bs : List (RawBlock T)) :
    ∀ (p : ParsedData F T) (e : ParseError), (runBlocks L bs p).2 = some e →
      ∃ tok, e = .num tok ∧ L.parseFloat tok = none := by
  induction bs with
  | nil => intro p e h; simp [runBlocks] at h
  | cons b bs ih =>
    intro p e h
    cases hm : cpuMapLoop L b.cpuValues 0 b.cpuHeader [] with
    | error e2 =>
      simp only [runBlocks, hm] at h
      cases h
      rw [cpuMapLoop_eq_bindPairs] at hm
      exact bindPairs_error_num L _ _ _ hm
    | ok m =>
      simp only [runBlocks, hm] at h
      cases hr : runRows L b.ts b.devHeader b.rows
          { p with CPUs := p.CPUs ++ [mkCPUStats L b.ts m] } with
      | mk p2 e2 =>
        rw [hr] at h
        cases e2 with
        | some e3 =>
          simp only [] at h
          cases h
          exact runRows_error_is_num L _ _ _ _ _ (by rw [hr])
        | none => exact ih _ e h

theorem runBlocks_CPUs_length_le (L : Lib F T) (bs : List (RawBlock T)) :
    ∀ p : ParsedData F T, p.CPUs.length ≤ (runBlocks L bs p).1.CPUs.length := by
  induction bs with
  | nil => intro p; simp [runBlocks]
  | cons b bs ih =>
    intro p
    cases hm : cpuMapLoop L b.cpuValues 0 b.cpuHeader [] with
    | error e => simp [runBlocks, hm]
    | ok m =>
      have hc := runRows_CPUs L b.ts b.devHeader b.rows
        { p with CPUs := p.CPUs ++ [mkCPUStats L b.ts m] }
      simp only [runBlocks, hm]
      cases hr : runRows L b.ts b.devHeader b.rows
          { p with CPUs := p.CPUs ++ [mkCPUStats L b.ts m] } with
      | mk p2 e2 =>
        rw [hr] at hc
        simp only [] at hc
        have hlen : p2.CPUs.length = p.CPUs.length + 1 := by rw [hc]; simp
        cases e2 with
        | some e3 => simp only []; omega
        | none =>
          simp only []
          have := ih p2
          omega

theorem ParseIostatOutput_fst (L : Lib F T) (data : Str) :
    (ParseIostatOutput L data).1 =
      (runBlocks L (rawBlocks L (newScanner data)) { CPUs := [], Devices := [] }).1 := by
  unfold ParseIostatOutput
  simp only [parseFrom_eq_runBlocks]
  generalize runBlocks L (rawBlocks L (newScanner data)) { CPUs := [], Devices := [] } = r
  obtain ⟨p, e⟩ := r
  cases e <;> rfl

theorem ParseIostatOutput_snd_none (L : Lib F T) (data : Str)
    (h : (ParseIostatOutput L data).2 = none) :
    (runBlocks L (rawBlocks L (newScanner data)) { CPUs := [], Devices := [] }).2 = none := by
  unfold ParseIostatOutput at h
  simp only [parseFrom_eq_runBlocks] at h
  generalize runBlocks L (rawBlocks L (newScanner data)) { CPUs := [], Devices := [] } = r at h ⊢
  obtain ⟨p, e⟩ := r
  cases e with
  | none => rfl
  | some e => simp at h

theorem ParseIostatOutput_fit (L : Lib F T) (data : Str) (hfit : LinesFit data) :
    ParseIostatOutput L data =
      runBlocks L (rawBlocks L (newScanner data)) { CPUs := [], Devices := [] } := by
  unfold ParseIostatOutput
  simp only [parseFrom_eq_runBlocks]
  generalize hr : runBlocks L (rawBlocks L (newScanner data)) { CPUs := [], Devices := [] } = r
  obtain ⟨p, e⟩ := r
  cases e with
  | some e => rfl
  | none =>
    simp only []
    rw [newScanner_fit data hfit, scannerErr_map_some]

theorem blocksLoop_no_timestamp (L : Lib F T) (ls : List Str)
    (h : ∀ l ∈ ls, trimSpace l = [] ∨ L.parseTime (trimSpace l) = none) :
    ∀ n, blocksLoop L n (ls.map some) = [] := by
  induction ls with
  | nil => intro n; cases n <;> rfl
  | cons l rest ih =>
    intro n
    cases n with
    | zero => rfl
    | succ n =>
      have hrest : ∀ x ∈ rest, trimSpace x = [] ∨ L.parseTime (trimSpace x) = none :=
        fun x hx => h x (List.mem_cons_of_mem _ hx)
      rcases h l (List.mem_cons_self _ _) with h0 | h0
      · simp only [List.map_cons, blocksLoop, h0, if_true]; exact ih hrest n
      · by_cases hb : trimSpace l = []
        · simp only [List.map_cons, blocksLoop, hb, if_true]; exact ih hrest n
        · simp only [List.map_cons, blocksLoop, hb, h0, if_false]; exact ih hrest n

end Blockwise

/-! ## Claims -/

/-- C1: for every input whose lines fit the scanner's line limit,
`ParseIostatOutput` returns an error if and only if some block of the
input holds a CPU value token under a column of the avg-cpu header, or a
device-row token at a position `i ≥ 1` under a column of the Device
header, that `ParseFloat` rejects; nothing else makes it fail. -/
theorem C1_error_iff_bad_token {F T : Type} (L : Lib F T) (data : Str)
    (hfit : LinesFit data) :
    (ParseIostatOutput L data).2 ≠ none ↔
      ∃ b ∈ rawBlocks L (newScanner data), BadBlock L b := by
  rw [ParseIostatOutput_fit L data hfit]
  exact runBlocks_error_iff L _ _



/-- Witness of C1 on `c1Input`. -/
theorem C1_witness :
    LinesFit c1Input ∧
    ((ParseIostatOutput sampleLib c1Input).2 ≠ none ↔
      ∃ b ∈ rawBlocks sampleLib (newScanner c1Input), BadBlock sampleLib b) :=
  ⟨by decide, C1_error_iff_bad_token sampleLib c1Input (by decide)⟩


/-- C2 fails on `c2Input`: the parse fails on the token `N/A` of the
second block, and the data returned with the error holds the CPU sample
and the device sample of the first block. -/
theorem C2_counterexample :
    (ParseIostatOutput sampleLib c2Input).2 = some (.num "N/A".toList) ∧
    (ParseIostatOutput sampleLib c2Input).1.CPUs.length = 1 ∧
    ((ParseIostatOutput sampleLib c2Input).1.Devices.get "sda".toList).length = 1 := by
  decide

/-- C2, amended: when `ParseIostatOutput` fails on a token that is not
numeric, the data returned with the error is what the blocks before the
bad token have accumulated (the run of the block structure up to that
token).  It holds no CPU sample and no device sample exactly when the bad
token lies in the CPU value line of the first block. -/
theorem C2_failure_returns_accumulated {F T : Type} (L : Lib F T) (data : Str) (tok : Str)
    (h : (ParseIostatOutput L data).2 = some (.num tok)) :
    (ParseIostatOutput L data).1 =
        (runBlocks L (rawBlocks L (newScanner data)) { CPUs := [], Devices := [] }).1 ∧
    (((ParseIostatOutput L data).1.CPUs = [] ∧ (ParseIostatOutput L data).1.Devices = []) ↔
      ∃ b bs, rawBlocks L (newScanner data) = b :: bs ∧ BadCpu L b) := by
  have hP : (ParseIostatOutput L data).1 =
      (runBlocks L (rawBlocks L (newScanner data)) { CPUs := [], Devices := [] }).1 ∧
      (runBlocks L (rawBlocks L (newScanner data)) { CPUs := [], Devices := [] }).2 =
        some (.num tok) := by
    unfold ParseIostatOutput at h ⊢
    simp only [parseFrom_eq_runBlocks] at h ⊢
    generalize runBlocks L (rawBlocks L (newScanner data)) { CPUs := [], Devices := [] } = r at h ⊢
    obtain ⟨p, e⟩ := r
    cases e with
    | some e => exact ⟨rfl, h⟩
    | none =>
      simp only [scannerErr] at h
      split at h <;> cases h
  refine ⟨hP.1, ?_⟩
  rw [hP.1]
  have hE := hP.2
  cases hbs : rawBlocks L (newScanner data) with
  | nil => rw [hbs] at hE; simp [runBlocks] at hE
  | cons b bs =>
    rw [hbs] at hE
    cases hm : cpuMapLoop L b.cpuValues 0 b.cpuHeader [] with
    | error e =>
      have hb : BadCpu L b := (cpuMapLoop_error_iff L b).1 ⟨e, hm⟩
      simp only [runBlocks, hm]
      exact ⟨fun _ => ⟨b, bs, rfl, hb⟩, fun _ => by simp⟩
    | ok m =>
      have hc : ¬ BadCpu L b := by
        intro hb
        obtain ⟨e, he⟩ := (cpuMapLoop_error_iff L b).2 hb
        rw [hm] at he; cases he
      have hlen := runBlocks_CPUs_length_le L (b :: bs) { CPUs := [], Devices := [] }
      have hpos : 0 < (runBlocks L (b :: bs) { CPUs := [], Devices := [] }).1.CPUs.length := by
        simp only [runBlocks, hm]
        have hc2 := runRows_CPUs L b.ts b.devHeader b.rows
          { CPUs := [] ++ [mkCPUStats L b.ts m], Devices := [] }
        cases hr : runRows L b.ts b.devHeader b.rows
          { CPUs := [] ++ [mkCPUStats L b.ts m], Devices := [] } with
        | mk p2 e2 =>
          rw [hr] at hc2
          simp only [] at hc2
          have hl2 : p2.CPUs.length = 1 := by rw [hc2]; simp
          cases e2 with
          | some e3 => simp only []; omega
          | none =>
            simp only []
            have := runBlocks_CPUs_length_le L bs p2
            omega
      constructor
      · rintro ⟨h1, _⟩
        rw [h1] at hpos
        simp at hpos
      · rintro ⟨b2, bs2, heq, hb2⟩
        cases heq
        exact absurd hb2 hc

/-- Witness of C2 (amended) on `c2Input`. -/
theorem C2_witness :
    (ParseIostatOutput sampleLib c2Input).2 = some (.num "N/A".toList) ∧
    ((ParseIostatOutput sampleLib c2Input).1 =
        (runBlocks sampleLib (rawBlocks sampleLib (newScanner c2Input))
          { CPUs := [], Devices := [] }).1 ∧
     (((ParseIostatOutput sampleLib c2Input).1.CPUs = [] ∧
        (ParseIostatOutput sampleLib c2Input).1.Devices = []) ↔
      ∃ b bs, rawBlocks sampleLib (newScanner c2Input) = b :: bs ∧ BadCpu sampleLib b)) :=
  ⟨by decide, C2_failure_returns_accumulated sampleLib c2Input "N/A".toList (by decide)⟩


/-! ## C10 -/

theorem rawLinesGo_replicate_space (n : Nat) :
    ∀ cur : Str, rawLinesGo cur (List.replicate (n + 1) ' ') =
      [cur.reverse ++ List.replicate (n + 1) ' '] := by
  induction n with
  | zero => intro cur; simp [rawLinesGo]
  | succ n ih =>
    intro cur
    have hne : (' ' : Char) ≠ '\n' := by decide
    have hrep : List.replicate (n + 1 + 1) ' ' = ' ' :: List.replicate (n + 1) ' ' := rfl
    rw [hrep, rawLinesGo, if_neg hne, ih]
    simp

theorem rawLines_replicate_space (n : Nat) :
    rawLines (List.replicate (n + 1) ' ') = [List.replicate (n + 1) ' '] := by
  unfold rawLines
  rw [rawLinesGo_replicate_space]
  rfl

theorem byteLen_replicate_space (n : Nat) : byteLen (List.replicate n ' ') = n := by
  have h1 : Char.utf8Size ' ' = 1 := by decide
  simp [byteLen, List.map_replicate, List.sum_replicate, h1]

theorem ParseIostatOutput_long_blank_line {F T : Type} (L : Lib F T) (n : Nat)
    (h : maxScanTokenSize ≤ n + 1) :
    ParseIostatOutput L (List.replicate (n + 1) ' ') =
      ({ CPUs := [], Devices := [] }, some .tooLong) := by
  have hb : ¬ byteLen (List.replicate (n + 1) ' ') < maxScanTokenSize := by
    rw [byteLen_replicate_space]; omega
  unfold ParseIostatOutput newScanner
  rw [rawLines_replicate_space, scanLines, if_neg hb]
  rfl

theorem no_timestamp_long_blank_line {F T : Type} (L : Lib F T) (n : Nat)
    (hT : L.parseTime [] = none) :
    ∀ l ∈ rawLines (List.replicate (n + 1) ' '), L.parseTime (trimSpace l) = none := by
  intro l hl
  rw [rawLines_replicate_space, List.mem_singleton] at hl
  have ht : trimSpace l = [] := by
    apply trimSpace_eq_nil_of_all_space
    intro c hc
    rw [hl] at hc
    rw [List.eq_of_mem_replicate hc]
    decide
  rw [ht]
  exact hT

/-- C10 fails on an input that is one line of 65536 spaces: no line
parses as a timestamp (the scanner hands out no line at all), and
`ParseIostatOutput` returns the scanner's `ErrTooLong`. -/
theorem C10_counterexample :
    (∀ l ∈ rawLines (List.replicate 65536 ' '), sampleLib.parseTime (trimSpace l) = none) ∧
    ParseIostatOutput sampleLib (List.replicate 65536 ' ') =
      ({ CPUs := [], Devices := [] }, some .tooLong) :=
  ⟨no_timestamp_long_blank_line sampleLib 65535 rfl,
    ParseIostatOutput_long_blank_line sampleLib 65535 (by decide)⟩

/-- C10, amended: for the empty input, and for every input whose lines
fit the scanner's line limit and none of whose trimmed lines parses as a
timestamp, `ParseIostatOutput` returns no error, no CPU sample and a
device map without keys. -/
theorem C10_no_timestamp_empty_result {F T : Type} (L : Lib F T) :
    ParseIostatOutput L [] = ({ CPUs := [], Devices := [] }, none) ∧
    ∀ data : Str, LinesFit data →
      (∀ l ∈ scannedLines data, trimSpace l = [] ∨ L.parseTime (trimSpace l) = none) →
      ParseIostatOutput L data = ({ CPUs := [], Devices := [] }, none) := by
  constructor
  · rfl
  · intro data hfit hno
    rw [ParseIostatOutput_fit L data hfit, newScanner_fit data hfit]
    unfold rawBlocks
    rw [blocksLoop_no_timestamp L _ hno]
    rfl

/-- Witness of C10 (amended) on a banner-only input. -/
theorem C10_witness :
    LinesFit c10Input ∧
    (∀ l ∈ scannedLines c10Input,
      trimSpace l = [] ∨ sampleLib.parseTime (trimSpace l) = none) ∧
    ParseIostatOutput sampleLib c10Input = ({ CPUs := [], Devices := [] }, none) :=
  ⟨by decide, by decide,
    (C10_no_timestamp_empty_result sampleLib).2 c10Input (by decide) (by decide)⟩

/-! ## The fuel of the outer loop is never exhausted -/

section Fuel

variable {F T : Type}

theorem findCpuHeader_length (s : Stream) : (findCpuHeader s).2.length ≤ s.length := by
  induction s with
  | nil => simp [findCpuHeader]
  | cons x rest ih =>
    cases x with
    | none => simp [findCpuHeader]
    | some raw =>
      simp only [findCpuHeader]
      split
      · simp
      · simp only [List.length_cons]; omega

theorem findCpuValues_length (s : Stream) : (findCpuValues s).2.length ≤ s.length := by
  induction s with
  | nil => simp [findCpuValues]
  | cons x rest ih =>
    cases x with
    | none => simp [findCpuValues]
    | some raw =>
      simp only [findCpuValues]
      split
      · simp only [List.length_cons]; omega
      · simp

theorem findDevHeader_length (s : Stream) : (findDevHeader s).2.length ≤ s.length := by
  induction s with
  | nil => simp [findDevHeader]
  | cons x rest ih =>
    cases x with
    | none => simp [findDevHeader]
    | some raw =>
      simp only [findDevHeader]
      split
      · simp only [List.length_cons]; omega
      · split
        · simp
        · simp only [List.length_cons]; omega

theorem deviceRows_length (s : Stream) : (deviceRows s).2.length ≤ s.length := by
  induction s with
  | nil => simp [deviceRows]
  | cons x rest ih =>
    cases x with
    | none => simp [deviceRows]
    | some raw =>
      simp only [deviceRows]
      split
      · simp
      · simp only [List.length_cons]; omega

theorem block_rest_length (rest : Stream) :
    (deviceRows (findDevHeader (findCpuValues (findCpuHeader rest).2).2).2).2.length ≤
      rest.length := by
  have h1 := findCpuHeader_length rest
  have h2 := findCpuValues_length (findCpuHeader rest).2
  have h3 := findDevHeader_length (findCpuValues (findCpuHeader rest).2).2
  have h4 := deviceRows_length (findDevHeader (findCpuValues (findCpuHeader rest).2).2).2
  omega

theorem blocksLoop_fuel (L : Lib F T) (n : Nat) :
    ∀ (m : Nat) (s : Stream), s.length ≤ n → s.length ≤ m →
      blocksLoop L n s = blocksLoop L m s := by
  induction n with
  | zero =>
    intro m s hn _
    have hs : s = [] := List.length_eq_zero.1 (Nat.le_zero.1 hn)
    subst hs
    cases m <;> rfl
  | succ n ih =>
    intro m s hn hm
    cases s with
    | nil => cases m <;> rfl
    | cons x rest =>
      cases m with
      | zero => simp at hm
      | succ m =>
        simp only [List.length_cons, Nat.add_le_add_iff_right] at hn hm
        cases x with
        | none => rfl
        | some raw =>
          have hlen := block_rest_length rest
          simp only [blocksLoop]
          split
          · exact ih m rest hn hm
          · split
            · exact ih m rest hn hm
            · rw [ih m _ (by omega) (by omega)]

theorem rawBlocks_of_fuel (L : Lib F T) (n : Nat) (s : Stream) (h : s.length ≤ n) :
    blocksLoop L n s = rawBlocks L s :=
  blocksLoop_fuel L n s.length s h (le_refl _)

theorem rawBlocks_skip (L : Lib F T) (l : Str) (rest : Stream)
    (h : trimSpace l = [] ∨ L.parseTime (trimSpace l) = none) :
    rawBlocks L (some l :: rest) = rawBlocks L rest := by
  unfold rawBlocks
  simp only [List.length_cons, blocksLoop]
  rcases h with h | h
  · simp [h]
  · simp only [h]
    split <;> rfl

theorem rawBlocks_timestamp (L : Lib F T) (l : Str) (rest : Stream) (ts : T)
    (h0 : trimSpace l ≠ []) (h1 : L.parseTime (trimSpace l) = some ts) :
    rawBlocks L (some l :: rest) =
      { ts := ts
        cpuHeader := (findCpuHeader rest).1
        cpuValues := (findCpuValues (findCpuHeader rest).2).1
        devHeader := (findDevHeader (findCpuValues (findCpuHeader rest).2).2).1
        rows := (deviceRows (findDevHeader (findCpuValues (findCpuHeader rest).2).2).2).1 } ::
      rawBlocks L (deviceRows (findDevHeader (findCpuValues (findCpuHeader rest).2).2).2).2 := by
  have hlen := block_rest_length rest
  conv_lhs => unfold rawBlocks
  simp only [List.length_cons, blocksLoop, h0, h1, if_false]
  rw [rawBlocks_of_fuel L _ _ hlen]

theorem rawBlocks_skip_all (L : Lib F T) (lead : List Str) (rest : Stream)
    (h : ∀ l ∈ lead, trimSpace l = [] ∨ L.parseTime (trimSpace l) = none) :
    rawBlocks L (lead.map some ++ rest) = rawBlocks L rest := by
  induction lead with
  | nil => rfl
  | cons l lead ih =>
    rw [List.map_cons, List.cons_append, rawBlocks_skip L l _ (h l (List.mem_cons_self _ _))]
    exact ih (fun x hx => h x (List.mem_cons_of_mem _ hx))

end Fuel

/-! ## The device map -/

section DeviceMaps

variable {F T : Type}

theorem lookup_cons_ite {β : Type} (n k : Str) (v : β) (rest : List (Str × β)) :
    List.lookup n ((k, v) :: rest) = if n = k then some v else List.lookup n rest := by
  by_cases h : n = k
  · subst h; simp [List.lookup]
  · have hb : (n == k) = false := by simpa using h
    simp [List.lookup, hb, h]

theorem DeviceMap.get_push (d : DeviceStats F T) (m : DeviceMap F T) (n : Str) :
    (DeviceMap.push d m).get n = if n = d.Name then m.get n ++ [d] else m.get n := by
  induction m with
  | nil =>
    simp only [DeviceMap.push, DeviceMap.get, lookup_cons_ite]
    split <;> simp [List.lookup]
  | cons kv rest ih =>
    obtain ⟨k, v⟩ := kv
    simp only [DeviceMap.get] at ih
    by_cases hk : k = d.Name
    · subst hk
      simp only [DeviceMap.push, DeviceMap.get, lookup_cons_ite, if_true]
      split <;> simp
    · simp only [DeviceMap.push, DeviceMap.get, lookup_cons_ite, hk, if_false]
      by_cases hnk : n = k
      · have h : ¬ n = d.Name := by rw [hnk]; exact hk
        simp [hnk, h, hk]
      · simp only [hnk, if_false]
        exact ih

theorem DeviceMap.keys_push (d : DeviceStats F T) (m : DeviceMap F T) :
    (DeviceMap.push d m).keys = if d.Name ∈ m.keys then m.keys else m.keys ++ [d.Name] := by
  induction m with
  | nil => simp [DeviceMap.push, DeviceMap.keys]
  | cons kv rest ih =>
    obtain ⟨k, v⟩ := kv
    by_cases hk : k = d.Name
    · simp [DeviceMap.push, DeviceMap.keys, hk]
    · have hk2 : ¬ d.Name = k := fun h => hk h.symm
      simp only [DeviceMap.keys] at ih
      simp only [DeviceMap.push, DeviceMap.keys, hk, if_false, List.map_cons, List.mem_cons, hk2,
        false_or, ih]
      split <;> simp

theorem pushAll_get (ds : List (DeviceStats F T)) :
    ∀ (m : DeviceMap F T) (n : Str),
      (pushAll ds m).get n = m.get n ++ ds.filter (fun d => d.Name = n) := by
  induction ds with
  | nil => intro m n; simp [pushAll]
  | cons d ds ih =>
    intro m n
    have := ih (DeviceMap.push d m) n
    simp only [pushAll, List.foldl_cons] at this ⊢
    rw [this, DeviceMap.get_push]
    by_cases h : n = d.Name
    · simp [h, List.filter_cons]
    · have h2 : ¬ d.Name = n := fun e => h e.symm
      simp [h, h2, List.filter_cons]

theorem pushAll_keys (ds : List (DeviceStats F T)) :
    ∀ m : DeviceMap F T, (ds.map (fun d => d.Name)).Nodup →
      (∀ d ∈ ds, d.Name ∉ m.keys) →
      (pushAll ds m).keys = m.keys ++ ds.map (fun d => d.Name) := by
  induction ds with
  | nil => intro m _ _; simp [pushAll]
  | cons d ds ih =>
    intro m hnd hdisj
    have hd : d.Name ∉ m.keys := hdisj d (List.mem_cons_self _ _)
    rw [List.map_cons, List.nodup_cons] at hnd
    have hk : (DeviceMap.push d m).keys = m.keys ++ [d.Name] := by
      rw [DeviceMap.keys_push, if_neg hd]
    have := ih (DeviceMap.push d m) hnd.2 (by
      intro e he
      rw [hk]
      intro hmem
      rcases List.mem_append.1 hmem with h1 | h1
      · exact hdisj e (List.mem_cons_of_mem _ he) h1
      · have : e.Name = d.Name := by simpa using h1
        exact hnd.1 (by rw [← this]; exact List.mem_map_of_mem _ he))
    simp only [pushAll, List.foldl_cons] at this ⊢
    rw [this, hk]
    simp

end DeviceMaps

/-! ## Runs without a bad token -/

section GoodRuns

variable {F T : Type}

theorem devMapLoop_ok_of_not_bad (L : Lib F T) (devHeader flds : List Str)
    (h : ¬ BadRow L devHeader flds) :
    devMapLoop L flds 0 devHeader [] = .ok (okMap (devMapLoop L flds 0 devHeader [])) := by
  cases hm : devMapLoop L flds 0 devHeader [] with
  | error e => exact absurd ((devMapLoop_error_iff L devHeader flds).1 ⟨e, hm⟩) h
  | ok m => rfl

theorem cpuMapLoop_ok_of_not_bad (L : Lib F T) (b : RawBlock T) (h : ¬ BadCpu L b) :
    cpuMapLoop L b.cpuValues 0 b.cpuHeader [] =
      .ok (okMap (cpuMapLoop L b.cpuValues 0 b.cpuHeader [])) := by
  cases hm : cpuMapLoop L b.cpuValues 0 b.cpuHeader [] with
  | error e => exact absurd ((cpuMapLoop_error_iff L b).1 ⟨e, hm⟩) h
  | ok m => rfl

theorem runRows_good (L : Lib F T) (ts : T) (devHeader : List Str) (rows : List (List Str)) :
    ∀ p : ParsedData F T, (∀ flds ∈ rows, ¬ BadRow L devHeader flds) →
      runRows L ts devHeader rows p =
        ({ p with Devices := pushAll (rows.map (rowSample L ts devHeader)) p.Devices }, none) := by
  induction rows with
  | nil => intro p _; rfl
  | cons flds rows ih =>
    intro p h
    have h1 := devMapLoop_ok_of_not_bad L devHeader flds (h flds (List.mem_cons_self _ _))
    rw [runRows, h1]
    simp only []
    rw [ih _ (fun f hf => h f (List.mem_cons_of_mem _ hf))]
    rfl

theorem runBlocks_good (L : Lib F T) (bs : List (RawBlock T)) :
    ∀ p : ParsedData F T, (∀ b ∈ bs, ¬ BadBlock L b) →
      runBlocks L bs p =
        ({ CPUs := p.CPUs ++ bs.map (RawBlock.cpuSample L),
           Devices := pushAll (bs.map (RawBlock.rowSamples L)).flatten p.Devices }, none) := by
  induction bs with
  | nil => intro p _; simp [runBlocks, pushAll]
  | cons b bs ih =>
    intro p h
    have hb : ¬ BadBlock L b := h b (List.mem_cons_self _ _)
    have hc : ¬ BadCpu L b := fun x => hb (Or.inl x)
    have hr : ∀ flds ∈ b.rows, ¬ BadRow L b.devHeader flds :=
      fun f hf x => hb (Or.inr ⟨f, hf, x⟩)
    rw [runBlocks, cpuMapLoop_ok_of_not_bad L b hc]
    simp only []
    rw [runRows_good L b.ts b.devHeader b.rows _ hr]
    simp only []
    rw [ih _ (fun x hx => h x (List.mem_cons_of_mem _ hx))]
    simp [RawBlock.cpuSample, RawBlock.rowSamples, pushAll, List.foldl_append]

theorem parseLoop_fuel (L : Lib F T) (n : Nat) (s : Stream) (p : ParsedData F T)
    (h : s.length ≤ n) : parseLoop L n s p = parseFrom L s p := by
  unfold parseFrom
  rw [parseLoop_eq_runBlocks, parseLoop_eq_runBlocks, blocksLoop_fuel L n s.length s h (le_refl _)]

/-- After a parse without error, the sequence of a device is the list of
the samples of the rows with that name, in the order of the rows. -/
theorem ParseIostatOutput_devices (L : Lib F T) (data : Str) (n : Str)
    (h : (ParseIostatOutput L data).2 = none) :
    (ParseIostatOutput L data).1.Devices.get n =
      ((rawBlocks L (newScanner data)).map (RawBlock.rowSamples L)).flatten.filter
        (fun d => d.Name = n) := by
  have hnone := ParseIostatOutput_snd_none L data h
  have hgood : ∀ b ∈ rawBlocks L (newScanner data), ¬ BadBlock L b := by
    intro b hb hbad
    exact ((runBlocks_error_iff L _ { CPUs := [], Devices := [] }).2 ⟨b, hb, hbad⟩) hnone
  rw [ParseIostatOutput_fst, runBlocks_good L _ _ hgood]
  simp only []
  rw [pushAll_get]
  simp [DeviceMap.get]

end GoodRuns

/-! ## Well-formed blocks -/

section WellFormedBlocks

variable {F T : Type}

theorem findCpuHeader_header (l : Str) (rest : Stream)
    (h : hasPrefix (trimSpace l) "avg-cpu:".toList = true) :
    findCpuHeader (some l :: rest) = ((tokens l).drop 1, rest) := by
  simp only [findCpuHeader, h, if_true, tokens]
  split
  · rfl
  · rename_i hlen
    have : (fields (trimSpace l)).drop 1 = [] := List.drop_eq_nil_of_le (by omega)
    rw [this]

theorem findCpuValues_values (l : Str) (rest : Stream) (h : trimSpace l ≠ []) :
    findCpuValues (some l :: rest) = (tokens l, rest) := by
  simp [findCpuValues, h, tokens]

theorem hasPrefix_ne_nil (s p : Str) (hp : p ≠ []) (h : hasPrefix s p = true) : s ≠ [] := by
  intro hs
  subst hs
  cases p with
  | nil => exact hp rfl
  | cons c cs => simp [hasPrefix, List.isPrefixOf] at h

theorem findDevHeader_header (blanks : List Str) (l : Str) (rest : Stream)
    (hb : ∀ x ∈ blanks, trimSpace x = [])
    (h : hasPrefix (trimSpace l) "Device".toList = true) :
    findDevHeader (blanks.map some ++ some l :: rest) = (tokens l, rest) := by
  induction blanks with
  | nil =>
    have hne : trimSpace l ≠ [] := hasPrefix_ne_nil _ _ (by decide) h
    simp only [List.map_nil, List.nil_append, findDevHeader, hne, h, if_false, if_true, tokens]
  | cons x blanks ih =>
    have hx : trimSpace x = [] := hb x (List.mem_cons_self _ _)
    simp only [List.map_cons, List.cons_append, findDevHeader, hx, if_true]
    exact ih (fun y hy => hb y (List.mem_cons_of_mem _ hy))

theorem deviceRows_rows (rows : List Str) (hr : ∀ x ∈ rows, trimSpace x ≠ []) :
    (deviceRows (rows.map some)) = (rows.map tokens, []) ∧
    ∀ (t : Str) (rest : Stream), trimSpace t = [] →
      deviceRows (rows.map some ++ some t :: rest) = (rows.map tokens, rest) := by
  induction rows with
  | nil =>
    refine ⟨rfl, ?_⟩
    intro t rest ht
    simp [deviceRows, ht]
  | cons x rows ih =>
    have hx : trimSpace x ≠ [] := hr x (List.mem_cons_self _ _)
    obtain ⟨ih1, ih2⟩ := ih (fun y hy => hr y (List.mem_cons_of_mem _ hy))
    refine ⟨?_, ?_⟩
    · simp only [List.map_cons, deviceRows, hx, if_false, ih1, tokens]
    · intro t rest ht
      have h2 := ih2 t rest ht
      simp only [List.map_cons, List.cons_append, deviceRows, hx, if_false, tokens,
        List.append_eq] at h2 ⊢
      rw [h2]

theorem rawBlocks_block (L : Lib F T) (b : BlockText T) (rest : List Str)
    (hwf : b.WellFormed L) (hsep : b.trail ≠ [] ∨ rest = []) :
    rawBlocks L ((b.lines ++ rest).map some) = b.rawBlock :: rawBlocks L (rest.map some) := by
  have hlines : (b.lines ++ rest).map some =
      some b.tsLine :: some b.cpuHeaderLine :: some b.cpuValueLine ::
        (b.blanks.map some ++ some b.devHeaderLine ::
          (b.rowLines.map some ++ (b.trail ++ rest).map some)) := by
    simp [BlockText.lines]
  rw [hlines, rawBlocks_timestamp L _ _ b.ts hwf.ts_nonblank hwf.ts_parses,
    findCpuHeader_header _ _ hwf.cpu_header]
  simp only []
  rw [findCpuValues_values _ _ hwf.cpu_values_nonblank]
  simp only []
  rw [findDevHeader_header _ _ _ hwf.blanks_blank hwf.dev_header]
  simp only []
  obtain ⟨hd1, hd2⟩ := deviceRows_rows b.rowLines hwf.rows_nonblank
  cases htr : b.trail with
  | nil =>
    have hrest : rest = [] := by
      rcases hsep with h | h
      · exact absurd htr h
      · exact h
    subst hrest
    simp only [List.append_nil, List.map_nil, hd1]
    rfl
  | cons t trail =>
    have ht : trimSpace t = [] := hwf.trail_blank t (by rw [htr]; exact List.mem_cons_self _ _)
    have htl : ∀ x ∈ trail, trimSpace x = [] ∨ L.parseTime (trimSpace x) = none :=
      fun x hx => Or.inl (hwf.trail_blank x (by rw [htr]; exact List.mem_cons_of_mem _ hx))
    simp only [List.cons_append, List.map_cons, List.map_append, hd2 _ _ ht]
    rw [rawBlocks_skip_all L trail _ htl]
    rfl

theorem rawBlocks_blocks (L : Lib F T) (blocks : List (BlockText T))
    (hwf : ∀ b ∈ blocks, b.WellFormed L) (hsep : Separated blocks) :
    rawBlocks L ((blocks.map BlockText.lines).flatten.map some) =
      blocks.map BlockText.rawBlock := by
  induction blocks with
  | nil => rfl
  | cons b bs ih =>
    have hb := hwf b (List.mem_cons_self _ _)
    have hbs : ∀ x ∈ bs, x.WellFormed L := fun x hx => hwf x (List.mem_cons_of_mem _ hx)
    have hs : b.trail ≠ [] ∨ (bs.map BlockText.lines).flatten = [] := by
      cases bs with
      | nil => right; rfl
      | cons b2 bs2 => left; exact hsep.1
    have hsep2 : Separated bs := by
      cases bs with
      | nil => trivial
      | cons b2 bs2 => exact hsep.2
    rw [List.map_cons, List.flatten_cons, rawBlocks_block L b _ hb hs, ih hbs hsep2]
    rfl

theorem getElem_mem_tail (xs : List Str) (i : Nat) (h : i < xs.length) (h1 : 1 ≤ i) :
    xs[i] ∈ xs.tail := by
  cases xs with
  | nil => simp at h
  | cons a as =>
    obtain ⟨j, rfl⟩ : ∃ j, i = j + 1 := ⟨i - 1, by omega⟩
    simp only [List.tail_cons, List.getElem_cons_succ]
    exact List.getElem_mem _

theorem not_badBlock_of_wellFormed (L : Lib F T) (b : BlockText T) (hwf : b.WellFormed L) :
    ¬ BadBlock L b.rawBlock := by
  rintro (⟨i, _, h2, h3⟩ | ⟨flds, hf, i, h1, _, h3, h4⟩)
  · apply hwf.cpu_values_numeric ((tokens b.cpuValueLine).getD i []) _ h3
    simp only [BlockText.rawBlock] at h2
    rw [List.getD_eq_getElem _ _ h2]
    exact List.getElem_mem _
  · simp only [BlockText.rawBlock, List.mem_map] at hf
    obtain ⟨l, hl, rfl⟩ := hf
    apply hwf.rows_numeric l hl ((tokens l).getD i []) _ h4
    rw [List.getD_eq_getElem _ _ h3]
    exact getElem_mem_tail _ i h3 h1

/-- A well-formed input parses into the samples of its blocks. -/
theorem ParseIostatOutput_wellFormed (L : Lib F T) (data : Str) (lead : List Str)
    (blocks : List (BlockText T)) (hfit : LinesFit data)
    (hlines : scannedLines data = lead ++ (blocks.map BlockText.lines).flatten)
    (hlead : ∀ l ∈ lead, trimSpace l = [] ∨ L.parseTime (trimSpace l) = none)
    (hwf : ∀ b ∈ blocks, b.WellFormed L) (hsep : Separated blocks) :
    ParseIostatOutput L data =
      ({ CPUs := blocks.map (fun b => b.rawBlock.cpuSample L),
         Devices := pushAll (blocks.map (fun b => b.rawBlock.rowSamples L)).flatten [] },
       none) := by
  rw [ParseIostatOutput_fit L data hfit, newScanner_fit data hfit, hlines, List.map_append,
    rawBlocks_skip_all L lead _ hlead, rawBlocks_blocks L blocks hwf hsep,
    runBlocks_good L _ _ (by
      intro rb hrb
      obtain ⟨b, hb, rfl⟩ := List.mem_map.1 hrb
      exact not_badBlock_of_wellFormed L b (hwf b hb))]
  simp [List.map_map, Function.comp_def]

end WellFormedBlocks

section Counting

variable {F T : Type}

theorem length_filter_name (ds : List (DeviceStats F T)) (n : Str)
    (hnd : (ds.map (fun d => d.Name)).Nodup) :
    (ds.filter (fun d => d.Name = n)).length =
      if n ∈ ds.map (fun d => d.Name) then 1 else 0 := by
  induction ds with
  | nil => rfl
  | cons d ds ih =>
    rw [List.map_cons, List.nodup_cons] at hnd
    have ih2 := ih hnd.2
    by_cases h : d.Name = n
    · have hn : n ∉ ds.map (fun d => d.Name) := by rw [← h]; exact hnd.1
      rw [if_neg hn] at ih2
      simp [List.filter_cons, h, ih2]
    · have hne : ¬ n = d.Name := fun e => h e.symm
      simp only [List.filter_cons, h, decide_False, Bool.false_eq_true, if_false, ih2,
        List.map_cons, List.mem_cons, hne, false_or]

theorem rowSamples_names (L : Lib F T) (b : BlockText T) :
    (b.rawBlock.rowSamples L).map (fun d => d.Name) = b.rowNames := by
  simp [RawBlock.rowSamples, BlockText.rawBlock, BlockText.rowNames, rowSample, mkDeviceStats,
    Function.comp_def]

theorem length_filter_rowSamples (L : Lib F T) (b : BlockText T) (n : Str)
    (hnd : b.rowNames.Nodup) :
    ((b.rawBlock.rowSamples L).filter (fun d => d.Name = n)).length =
      if n ∈ b.rowNames then 1 else 0 := by
  rw [length_filter_name _ _ (by rw [rowSamples_names]; exact hnd), rowSamples_names]

theorem length_filter_blocks (L : Lib F T) (blocks : List (BlockText T)) (n : Str)
    (hnd : ∀ b ∈ blocks, b.rowNames.Nodup) :
    ((blocks.map (fun b => b.rawBlock.rowSamples L)).flatten.filter
        (fun d => d.Name = n)).length =
      (blocks.filter (fun b => decide (n ∈ b.rowNames))).length := by
  induction blocks with
  | nil => rfl
  | cons b bs ih =>
    have hb := length_filter_rowSamples L b n (hnd b (List.mem_cons_self _ _))
    have ih2 := ih (fun x hx => hnd x (List.mem_cons_of_mem _ hx))
    rw [List.map_cons, List.flatten_cons, List.filter_append, List.length_append, hb, ih2]
    by_cases h : n ∈ b.rowNames
    · simp [List.filter_cons, h]; omega
    · simp [List.filter_cons, h]

end Counting

/-- C3: a well-formed single-block input (a timestamp line, the avg-cpu
header and its value line, the Device header, then `N` device rows with
pairwise distinct names and numeric fields; blank or banner lines may
precede it) is parsed without error into exactly one CPU sample and a
device map whose keys are exactly the first tokens of the `N` rows, each
mapped to a sequence of length 1. -/
theorem C3_single_block {F T : Type} (L : Lib F T) (data : Str) (lead : List Str)
    (b : BlockText T) (hfit : LinesFit data)
    (hlines : scannedLines data = lead ++ b.lines)
    (hlead : ∀ l ∈ lead, trimSpace l = [] ∨ L.parseTime (trimSpace l) = none)
    (hwf : b.WellFormed L) :
    (ParseIostatOutput L data).2 = none ∧
    (ParseIostatOutput L data).1.CPUs.length = 1 ∧
    (ParseIostatOutput L data).1.Devices.keys = b.rowNames ∧
    (ParseIostatOutput L data).1.Devices.keys.length = b.rowLines.length ∧
    ∀ n ∈ b.rowNames, ((ParseIostatOutput L data).1.Devices.get n).length = 1 := by
  have hP := ParseIostatOutput_wellFormed L data lead [b] hfit (by simpa using hlines) hlead
    (by intro x hx; rw [List.mem_singleton.1 hx]; exact hwf) trivial
  have hnames := rowSamples_names L b
  have hkeys : (pushAll (b.rawBlock.rowSamples L) ([] : DeviceMap F T)).keys = b.rowNames := by
    rw [pushAll_keys _ _ (by rw [hnames]; exact hwf.names_distinct)
      (by intro d _; simp [DeviceMap.keys]), hnames]
    simp [DeviceMap.keys]
  rw [hP]
  simp only [List.map_cons, List.map_nil, List.flatten_cons, List.flatten_nil, List.append_nil,
    List.length_singleton, true_and]
  refine ⟨hkeys, ?_, ?_⟩
  · rw [hkeys]; simp [BlockText.rowNames]
  · intro n hn
    rw [pushAll_get, List.length_append, length_filter_rowSamples L b n hwf.names_distinct,
      if_pos hn]
    simp [DeviceMap.get]

/-- Witness of C3 on the input of `TestParseIostatMultipleDevices`. -/
theorem C3_witness :
    (ParseIostatOutput sampleLib c3Input).2 = none ∧
    (ParseIostatOutput sampleLib c3Input).1.CPUs.length = 1 ∧
    (ParseIostatOutput sampleLib c3Input).1.Devices.keys = c3Block.rowNames ∧
    (ParseIostatOutput sampleLib c3Input).1.Devices.keys.length = c3Block.rowLines.length ∧
    ∀ n ∈ c3Block.rowNames, ((ParseIostatOutput sampleLib c3Input).1.Devices.get n).length = 1 :=
  C3_single_block sampleLib c3Input [[]] c3Block (by decide) (by decide) (by decide)
    ⟨by decide, by decide, by decide, by decide, by decide, by decide, by decide, by decide,
      by decide, by decide, by decide⟩

/-- C4: an input made of `K` well-formed blocks, each but the last ended
by a blank line, is parsed without error into exactly `K` CPU samples, the
sample of each block in the order of the blocks; the sequence of every
device has as many samples as there are blocks with a row of that device,
and so as many as there are CPU samples when the device has a row in
every block. -/
theorem C4_concatenated_blocks {F T : Type} (L : Lib F T) (data : Str) (lead : List Str)
    (blocks : List (BlockText T)) (hfit : LinesFit data)
    (hlines : scannedLines data = lead ++ (blocks.map BlockText.lines).flatten)
    (hlead : ∀ l ∈ lead, trimSpace l = [] ∨ L.parseTime (trimSpace l) = none)
    (hwf : ∀ b ∈ blocks, b.WellFormed L) (hsep : Separated blocks) :
    (ParseIostatOutput L data).2 = none ∧
    (ParseIostatOutput L data).1.CPUs.length = blocks.length ∧
    (ParseIostatOutput L data).1.CPUs = blocks.map (fun b => b.rawBlock.cpuSample L) ∧
    (∀ n, ((ParseIostatOutput L data).1.Devices.get n).length =
      (blocks.filter (fun b => decide (n ∈ b.rowNames))).length) ∧
    (∀ n, (∀ b ∈ blocks, n ∈ b.rowNames) →
      ((ParseIostatOutput L data).1.Devices.get n).length =
        (ParseIostatOutput L data).1.CPUs.length) := by
  have hP := ParseIostatOutput_wellFormed L data lead blocks hfit hlines hlead hwf hsep
  have hcount : ∀ n, ((ParseIostatOutput L data).1.Devices.get n).length =
      (blocks.filter (fun b => decide (n ∈ b.rowNames))).length := by
    intro n
    rw [hP]
    simp only []
    rw [pushAll_get, List.length_append,
      length_filter_blocks L blocks n (fun b hb => (hwf b hb).names_distinct)]
    simp [DeviceMap.get]
  refine ⟨by rw [hP], by rw [hP]; simp, by rw [hP], hcount, ?_⟩
  intro n hall
  rw [hcount n, hP]
  simp only [List.length_map]
  congr 1
  exact List.filter_eq_self.2 (fun b hb => by simpa using hall b hb)

/-- Witness of C4 on two blocks, the second without the device `sdb`. -/
theorem C4_witness :
    (ParseIostatOutput sampleLib c4Input).2 = none ∧
    (ParseIostatOutput sampleLib c4Input).1.CPUs.length = [c4Block1, c4Block2].length ∧
    (ParseIostatOutput sampleLib c4Input).1.CPUs =
      [c4Block1, c4Block2].map (fun b => b.rawBlock.cpuSample sampleLib) ∧
    (∀ n, ((ParseIostatOutput sampleLib c4Input).1.Devices.get n).length =
      ([c4Block1, c4Block2].filter (fun b => decide (n ∈ b.rowNames))).length) ∧
    (∀ n, (∀ b ∈ [c4Block1, c4Block2], n ∈ b.rowNames) →
      ((ParseIostatOutput sampleLib c4Input).1.Devices.get n).length =
        (ParseIostatOutput sampleLib c4Input).1.CPUs.length) :=
  C4_concatenated_blocks sampleLib c4Input ["Linux 5.15.0 (host)".toList, []]
    [c4Block1, c4Block2] (by decide) (by decide) (by decide)
    (by
      intro b hb
      rcases List.mem_cons.1 hb with rfl | hb
      · exact ⟨by decide, by decide, by decide, by decide, by decide, by decide, by decide,
          by decide, by decide, by decide, by decide⟩
      · rw [List.mem_singleton.1 hb]
        exact ⟨by decide, by decide, by decide, by decide, by decide, by decide, by decide,
          by decide, by decide, by decide, by decide⟩)
    ⟨by decide, trivial⟩

/-! ## What the maps hold -/

section Lookups

variable {F T : Type}

theorem FloatMap.get_cons (L : Lib F T) (k key : Str) (v : F) (m : FloatMap F) :
    FloatMap.get L ((k, v) :: m) key = if key = k then v else FloatMap.get L m key := by
  simp only [FloatMap.get, lookup_cons_ite]
  split <;> rfl

theorem cpuMapLoop_append (L : Lib F T) (vals hs1 hs2 : List Str) :
    ∀ (i : Nat) (m : FloatMap F),
      cpuMapLoop L vals i (hs1 ++ hs2) m =
        match cpuMapLoop L vals i hs1 m with
        | .error e => .error e
        | .ok m1 => cpuMapLoop L vals (i + hs1.length) hs2 m1 := by
  induction hs1 with
  | nil => intro i m; simp [cpuMapLoop]
  | cons h hs ih =>
    intro i m
    have hidx : i + (hs.length + 1) = i + 1 + hs.length := by omega
    simp only [List.cons_append, cpuMapLoop, List.length_cons, hidx]
    split
    · cases hpf : L.parseFloat (vals.getD i []) with
      | none => rfl
      | some v => simp only []; exact ih _ _
    · exact ih _ _

/-- A key that no column within reach of the row carries keeps its binding. -/
theorem cpuMapLoop_get_unchanged (L : Lib F T) (vals : List Str) (key : Str) (hs : List Str) :
    ∀ (i : Nat) (m0 m : FloatMap F), cpuMapLoop L vals i hs m0 = .ok m →
      (∀ j, j < hs.length → i + j < vals.length → trimPercent (hs.getD j []) ≠ key) →
      FloatMap.get L m key = FloatMap.get L m0 key := by
  induction hs with
  | nil =>
    intro i m0 m h _
    simp only [cpuMapLoop] at h
    cases h; rfl
  | cons h hs ih =>
    intro i m0 m hok hno
    have hrest : ∀ j, j < hs.length → i + 1 + j < vals.length →
        trimPercent (hs.getD j []) ≠ key := by
      intro j hj hjv
      have := hno (j + 1) (by simp; omega) (by omega)
      simpa using this
    simp only [cpuMapLoop] at hok
    by_cases hi : i < vals.length
    · simp only [hi, if_true] at hok
      cases hpf : L.parseFloat (vals.getD i []) with
      | none => rw [hpf] at hok; cases hok
      | some v =>
        rw [hpf] at hok
        simp only [] at hok
        rw [ih (i + 1) _ m hok hrest, FloatMap.get_cons]
        have h0 := hno 0 (by simp) (by omega)
        simp only [List.getD_cons_zero] at h0
        rw [if_neg (fun e => h0 e.symm)]
    · simp only [hi, if_false] at hok
      exact ih (i + 1) _ m hok hrest

/-- The last column within reach of the row that carries the key binds
the key to the row's token under it. -/
theorem cpuMapLoop_get_last (L : Lib F T) (vals : List Str) (key : Str) (hs : List Str) :
    ∀ (i : Nat) (m0 m : FloatMap F), cpuMapLoop L vals i hs m0 = .ok m →
      ∀ j, j < hs.length → i + j < vals.length → trimPercent (hs.getD j []) = key →
        (∀ k, j < k → k < hs.length → i + k < vals.length →
          trimPercent (hs.getD k []) ≠ key) →
        L.parseFloat (vals.getD (i + j) []) = some (FloatMap.get L m key) := by
  induction hs with
  | nil => intro i m0 m _ j hj; simp at hj
  | cons h hs ih =>
    intro i m0 m hok j hj hjv hkey hlast
    simp only [cpuMapLoop] at hok
    have hi : i < vals.length := by omega
    simp only [hi, if_true] at hok
    cases hpf : L.parseFloat (vals.getD i []) with
    | none => rw [hpf] at hok; cases hok
    | some v =>
      rw [hpf] at hok
      simp only [] at hok
      cases j with
      | zero =>
        simp only [List.getD_cons_zero] at hkey
        have hrest : ∀ k, k < hs.length → i + 1 + k < vals.length →
            trimPercent (hs.getD k []) ≠ key := by
          intro k hk hkv
          have := hlast (k + 1) (by omega) (by simp; omega) (by omega)
          simpa using this
        rw [cpuMapLoop_get_unchanged L vals key hs (i + 1) _ m hok hrest, FloatMap.get_cons,
          if_pos hkey.symm]
        simpa using hpf
      | succ j =>
        have := ih (i + 1) _ m hok j (by simpa using hj) (by omega)
          (by simpa using hkey)
          (by
            intro k hjk hk hkv
            have := hlast (k + 1) (by omega) (by simp; omega) (by omega)
            simpa using this)
        have hidx : i + (j + 1) = i + 1 + j := by omega
        rw [hidx]
        exact this

theorem devMapLoop_zero_cons (L : Lib F T) (flds : List Str) (h : Str) (hs : List Str) :
    devMapLoop L flds 0 (h :: hs) [] = cpuMapLoop L flds 1 hs [] := by
  simp only [devMapLoop, true_or, if_true, Nat.zero_add]
  exact devMapLoop_eq_cpuMapLoop L flds hs 1 [] (le_refl 1)

theorem FloatMap.get_nil (L : Lib F T) (key : Str) : FloatMap.get L [] key = L.zero := rfl

/-- The field of a device sample read with `key`, when no column within
reach of the row carries the key: the zero value. -/
theorem rowSample_get_zero (L : Lib F T) (devHeader flds : List Str) (key : Str)
    (hnum : ¬ BadRow L devHeader flds)
    (hno : ∀ i, 1 ≤ i → i < devHeader.length → i < flds.length →
      trimPercent (devHeader.getD i []) ≠ key) :
    FloatMap.get L (okMap (devMapLoop L flds 0 devHeader [])) key = L.zero := by
  have hok := devMapLoop_ok_of_not_bad L devHeader flds hnum
  generalize okMap (devMapLoop L flds 0 devHeader []) = m at hok ⊢
  cases devHeader with
  | nil => simp only [devMapLoop] at hok; cases hok; rfl
  | cons h hs =>
    rw [devMapLoop_zero_cons] at hok
    rw [cpuMapLoop_get_unchanged L flds key hs 1 [] m hok]
    · rfl
    · intro j hj hjv
      have := hno (j + 1) (by omega) (by simp; omega) (by omega)
      simpa using this

/-- The field of a device sample read with `key`, when `i` is the last
column within reach of the row that carries the key: the token under it. -/
theorem rowSample_get_last (L : Lib F T) (devHeader flds : List Str) (key : Str)
    (hnum : ¬ BadRow L devHeader flds) (i : Nat)
    (h1 : 1 ≤ i) (h2 : i < devHeader.length) (h3 : i < flds.length)
    (hkey : trimPercent (devHeader.getD i []) = key)
    (hlast : ∀ k, i < k → k < devHeader.length → k < flds.length →
      trimPercent (devHeader.getD k []) ≠ key) :
    L.parseFloat (flds.getD i []) =
      some (FloatMap.get L (okMap (devMapLoop L flds 0 devHeader [])) key) := by
  have hok := devMapLoop_ok_of_not_bad L devHeader flds hnum
  generalize okMap (devMapLoop L flds 0 devHeader []) = m at hok ⊢
  cases devHeader with
  | nil => simp at h2
  | cons h hs =>
    rw [devMapLoop_zero_cons] at hok
    obtain ⟨j, rfl⟩ : ∃ j, i = j + 1 := ⟨i - 1, by omega⟩
    have := cpuMapLoop_get_last L flds key hs 1 [] m hok j (by simpa using h2) (by omega)
      (by simpa using hkey)
      (by
        intro k hjk hk hkv
        have := hlast (k + 1) (by omega) (by simp; omega) (by omega)
        simpa using this)
    have hidx : 1 + j = j + 1 := by omega
    rw [hidx] at this
    exact this

theorem deviceLoop_row (L : Lib F T) (ts : T) (devHeader : List Str) (raw : Str)
    (rest : Stream) (p : ParsedData F T) (hnb : trimSpace raw ≠ [])
    (hnum : ¬ BadRow L devHeader (tokens raw)) :
    deviceLoop L ts devHeader (some raw :: rest) p =
      deviceLoop L ts devHeader rest
        { p with Devices := DeviceMap.push (rowSample L ts devHeader (tokens raw)) p.Devices } := by
  have hok := devMapLoop_ok_of_not_bad L devHeader (tokens raw) hnum
  simp only [tokens] at hok
  simp only [deviceLoop, hnb, if_false, rowSample, tokens]
  generalize hg : devMapLoop L (fields (trimSpace raw)) 0 devHeader [] = r at hok ⊢
  cases r with
  | error e => cases hok
  | ok m => rfl

end Lookups

section CpuSamples

variable {F T : Type}

theorem runBlocks_CPUs (L : Lib F T) (bs : List (RawBlock T)) :
    ∀ p : ParsedData F T, ∃ j, j ≤ bs.length ∧
      (runBlocks L bs p).1.CPUs = p.CPUs ++ (bs.take j).map (RawBlock.cpuSample L) ∧
      ((runBlocks L bs p).2 = none → j = bs.length) := by
  induction bs with
  | nil => intro p; exact ⟨0, le_refl _, by simp [runBlocks], fun _ => rfl⟩
  | cons b bs ih =>
    intro p
    cases hm : cpuMapLoop L b.cpuValues 0 b.cpuHeader [] with
    | error e => exact ⟨0, Nat.zero_le _, by simp [runBlocks, hm], by simp [runBlocks, hm]⟩
    | ok m =>
      have hs : RawBlock.cpuSample L b = mkCPUStats L b.ts m := by
        simp [RawBlock.cpuSample, hm, okMap]
      have hc := runRows_CPUs L b.ts b.devHeader b.rows
        { p with CPUs := p.CPUs ++ [mkCPUStats L b.ts m] }
      cases hr : runRows L b.ts b.devHeader b.rows
          { p with CPUs := p.CPUs ++ [mkCPUStats L b.ts m] } with
      | mk p2 e2 =>
        rw [hr] at hc
        simp only [] at hc
        cases e2 with
        | some e3 =>
          refine ⟨1, by simp, ?_, ?_⟩
          · simp [runBlocks, hm, hr, hc, hs]
          · simp [runBlocks, hm, hr]
        | none =>
          obtain ⟨j, hj, hcp, hnone⟩ := ih p2
          refine ⟨j + 1, by simpa using hj, ?_, ?_⟩
          · simp only [runBlocks, hm, hr, hcp, hc, List.take_succ_cons, List.map_cons, hs]
            simp
          · intro h
            simp only [runBlocks, hm, hr] at h
            simp [hnone h]

theorem cpuSample_six (L : Lib F T) (b : RawBlock T) (t0 t1 t2 t3 t4 t5 : Str)
    (v0 v1 v2 v3 v4 v5 : F) (hh : b.cpuHeader = cpuColumns)
    (hv : b.cpuValues = [t0, t1, t2, t3, t4, t5])
    (h0 : L.parseFloat t0 = some v0) (h1 : L.parseFloat t1 = some v1)
    (h2 : L.parseFloat t2 = some v2) (h3 : L.parseFloat t3 = some v3)
    (h4 : L.parseFloat t4 = some v4) (h5 : L.parseFloat t5 = some v5) :
    RawBlock.cpuSample L b =
      { Timestamp := b.ts, User := v0, Nice := v1, System := v2, Iowait := v3, Steal := v4,
        Idle := v5 } := by
  have hm : cpuMapLoop L b.cpuValues 0 b.cpuHeader [] =
      .ok [("idle".toList, v5), ("steal".toList, v4), ("iowait".toList, v3),
        ("system".toList, v2), ("nice".toList, v1), ("user".toList, v0)] := by
    rw [hh, hv]
    simp [cpuColumns, cpuMapLoop, trimPercent, h0, h1, h2, h3, h4, h5]
  simp only [RawBlock.cpuSample, hm, okMap, mkCPUStats, FloatMap.get_cons]
  simp

end CpuSamples

/-- C5: for every block of an input whose avg-cpu header is
`%user %nice %system %iowait %steal %idle` and whose value line holds six
numeric tokens `t0 .. t5` with values `v0 .. v5`, the CPU sample that
`ParseIostatOutput` produces for the block (the `k`-th sample for the
`k`-th block) has `User = v0`, `Nice = v1`, `System = v2`, `Iowait = v3`,
`Steal = v4`, `Idle = v5`; the sample is produced whenever the parse
succeeds. -/
theorem C5_cpu_fields {F T : Type} (L : Lib F T) (data : Str) (k : Nat) (b : RawBlock T)
    (t0 t1 t2 t3 t4 t5 : Str) (v0 v1 v2 v3 v4 v5 : F)
    (hb : (rawBlocks L (newScanner data))[k]? = some b)
    (hh : b.cpuHeader = cpuColumns) (hv : b.cpuValues = [t0, t1, t2, t3, t4, t5])
    (h0 : L.parseFloat t0 = some v0) (h1 : L.parseFloat t1 = some v1)
    (h2 : L.parseFloat t2 = some v2) (h3 : L.parseFloat t3 = some v3)
    (h4 : L.parseFloat t4 = some v4) (h5 : L.parseFloat t5 = some v5) :
    (∀ c, (ParseIostatOutput L data).1.CPUs[k]? = some c →
      c = { Timestamp := b.ts, User := v0, Nice := v1, System := v2, Iowait := v3,
            Steal := v4, Idle := v5 }) ∧
    ((ParseIostatOutput L data).2 = none →
      (ParseIostatOutput L data).1.CPUs[k]? =
        some { Timestamp := b.ts, User := v0, Nice := v1, System := v2, Iowait := v3,
               Steal := v4, Idle := v5 }) := by
  have hs := cpuSample_six L b t0 t1 t2 t3 t4 t5 v0 v1 v2 v3 v4 v5 hh hv h0 h1 h2 h3 h4 h5
  obtain ⟨j, hj, hcp, hnone⟩ :=
    runBlocks_CPUs L (rawBlocks L (newScanner data)) { CPUs := [], Devices := [] }
  rw [ParseIostatOutput_fst, hcp]
  simp only [List.nil_append]
  have hk : k < (rawBlocks L (newScanner data)).length := by
    by_contra hcon
    rw [List.getElem?_eq_none (by omega)] at hb
    cases hb
  have hget : k < j →
      (((rawBlocks L (newScanner data)).take j).map (RawBlock.cpuSample L))[k]? =
        some (RawBlock.cpuSample L b) := by
    intro hkj
    rw [List.getElem?_map, List.getElem?_take_of_lt hkj, hb]
    rfl
  constructor
  · intro c hc
    by_cases hkj : k < j
    · rw [hget hkj] at hc
      cases hc
      exact hs
    · rw [List.getElem?_eq_none (by simp; omega)] at hc
      cases hc
  · intro hnoerr
    have hjl := hnone (ParseIostatOutput_snd_none L data hnoerr)
    rw [hget (by omega), hs]

/-- Witness of C5 on the input of `TestParseIostatOutput`: `User = 2.36`
and `Idle = 97.20` (in hundredths). -/
theorem C5_witness :
    (∀ c, (ParseIostatOutput sampleLib c5Input).1.CPUs[0]? = some c →
      c = { Timestamp := c5Block.rawBlock.ts, User := 236, Nice := 0, System := 40,
            Iowait := 4, Steal := 1, Idle := 9720 }) ∧
    ((ParseIostatOutput sampleLib c5Input).2 = none →
      (ParseIostatOutput sampleLib c5Input).1.CPUs[0]? =
        some { Timestamp := c5Block.rawBlock.ts, User := 236, Nice := 0, System := 40,
               Iowait := 4, Steal := 1, Idle := 9720 }) :=
  C5_cpu_fields sampleLib c5Input 0 c5Block.rawBlock "2.36".toList "0.00".toList "0.40".toList
    "0.04".toList "0.01".toList "97.20".toList 236 0 40 4 1 9720
    (by decide) (by decide) (by decide) (by decide) (by decide) (by decide) (by decide)
    (by decide) (by decide)

section Rows

variable {F T : Type}

theorem not_badRow_of_ok (L : Lib F T) (devHeader flds : List Str)
    (h : (devMapLoop L flds 0 devHeader []).toBool = true) : ¬ BadRow L devHeader flds := by
  intro hb
  obtain ⟨e, he⟩ := (devMapLoop_error_iff L devHeader flds).2 hb
  rw [he] at h
  cases h

theorem trimSpace_ne_nil_of_tokens (raw : Str) (h : tokens raw ≠ []) : trimSpace raw ≠ [] := by
  intro h0
  apply h
  simp [tokens, h0, fields, fieldsGo]

theorem baseKeys_nodup : baseKeys.Nodup := by decide

theorem baseColumns_length : baseColumns.length = 12 := rfl

theorem rowSample_metrics (L : Lib F T) (ts : T) (devHeader flds : List Str) :
    (rowSample L ts devHeader flds).metrics =
      baseKeys.map (fun key => FloatMap.get L (okMap (devMapLoop L flds 0 devHeader [])) key) :=
  rfl

end Rows

section BaseColumns

variable {F T : Type}

theorem forall₂_parse_getD (L : Lib F T) (toks : List Str) (vals : List F)
    (h : List.Forall₂ (fun t v => L.parseFloat t = some v) toks vals) :
    ∀ j, j < toks.length → L.parseFloat (toks.getD j []) = some (vals.getD j L.zero) := by
  induction h with
  | nil => intro j hj; simp at hj
  | cons hab _ ih =>
    intro j hj
    cases j with
    | zero => simpa using hab
    | succ j => simpa using ih j (by simpa using hj)

theorem list_eq_of_getD (l1 l2 : List F) (d : F) (hlen : l1.length = l2.length)
    (h : ∀ j, j < l1.length → l1.getD j d = l2.getD j d) : l1 = l2 := by
  apply List.ext_getElem hlen
  intro n h1 h2
  have := h n h1
  rwa [List.getD_eq_getElem _ _ h1, List.getD_eq_getElem _ _ h2] at this

theorem baseKeys_getD (j : Nat) (hj : j < 12) :
    trimPercent (baseColumns.getD j []) = baseKeys.getD j [] := by
  interval_cases j <;> rfl

theorem baseKeys_getD_ne (j k : Nat) (hjk : j < k) (hk : k < 12) :
    baseKeys.getD k [] ≠ baseKeys.getD j [] := by
  interval_cases k <;> interval_cases j <;> decide

theorem baseKeys_getD_mem (j : Nat) (hj : j < 12) : baseKeys.getD j [] ∈ baseKeys := by
  have hlen : j < baseKeys.length := hj
  rw [List.getD_eq_getElem _ _ hlen]
  exact List.getElem_mem _

/-- A row of numeric tokens under a header that starts with the twelve
base columns, followed by columns with other keys: no token is bad, and
the twelve metrics of the sample are the values of the tokens under the
twelve columns. -/
theorem rowSample_base (L : Lib F T) (ts : T) (h0 : Str) (extra : List Str) (name : Str)
    (toks more : List Str) (vals : List F)
    (hvals : List.Forall₂ (fun t v => L.parseFloat t = some v) toks vals)
    (hlen : toks.length = 12)
    (hmore : ∀ tok ∈ more.take extra.length, L.parseFloat tok ≠ none)
    (hextra : ∀ h ∈ extra, trimPercent h ∉ baseKeys) :
    ¬ BadRow L (h0 :: (baseColumns ++ extra)) (name :: (toks ++ more)) ∧
    (rowSample L ts (h0 :: (baseColumns ++ extra)) (name :: (toks ++ more))).metrics = vals := by
  have hget := forall₂_parse_getD L toks vals hvals
  have hvlen : vals.length = 12 := by rw [← hvals.length_eq, hlen]
  have hbad : ¬ BadRow L (h0 :: (baseColumns ++ extra)) (name :: (toks ++ more)) := by
    rintro ⟨i, h1, h2, h3, h4⟩
    obtain ⟨j, rfl⟩ : ∃ j, i = j + 1 := ⟨i - 1, by omega⟩
    simp only [List.length_cons, List.length_append, baseColumns_length] at h2 h3
    rw [List.getD_cons_succ] at h4
    by_cases hj : j < 12
    · rw [List.getD_append _ _ _ _ (by omega), hget j (by omega)] at h4
      cases h4
    · rw [List.getD_append_right _ _ _ _ (by omega)] at h4
      have hjm : j - toks.length < more.length := by omega
      rw [List.getD_eq_getElem _ _ hjm] at h4
      apply hmore _ _ h4
      rw [List.mem_take_iff_getElem]
      exact ⟨j - toks.length, by rw [Nat.lt_min]; constructor <;> omega, rfl⟩
  refine ⟨hbad, ?_⟩
  rw [rowSample_metrics]
  apply list_eq_of_getD _ _ L.zero
  · simp [baseKeys, baseColumns_length, hvlen]
  · intro j hj
    have hj12 : j < 12 := by simpa [baseKeys, baseColumns_length] using hj
    have hjk : j < baseKeys.length := hj12
    have hlast := rowSample_get_last L (h0 :: (baseColumns ++ extra)) (name :: (toks ++ more))
      (baseKeys.getD j []) hbad (j + 1) (by omega)
      (by simp only [List.length_cons, List.length_append, baseColumns_length]; omega)
      (by simp only [List.length_cons, List.length_append]; omega)
      (by
        rw [List.getD_cons_succ, List.getD_append _ _ _ _ (by rw [baseColumns_length]; omega)]
        exact baseKeys_getD j hj12)
      (by
        intro k hk1 hk2 _
        obtain ⟨k2, rfl⟩ : ∃ k2, k = k2 + 1 := ⟨k - 1, by omega⟩
        simp only [List.length_cons, List.length_append, baseColumns_length] at hk2
        rw [List.getD_cons_succ]
        by_cases hk12 : k2 < 12
        · rw [List.getD_append _ _ _ _ (by rw [baseColumns_length]; omega), baseKeys_getD k2 hk12]
          exact baseKeys_getD_ne j k2 (by omega) hk12
        · rw [List.getD_append_right _ _ _ _ (by rw [baseColumns_length]; omega)]
          have hke : k2 - baseColumns.length < extra.length := by
            rw [baseColumns_length]; omega
          rw [List.getD_eq_getElem _ _ hke]
          intro hcon
          apply hextra _ (List.getElem_mem hke)
          rw [hcon]
          exact baseKeys_getD_mem j hj12)
    rw [List.getD_cons_succ, List.getD_append _ _ _ _ (by omega), hget j (by omega)] at hlast
    have hv := Option.some.inj hlast
    rw [hv, List.getD_eq_getElem _ _ (by simpa using hjk), List.getElem_map,
      List.getD_eq_getElem _ _ hjk]

end BaseColumns

/-- C6 fails on `c6Input`: the Device header starts with the twelve base
columns and goes on with a second column `r/s`; the row is numeric and
the parse succeeds, but `ReadsPerSec` is the token under the thirteenth
column (13.00), not the token under the first column `r/s` (1.00). -/
theorem C6_counterexample :
    (ParseIostatOutput sampleLib c6Input).2 = none ∧
    ((ParseIostatOutput sampleLib c6Input).1.Devices.get "sda".toList).map
      (fun d => d.ReadsPerSec) = [1300] ∧
    sampleLib.parseFloat "1.00".toList = some 100 := by
  decide


section Scale

theorem scale_fold_flatten (arrs : List (List F64)) :
    ∀ st : ScaleState,
      arrs.foldl (fun st arr => arr.foldl scaleStep st) st = arrs.flatten.foldl scaleStep st := by
  induction arrs with
  | nil => intro st; rfl
  | cons a arrs ih => intro st; simp [List.foldl_append, ih]

theorem F64.lt_self (x : F64) : F64.lt x x = false := by
  cases x with
  | nan => rfl
  | inf a => cases a <;> rfl
  | fin a n => simp [F64.lt]

/-- If `v < m` and not `u < m`, then not `u < v`. -/
theorem F64.not_lt_of_lt_of_not_lt (u v m : F64) (h1 : F64.lt v m = true)
    (h2 : F64.lt u m = false) : F64.lt u v = false := by
  cases u with
  | nan => cases v <;> rfl
  | inf a =>
    cases v with
    | nan => rfl
    | inf b => cases m <;> cases a <;> cases b <;> simp_all [F64.lt]
    | fin b k => cases m <;> cases a <;> simp_all [F64.lt]
  | fin a n =>
    cases v with
    | nan => rfl
    | inf b => cases m <;> cases b <;> simp_all [F64.lt]
    | fin b k =>
      cases m with
      | nan => simp [F64.lt] at h1
      | inf c => cases c <;> simp_all [F64.lt]
      | fin c j =>
        simp only [F64.lt, decide_eq_true_eq, decide_eq_false_iff_not, not_lt] at h1 h2 ⊢
        omega

/-- If `m < v` and not `m < u`, then not `v < u`. -/
theorem F64.not_lt_of_gt_of_not_gt (u v m : F64) (h1 : F64.lt m v = true)
    (h2 : F64.lt m u = false) : F64.lt v u = false := by
  cases u with
  | nan => cases v <;> rfl
  | inf a =>
    cases v with
    | nan => rfl
    | inf b => cases m <;> cases a <;> cases b <;> simp_all [F64.lt]
    | fin b k => cases m <;> cases a <;> simp_all [F64.lt]
  | fin a n =>
    cases v with
    | nan => rfl
    | inf b => cases m <;> cases b <;> simp_all [F64.lt]
    | fin b k =>
      cases m with
      | nan => simp [F64.lt] at h1
      | inf c => cases c <;> simp_all [F64.lt]
      | fin c j =>
        simp only [F64.lt, decide_eq_true_eq, decide_eq_false_iff_not, not_lt] at h1 h2 ⊢
        omega

/-- Two numbers, neither NaN nor the negative zero, of which neither is
less than the other, are the same value. -/
theorem F64.eq_of_not_lt (x y : F64) (hx : x ≠ .nan ∧ x ≠ .fin true 0)
    (hy : y ≠ .nan ∧ y ≠ .fin true 0) (h1 : F64.lt x y = false) (h2 : F64.lt y x = false) :
    x = y := by
  cases x with
  | nan => exact absurd rfl hx.1
  | inf a =>
    cases y with
    | nan => exact absurd rfl hy.1
    | inf b => cases a <;> cases b <;> simp_all [F64.lt]
    | fin b k => cases a <;> simp_all [F64.lt]
  | fin a n =>
    cases y with
    | nan => exact absurd rfl hy.1
    | inf b => cases b <;> simp_all [F64.lt]
    | fin b k =>
      simp only [F64.lt, decide_eq_false_iff_not, not_lt] at h1 h2
      have hs : F64.sval a n = F64.sval b k := le_antisymm h2 h1
      have hx2 := hx.2
      have hy2 := hy.2
      cases a <;> cases b <;> simp only [F64.sval, if_true, if_false, Bool.false_eq_true] at hs
      · congr 1; omega
      · exfalso; apply hy2; congr 1; omega
      · exfalso; apply hx2; congr 1; omega
      · congr 1; omega

theorem F64.eq_false_of_lt (m M : F64) (h : F64.lt m M = true) : F64.eq M m = false := by
  cases m with
  | nan => simp [F64.lt] at h
  | inf a => cases M <;> cases a <;> simp_all [F64.lt, F64.eq]
  | fin a n =>
    cases M with
    | nan => simp [F64.lt] at h
    | inf b => rfl
    | fin b k =>
      simp only [F64.lt, decide_eq_true_eq] at h
      simp only [F64.eq, decide_eq_false_iff_not]
      omega

/-- One pass of the loop: the state holds the smallest and the largest
value seen so far. -/
theorem scale_fold_inv (xs : List F64) :
    ∀ (pre : List F64) (mn mx : F64), mn ∈ pre → mx ∈ pre →
      (∀ v ∈ pre, F64.lt v mn = false ∧ F64.lt mx v = false) →
      ∃ mn2 mx2, xs.foldl scaleStep (false, mn, mx) = (false, mn2, mx2) ∧
        mn2 ∈ pre ++ xs ∧ mx2 ∈ pre ++ xs ∧
        ∀ v ∈ pre ++ xs, F64.lt v mn2 = false ∧ F64.lt mx2 v = false := by
  induction xs with
  | nil =>
    intro pre mn mx h1 h2 h3
    exact ⟨mn, mx, rfl, by simpa using h1, by simpa using h2, by simpa using h3⟩
  | cons x xs ih =>
    intro pre mn mx h1 h2 h3
    have hstep : scaleStep (false, mn, mx) x =
        (false, if F64.lt x mn then x else mn, if F64.lt mx x then x else mx) := rfl
    obtain ⟨mn2, mx2, hf, hm1, hm2, hall⟩ := ih (pre ++ [x])
      (if F64.lt x mn then x else mn) (if F64.lt mx x then x else mx)
      (by
        by_cases h : F64.lt x mn = true
        · simp [h]
        · simp only [h, Bool.false_eq_true, if_false]
          exact List.mem_append_left _ h1)
      (by
        by_cases h : F64.lt mx x = true
        · simp [h]
        · simp only [h, Bool.false_eq_true, if_false]
          exact List.mem_append_left _ h2)
      (by
        intro v hv
        rcases List.mem_append.1 hv with hv | hv
        · constructor
          · by_cases h : F64.lt x mn = true
            · rw [if_pos h]
              exact F64.not_lt_of_lt_of_not_lt v x mn h (h3 v hv).1
            · rw [if_neg h]
              exact (h3 v hv).1
          · by_cases h : F64.lt mx x = true
            · rw [if_pos h]
              exact F64.not_lt_of_gt_of_not_gt v x mx h (h3 v hv).2
            · rw [if_neg h]
              exact (h3 v hv).2
        · rw [List.mem_singleton.1 hv]
          constructor
          · by_cases h : F64.lt x mn = true
            · rw [if_pos h]
              exact F64.lt_self x
            · rw [if_neg h]
              simpa using h
          · by_cases h : F64.lt mx x = true
            · rw [if_pos h]
              exact F64.lt_self x
            · rw [if_neg h]
              simpa using h)
    refine ⟨mn2, mx2, ?_, ?_, ?_, ?_⟩
    · rw [List.foldl_cons, hstep]
      exact hf
    · simpa using hm1
    · simpa using hm2
    · intro v hv
      exact hall v (by simpa using hv)

/-- The loop of lines 8-23 over data: `first` is cleared, and `min` and
`max` are values of the data that no value is below, respectively
above. -/
theorem scale_fold_spec (xs : List F64) (hne : xs ≠ []) :
    ∃ mn mx, xs.foldl scaleStep ((true, .fin false 0, .fin false 0) : ScaleState) =
        (false, mn, mx) ∧ mn ∈ xs ∧ mx ∈ xs ∧
      ∀ v ∈ xs, F64.lt v mn = false ∧ F64.lt mx v = false := by
  cases xs with
  | nil => exact absurd rfl hne
  | cons x xs =>
    obtain ⟨mn, mx, hf, h1, h2, h3⟩ := scale_fold_inv xs [x] x x
      (List.mem_singleton.2 rfl) (List.mem_singleton.2 rfl)
      (by
        intro v hv
        rw [List.mem_singleton.1 hv]
        exact ⟨F64.lt_self x, F64.lt_self x⟩)
    exact ⟨mn, mx, hf, h1, h2, h3⟩

/-- `CalcScale` on data without NaN and negative zero, by its smallest
value `m` and its largest value `M`. -/
theorem calcScale_of_data (splits : Int) (arrs : List (List F64)) (m M : F64)
    (hgood : ∀ v ∈ arrs.flatten, v ≠ .nan ∧ v ≠ .fin true 0)
    (hm : m ∈ arrs.flatten) (hM : M ∈ arrs.flatten)
    (hmin : ∀ v ∈ arrs.flatten, F64.lt v m = false)
    (hmax : ∀ v ∈ arrs.flatten, F64.lt M v = false) :
    CalcScale splits arrs =
      (roundHundredths m,
       roundHundredths (if F64.eq M m then F64.add m (F64.ofInt 1) else M),
       roundHundredths (F64.div
         (F64.sub (if F64.eq M m then F64.add m (F64.ofInt 1) else M) m) (F64.ofInt splits))) := by
  obtain ⟨mn, mx, hf, h1, h2, h3⟩ :=
    scale_fold_spec arrs.flatten (List.ne_nil_of_mem hm)
  have e1 : mn = m :=
    F64.eq_of_not_lt mn m (hgood mn h1) (hgood m hm) (hmin mn h1) (h3 m hm).1
  have e2 : mx = M :=
    F64.eq_of_not_lt mx M (hgood mx h2) (hgood M hM) (h3 M hM).2 (hmax mx h2)
  unfold CalcScale
  rw [scale_fold_flatten, hf, e1, e2]
  rfl

end Scale
/-- C7 on the code: for the series `[1.006, 2]` with 5 splits `CalcScale`
returns `(1.01, 2, 0.2)`, and the returned min 1.01 is above the value
1.006; for `[1, 1.994]` it returns `(1, 1.99, 0.2)`, and the returned max
1.99 is below the value 1.994. -/
theorem C7_bounds_miss_values :
    CalcScale 5 [[dec 1006 1000, dec 2 1]] = (dec 101 100, dec 2 1, dec 2 10) ∧
    F64.lt (dec 1006 1000) (dec 101 100) = true ∧
    CalcScale 5 [[dec 1 1, dec 1994 1000]] = (dec 1 1, dec 199 100, dec 2 10) ∧
    F64.lt (dec 199 100) (dec 1994 1000) = true := by
  decide

/-- C8 fails where the product `x*100`, rounded to a `float64`, leaves
the half it was below, and where it overflows.  The `float64` of the
literal 0.015 lies below 0.015 and its value rounded to two decimals is
0.01, but `CalcScale` returns the min 0.02 for `[0.015, 50]`, while for
`[1.005, 50]` it returns the min 1, not 1.01; for `[1e307, 2e307]`,
numbers that are their own rounding to two decimals, it returns
`(+Inf, +Inf, +Inf)`. -/
theorem C8_counterexample :
    CalcScale 5 [[dec 15 1000, dec 50 1]] = (dec 2 100, dec 50 1, dec 10 1) ∧
    round2 (dec 15 1000) = dec 1 100 ∧
    F64.lt (dec 15 1000) (dec 50 1) = true ∧
    CalcScale 5 [[dec 1005 1000, dec 50 1]] = (dec 1 1, dec 50 1, dec 98 10) ∧
    CalcScale 5 [[dec (10 ^ 307) 1, dec (2 * 10 ^ 307) 1]] =
      (.inf false, .inf false, .inf false) ∧
    round2 (dec (10 ^ 307) 1) = dec (10 ^ 307) 1 ∧
    F64.lt (dec (10 ^ 307) 1) (dec (2 * 10 ^ 307) 1) = true := by
  decide

/-- C8, amended: for every split count and every collection of series of
numbers (no NaN, no negative zero) whose smallest value `m` is less than
its largest value `M`, `CalcScale` returns exactly the three numbers
`math.Round(x*100) / 100`, evaluated in `float64` arithmetic, of `m`, of
`M` and of `(M - m) / float64(splits)`; the interval is computed from the
unrounded `m` and `M`. -/
theorem C8_calcScale_rounds_in_float64 (splits : Int) (arrs : List (List F64)) (m M : F64)
    (hgood : ∀ v ∈ arrs.flatten, v ≠ .nan ∧ v ≠ .fin true 0)
    (hm : m ∈ arrs.flatten) (hM : M ∈ arrs.flatten)
    (hmin : ∀ v ∈ arrs.flatten, F64.lt v m = false)
    (hmax : ∀ v ∈ arrs.flatten, F64.lt M v = false)
    (hlt : F64.lt m M = true) :
    CalcScale splits arrs =
      (roundHundredths m, roundHundredths M,
       roundHundredths (F64.div (F64.sub M m) (F64.ofInt splits))) := by
  rw [calcScale_of_data splits arrs m M hgood hm hM hmin hmax]
  simp [F64.eq_false_of_lt m M hlt]

/-- Witness of C8 (amended): the series `[1, 3]` and `[2, 4]` with 5
splits give `(1, 4, 0.6)`. -/
theorem C8_witness :
    CalcScale 5 [[dec 1 1, dec 3 1], [dec 2 1, dec 4 1]] = (dec 1 1, dec 4 1, dec 6 10) :=
  (C8_calcScale_rounds_in_float64 5 [[dec 1 1, dec 3 1], [dec 2 1, dec 4 1]] (dec 1 1)
    (dec 4 1) (by decide) (by decide) (by decide) (by decide) (by decide) (by decide)).trans
    (by decide)

/-- C17 on the code: the single-valued series `[0.005]` with 5 splits
gives `(0.01, 1, 0.2)`, where the returned min plus 1 is 1.01, and
`[-0.005]` gives `(-0.01, 1, 0.2)`; the series `[5]` gives
`(5, 6, 0.2)`. -/
theorem C17_flat_range_rounded_apart :
    CalcScale 5 [[dec 5 1000]] = (dec 1 100, dec 1 1, dec 2 10) ∧
    F64.add (dec 1 100) (F64.ofInt 1) = dec 101 100 ∧
    CalcScale 5 [[F64.ofDec true 5 1000]] = (F64.ofDec true 1 100, dec 1 1, dec 2 10) ∧
    F64.add (F64.ofDec true 1 100) (F64.ofInt 1) = dec 99 100 ∧
    CalcScale 5 [[dec 5 1]] = (dec 5 1, dec 6 1, dec 2 10) := by
  decide

/-- C18: for every split count and every collection of series without
any value (no series, or only empty series), `CalcScale` returns
`(0, 0, 0)`. -/
theorem C18_no_data (splits : Int) (arrs : List (List F64)) (h : ∀ a ∈ arrs, a = []) :
    CalcScale splits arrs = (.fin false 0, .fin false 0, .fin false 0) := by
  have hflat : arrs.flatten = [] := by
    induction arrs with
    | nil => rfl
    | cons a arrs ih =>
      rw [List.flatten_cons, h a (List.mem_cons_self _ _),
        ih (fun x hx => h x (List.mem_cons_of_mem _ hx))]
      rfl
  unfold CalcScale
  rw [scale_fold_flatten, hflat]
  rfl

/-- Witness of C18: no series, and two empty series with a negative split count. -/
theorem C18_witness :
    CalcScale 0 [] = (.fin false 0, .fin false 0, .fin false 0) ∧
    CalcScale (-3) [[], []] = (.fin false 0, .fin false 0, .fin false 0) :=
  ⟨C18_no_data 0 [] (by simp), C18_no_data (-3) [[], []] (by simp)⟩

/-- C19 on the code: the flat series `[1.001, 1.001]` is widened to the
axis `(1, 2, 0.2)`, but the series `[1.001, 1.002]`, whose values differ
by less than a hundredth, gets the zero-width axis `(1, 1, 0)`, and the
series `[0.001, 0.002]` gets `(0, 0, 0)` although it holds values. -/
theorem C19_zero_width_on_close_values :
    CalcScale 5 [[dec 1001 1000, dec 1001 1000]] = (dec 1 1, dec 2 1, dec 2 10) ∧
    CalcScale 5 [[dec 1001 1000, dec 1002 1000]] = (dec 1 1, dec 1 1, dec 0 1) ∧
    CalcScale 5 [[dec 1 1000, dec 2 1000]] = (dec 0 1, dec 0 1, dec 0 1) ∧
    dec 0 1 = .fin false 0 := by
  decide

/-- C20 fails on the series `[0, 1]` with 3 splits: the result is
`(0, 1, 0.33)`, and `0 + 3 * 0.33` is less than 1. -/
theorem C20_counterexample :
    CalcScale 3 [[dec 0 1, dec 1 1]] = (dec 0 1, dec 1 1, dec 33 100) ∧
    F64.add (dec 0 1) (F64.mul (F64.ofInt 3) (dec 33 100)) ≠ dec 1 1 ∧
    F64.lt (F64.add (dec 0 1) (F64.mul (F64.ofInt 3) (dec 33 100))) (dec 1 1) = true := by
  decide

/-- C20, amended: the interval returned by `CalcScale` is the evenly
spaced step over `splits` between the unrounded min and max, rounded to
two decimals on its own.  For every split count and every collection of
series of numbers (no NaN, no negative zero) with smallest value `m` and
largest value `M`, where `M` is replaced by `m + 1` when `M == m`, the
returned interval is `math.Round(x*100) / 100` of
`x = (M - m) / float64(splits)`, and the returned min and max are
`math.Round(x*100) / 100` of `m` and of `M`, all in `float64`
arithmetic. -/
theorem C20_interval_rounded_alone (splits : Int) (arrs : List (List F64)) (m M : F64)
    (hgood : ∀ v ∈ arrs.flatten, v ≠ .nan ∧ v ≠ .fin true 0)
    (hm : m ∈ arrs.flatten) (hM : M ∈ arrs.flatten)
    (hmin : ∀ v ∈ arrs.flatten, F64.lt v m = false)
    (hmax : ∀ v ∈ arrs.flatten, F64.lt M v = false) :
    (CalcScale splits arrs).2.2 =
      roundHundredths (F64.div
        (F64.sub (if F64.eq M m then F64.add m (F64.ofInt 1) else M) m) (F64.ofInt splits)) ∧
    (CalcScale splits arrs).1 = roundHundredths m ∧
    (CalcScale splits arrs).2.1 =
      roundHundredths (if F64.eq M m then F64.add m (F64.ofInt 1) else M) := by
  rw [calcScale_of_data splits arrs m M hgood hm hM hmin hmax]
  exact ⟨rfl, rfl, rfl⟩

/-- Witness of C20 (amended) on the series of the counterexample: the
interval is `math.Round((1/3)*100) / 100 = 0.33`. -/
theorem C20_witness :
    (CalcScale 3 [[dec 0 1, dec 1 1]]).2.2 = dec 33 100 :=
  (C20_interval_rounded_alone 3 [[dec 0 1, dec 1 1]] (dec 0 1) (dec 1 1)
    (by decide) (by decide) (by decide) (by decide) (by decide)).1.trans (by decide)

/-! ## Samples and their fields -/

section Fields

variable {F T : Type}

theorem mem_zip_map {α β : Type} (f : α → β) (l : List α) (kv : α × β)
    (h : kv ∈ l.zip (l.map f)) : kv.2 = f kv.1 := by
  induction l with
  | nil => simp at h
  | cons a l ih =>
    simp only [List.map_cons, List.zip_cons_cons, List.mem_cons] at h
    rcases h with rfl | h
    · rfl
    · exact ih h

theorem cpuSample_values (L : Lib F T) (b : RawBlock T) :
    (b.cpuSample L).values =
      cpuKeys.map (fun key =>
        FloatMap.get L (okMap (cpuMapLoop L b.cpuValues 0 b.cpuHeader [])) key) :=
  rfl

theorem rowSample_values (L : Lib F T) (ts : T) (devHeader flds : List Str) :
    (rowSample L ts devHeader flds).values =
      deviceKeys.map (fun key =>
        FloatMap.get L (okMap (devMapLoop L flds 0 devHeader [])) key) :=
  rfl

/-- The fields of the CPU sample of a block without a bad CPU token: a
key that no column within reach of the value line carries reads the
zero value, and a key reads the value of the token under the last
column within reach that carries it. -/
theorem cpuSample_fields (L : Lib F T) (b : RawBlock T) (hnum : ¬ BadCpu L b) :
    ∀ kv ∈ cpuKeys.zip (b.cpuSample L).values,
      ((∀ i, i < b.cpuHeader.length → i < b.cpuValues.length →
          trimPercent (b.cpuHeader.getD i []) ≠ kv.1) → kv.2 = L.zero) ∧
      (∀ i, i < b.cpuHeader.length → i < b.cpuValues.length →
        trimPercent (b.cpuHeader.getD i []) = kv.1 →
        (∀ k, i < k → k < b.cpuHeader.length → k < b.cpuValues.length →
          trimPercent (b.cpuHeader.getD k []) ≠ kv.1) →
        L.parseFloat (b.cpuValues.getD i []) = some kv.2) := by
  intro kv hkv
  rw [cpuSample_values] at hkv
  have hv := mem_zip_map _ _ kv hkv
  have hok := cpuMapLoop_ok_of_not_bad L b hnum
  rw [hv]
  constructor
  · intro hno
    rw [cpuMapLoop_get_unchanged L b.cpuValues kv.1 b.cpuHeader 0 [] _ hok
      (by intro j hj hjv; exact hno j hj (by simpa using hjv))]
    rfl
  · intro i h1 h2 hkey hlast
    have := cpuMapLoop_get_last L b.cpuValues kv.1 b.cpuHeader 0 [] _ hok i h1
      (by simpa using h2) hkey
      (by intro k hik hk hkv2; exact hlast k hik hk (by simpa using hkv2))
    simpa using this

/-- The fields of the device sample of a row without a bad token, as in
`cpuSample_fields`, for the columns at positions `i ≥ 1`. -/
theorem rowSample_fields (L : Lib F T) (ts : T) (devHeader flds : List Str)
    (hnum : ¬ BadRow L devHeader flds) :
    ∀ kv ∈ deviceKeys.zip (rowSample L ts devHeader flds).values,
      ((∀ i, 1 ≤ i → i < devHeader.length → i < flds.length →
          trimPercent (devHeader.getD i []) ≠ kv.1) → kv.2 = L.zero) ∧
      (∀ i, 1 ≤ i → i < devHeader.length → i < flds.length →
        trimPercent (devHeader.getD i []) = kv.1 →
        (∀ k, i < k → k < devHeader.length → k < flds.length →
          trimPercent (devHeader.getD k []) ≠ kv.1) →
        L.parseFloat (flds.getD i []) = some kv.2) := by
  intro kv hkv
  rw [rowSample_values] at hkv
  have hv := mem_zip_map _ _ kv hkv
  rw [hv]
  exact ⟨fun hno => rowSample_get_zero L devHeader flds kv.1 hnum hno,
    fun i h1 h2 h3 hkey hlast => rowSample_get_last L devHeader flds kv.1 hnum i h1 h2 h3 hkey hlast⟩

/-- The `k`-th CPU sample of a result, when there is one, is the CPU
sample of the `k`-th block; there is one when the parse succeeds. -/
theorem ParseIostatOutput_cpuSample (L : Lib F T) (data : Str) (k : Nat) (b : RawBlock T)
    (hb : (rawBlocks L (newScanner data))[k]? = some b) :
    (∀ c, (ParseIostatOutput L data).1.CPUs[k]? = some c → c = b.cpuSample L) ∧
    ((ParseIostatOutput L data).2 = none →
      (ParseIostatOutput L data).1.CPUs[k]? = some (b.cpuSample L)) := by
  obtain ⟨j, hj, hcp, hnone⟩ :=
    runBlocks_CPUs L (rawBlocks L (newScanner data)) { CPUs := [], Devices := [] }
  rw [ParseIostatOutput_fst, hcp]
  simp only [List.nil_append]
  have hk : k < (rawBlocks L (newScanner data)).length := by
    by_contra hcon
    rw [List.getElem?_eq_none (by omega)] at hb
    cases hb
  have hget : k < j →
      (((rawBlocks L (newScanner data)).take j).map (RawBlock.cpuSample L))[k]? =
        some (RawBlock.cpuSample L b) := by
    intro hkj
    rw [List.getElem?_map, List.getElem?_take_of_lt hkj, hb]
    rfl
  constructor
  · intro c hc
    by_cases hkj : k < j
    · rw [hget hkj] at hc
      cases hc
      rfl
    · rw [List.getElem?_eq_none (by simp; omega)] at hc
      cases hc
  · intro hnoerr
    have hjl := hnone (ParseIostatOutput_snd_none L data hnoerr)
    rw [hget (by omega)]

theorem DeviceMap.mem_keys_push (d : DeviceStats F T) (m : DeviceMap F T) (n : Str) :
    n ∈ (DeviceMap.push d m).keys ↔ n ∈ m.keys ∨ n = d.Name := by
  rw [DeviceMap.keys_push]
  split
  · rename_i h
    constructor
    · intro hn; exact Or.inl hn
    · rintro (hn | rfl)
      · exact hn
      · exact h
  · simp

theorem mem_keys_pushAll (ds : List (DeviceStats F T)) :
    ∀ (m : DeviceMap F T) (n : Str),
      n ∈ (pushAll ds m).keys ↔ n ∈ m.keys ∨ ∃ d ∈ ds, d.Name = n := by
  induction ds with
  | nil => intro m n; simp [pushAll]
  | cons d ds ih =>
    intro m n
    have := ih (DeviceMap.push d m) n
    simp only [pushAll, List.foldl_cons] at this ⊢
    rw [this, DeviceMap.mem_keys_push]
    constructor
    · rintro ((h | rfl) | ⟨e, he, hn⟩)
      · exact Or.inl h
      · exact Or.inr ⟨d, List.mem_cons_self _ _, rfl⟩
      · exact Or.inr ⟨e, List.mem_cons_of_mem _ he, hn⟩
    · rintro (h | ⟨e, he, hn⟩)
      · exact Or.inl (Or.inl h)
      · rcases List.mem_cons.1 he with rfl | he
        · exact Or.inl (Or.inr hn.symm)
        · exact Or.inr ⟨e, he, hn⟩

end Fields

/-- C15: for every input parsed without error and every string `n`,
`Devices[n]` is exactly the list of the samples built from the device
rows whose first token is literally `n`, in the order of the rows in
the input (block after block, row after row); a name without such a row
is not a key of the map. -/
theorem C15_device_sequences {F T : Type} (L : Lib F T) (data : Str) (n : Str)
    (h : (ParseIostatOutput L data).2 = none) :
    (ParseIostatOutput L data).1.Devices.get n =
      ((rawBlocks L (newScanner data)).map (fun b =>
        (b.rows.filter (fun flds => flds.getD 0 [] = n)).map
          (rowSample L b.ts b.devHeader))).flatten ∧
    (n ∈ (ParseIostatOutput L data).1.Devices.keys ↔
      ∃ b ∈ rawBlocks L (newScanner data), ∃ flds ∈ b.rows, flds.getD 0 [] = n) := by
  constructor
  · rw [ParseIostatOutput_devices L data n h, List.filter_flatten, List.map_map]
    congr 1
    apply List.map_congr_left
    intro b _
    simp only [Function.comp, RawBlock.rowSamples, List.filter_map]
    rfl
  · have hgood : ∀ b ∈ rawBlocks L (newScanner data), ¬ BadBlock L b := by
      intro b hb hbad
      exact ((runBlocks_error_iff L _ { CPUs := [], Devices := [] }).2 ⟨b, hb, hbad⟩)
        (ParseIostatOutput_snd_none L data h)
    rw [ParseIostatOutput_fst, runBlocks_good L _ _ hgood]
    simp only []
    rw [mem_keys_pushAll]
    simp only [DeviceMap.keys, List.map_nil, List.not_mem_nil, false_or, List.mem_flatten,
      List.mem_map]
    constructor
    · rintro ⟨d, ⟨l, ⟨b, hb, rfl⟩, hd⟩, hn⟩
      simp only [RawBlock.rowSamples, List.mem_map] at hd
      obtain ⟨flds, hf, rfl⟩ := hd
      exact ⟨b, hb, flds, hf, hn⟩
    · rintro ⟨b, hb, flds, hf, hn⟩
      exact ⟨rowSample L b.ts b.devHeader flds,
        ⟨_, ⟨b, hb, rfl⟩, by
          simp only [RawBlock.rowSamples, List.mem_map]
          exact ⟨flds, hf, rfl⟩⟩, hn⟩

section ShortRows

variable {F T : Type}

theorem not_badCpu_of_ok (L : Lib F T) (b : RawBlock T)
    (h : (cpuMapLoop L b.cpuValues 0 b.cpuHeader []).toBool = true) : ¬ BadCpu L b := by
  intro hb
  obtain ⟨e, he⟩ := (cpuMapLoop_error_iff L b).2 hb
  rw [he] at h
  cases h

theorem devMapLoop_name_only (L : Lib F T) (name : Str) (hs : List Str) :
    ∀ (i : Nat) (m : FloatMap F), devMapLoop L [name] i hs m = .ok m := by
  induction hs with
  | nil => intro i m; rfl
  | cons h hs ih =>
    intro i m
    have hi : i = 0 ∨ i ≥ [name].length := by
      simp only [List.length_singleton]; omega
    simp only [devMapLoop, hi, if_true]
    exact ih _ _

theorem rowSample_name_only (L : Lib F T) (ts : T) (devHeader : List Str) (name : Str) :
    rowSample L ts devHeader [name] =
      { Timestamp := ts, Name := name,
        ReadsPerSec := L.zero, ReadKBPerSec := L.zero, ReadMergedPerSec := L.zero,
        ReadPctMerged := L.zero, ReadAwaitMs := L.zero, ReadReqSzKB := L.zero,
        WritesPerSec := L.zero, WriteKBPerSec := L.zero, WriteMergedPerSec := L.zero,
        WritePctMerged := L.zero, WriteAwaitMs := L.zero, WriteReqSzKB := L.zero,
        QueueSize := L.zero } := by
  simp only [rowSample, devMapLoop_name_only, okMap]
  rfl

theorem not_badRow_name_only (L : Lib F T) (devHeader : List Str) (name : Str) :
    ¬ BadRow L devHeader [name] := by
  rintro ⟨i, h1, _, h3, _⟩
  simp only [List.length_singleton] at h3
  omega

theorem forall_between {P : Nat → Prop} (i n m : Nat)
    (h : ∀ j, j < n → (i < j → j < m → P j)) : ∀ j, i < j → j < n → j < m → P j :=
  fun j a b c => h j b a c

end ShortRows

/-- Witness of C15 on two blocks, the second without the device `sdb`. -/
theorem C15_witness :
    (ParseIostatOutput sampleLib c4Input).1.Devices.get "sdb".toList =
      ((rawBlocks sampleLib (newScanner c4Input)).map (fun b =>
        (b.rows.filter (fun flds => flds.getD 0 [] = "sdb".toList)).map
          (rowSample sampleLib b.ts b.devHeader))).flatten ∧
    ("sdb".toList ∈ (ParseIostatOutput sampleLib c4Input).1.Devices.keys ↔
      ∃ b ∈ rawBlocks sampleLib (newScanner c4Input), ∃ flds ∈ b.rows,
        flds.getD 0 [] = "sdb".toList) :=
  C15_device_sequences sampleLib c4Input "sdb".toList (by decide)
theorem readNat_twoDigits : ∀ n, n < 100 → readNat (twoDigits n) = some n := by
  decide

theorem timeParse_stampText (mo d y h mi se : Nat) (hy : y < 100)
    (hmo : 1 ≤ mo ∧ mo ≤ 12) (hd : 1 ≤ d ∧ d ≤ daysIn (if y < 69 then 2000 + y else 1900 + y) mo)
    (hh : h < 24) (hmi : mi < 60) (hse : se < 60) :
    timeParse (stampText mo d y h mi se) =
      some { year := if y < 69 then 2000 + y else 1900 + y, month := mo, day := d,
             hour := h, minute := mi, second := se } := by
  have hd100 : d < 100 := by
    have : daysIn (if y < 69 then 2000 + y else 1900 + y) mo ≤ 31 := by
      unfold daysIn; split_ifs <;> omega
    omega
  have e1 := readNat_twoDigits mo (by omega)
  have e2 := readNat_twoDigits d hd100
  have e3 := readNat_twoDigits y hy
  have e4 := readNat_twoDigits h (by omega)
  have e5 := readNat_twoDigits mi (by omega)
  have e6 := readNat_twoDigits se (by omega)
  simp only [twoDigits] at e1 e2 e3 e4 e5 e6
  simp only [stampText, twoDigits, List.cons_append, List.nil_append, timeParse,
    e1, e2, e3, e4, e5, e6]
  simp [hmo, hd, hh, hmi, hse]

section Origin

variable {F T : Type}

theorem findCpuHeader_suffix (s : Stream) : (findCpuHeader s).2 <:+ s := by
  induction s with
  | nil => simp [findCpuHeader]
  | cons x rest ih =>
    cases x with
    | none => simp only [findCpuHeader]; exact List.suffix_cons _ _
    | some raw =>
      simp only [findCpuHeader]
      split
      · exact List.suffix_cons _ _
      · exact ih.trans (List.suffix_cons _ _)

theorem findCpuValues_suffix (s : Stream) : (findCpuValues s).2 <:+ s := by
  induction s with
  | nil => simp [findCpuValues]
  | cons x rest ih =>
    cases x with
    | none => simp only [findCpuValues]; exact List.suffix_cons _ _
    | some raw =>
      simp only [findCpuValues]
      split
      · exact ih.trans (List.suffix_cons _ _)
      · exact List.suffix_cons _ _

theorem findDevHeader_suffix (s : Stream) : (findDevHeader s).2 <:+ s := by
  induction s with
  | nil => simp [findDevHeader]
  | cons x rest ih =>
    cases x with
    | none => simp only [findDevHeader]; exact List.suffix_cons _ _
    | some raw =>
      simp only [findDevHeader]
      split
      · exact ih.trans (List.suffix_cons _ _)
      · split
        · exact List.suffix_cons _ _
        · exact ih.trans (List.suffix_cons _ _)

theorem deviceRows_suffix (s : Stream) : (deviceRows s).2 <:+ s := by
  induction s with
  | nil => simp [deviceRows]
  | cons x rest ih =>
    cases x with
    | none => simp only [deviceRows]; exact List.suffix_cons _ _
    | some raw =>
      simp only [deviceRows]
      split
      · exact List.suffix_cons _ _
      · exact ih.trans (List.suffix_cons _ _)

theorem block_rest_suffix (rest : Stream) :
    (deviceRows (findDevHeader (findCpuValues (findCpuHeader rest).2).2).2).2 <:+ rest :=
  (((deviceRows_suffix _).trans (findDevHeader_suffix _)).trans
    (findCpuValues_suffix _)).trans (findCpuHeader_suffix _)

/-- Every block starts at a line of the scan that parses as a timestamp,
and is read from the lines after it. -/
theorem rawBlocks_origin (L : Lib F T) :
    ∀ (n : Nat) (s : Stream), s.length ≤ n → ∀ b ∈ rawBlocks L s,
      ∃ pre raw rest, s = pre ++ some raw :: rest ∧ trimSpace raw ≠ [] ∧
        L.parseTime (trimSpace raw) = some b.ts ∧
        b.cpuHeader = (findCpuHeader rest).1 ∧
        b.cpuValues = (findCpuValues (findCpuHeader rest).2).1 ∧
        b.devHeader = (findDevHeader (findCpuValues (findCpuHeader rest).2).2).1 ∧
        b.rows = (deviceRows (findDevHeader (findCpuValues (findCpuHeader rest).2).2).2).1 := by
  intro n
  induction n with
  | zero =>
    intro s hs b hb
    have : s = [] := List.length_eq_zero.1 (Nat.le_zero.1 hs)
    subst this
    simp [rawBlocks, blocksLoop] at hb
  | succ n ih =>
    intro s hs b hb
    cases s with
    | nil => simp [rawBlocks, blocksLoop] at hb
    | cons x rest =>
      cases x with
      | none => simp [rawBlocks, blocksLoop] at hb
      | some raw =>
        have hlen : rest.length ≤ n := by simpa using hs
        have skip : b ∈ rawBlocks L rest →
            ∃ pre raw0 rest0, some raw :: rest = pre ++ some raw0 :: rest0 ∧ trimSpace raw0 ≠ [] ∧
              L.parseTime (trimSpace raw0) = some b.ts ∧
              b.cpuHeader = (findCpuHeader rest0).1 ∧
              b.cpuValues = (findCpuValues (findCpuHeader rest0).2).1 ∧
              b.devHeader = (findDevHeader (findCpuValues (findCpuHeader rest0).2).2).1 ∧
              b.rows =
                (deviceRows (findDevHeader (findCpuValues (findCpuHeader rest0).2).2).2).1 := by
          intro hb2
          obtain ⟨pre, raw0, rest0, e, h⟩ := ih rest hlen b hb2
          exact ⟨some raw :: pre, raw0, rest0, by rw [e]; rfl, h⟩
        by_cases h0 : trimSpace raw = []
        · rw [rawBlocks_skip L raw rest (Or.inl h0)] at hb
          exact skip hb
        · cases hp : L.parseTime (trimSpace raw) with
          | none =>
            rw [rawBlocks_skip L raw rest (Or.inr hp)] at hb
            exact skip hb
          | some ts =>
            rw [rawBlocks_timestamp L raw rest ts h0 hp] at hb
            rcases List.mem_cons.1 hb with hb | hb
            · subst hb
              exact ⟨[], raw, rest, rfl, h0, hp, rfl, rfl, rfl, rfl⟩
            · obtain ⟨used, hused⟩ := block_rest_suffix rest
              have hlen2 :
                  (deviceRows (findDevHeader (findCpuValues
                    (findCpuHeader rest).2).2).2).2.length ≤ n :=
                le_trans (block_rest_length rest) hlen
              obtain ⟨pre, raw0, rest0, e, h⟩ := ih _ hlen2 b hb
              refine ⟨some raw :: (used ++ pre), raw0, rest0, ?_, h⟩
              rw [← hused, e]
              simp

theorem runRows_devices_mem (L : Lib F T) (ts : T) (devHeader : List Str)
    (rows : List (List Str)) :
    ∀ (p : ParsedData F T) (n : Str) (d : DeviceStats F T),
      d ∈ (runRows L ts devHeader rows p).1.Devices.get n →
      d ∈ p.Devices.get n ∨
        ∃ flds ∈ rows, flds.getD 0 [] = n ∧ d = rowSample L ts devHeader flds := by
  induction rows with
  | nil => intro p n d h; exact Or.inl h
  | cons flds rows ih =>
    intro p n d h
    cases hm : devMapLoop L flds 0 devHeader [] with
    | error e =>
      rw [runRows, hm] at h
      exact Or.inl h
    | ok m =>
      rw [runRows, hm] at h
      have hs : mkDeviceStats L ts flds m = rowSample L ts devHeader flds := by
        simp only [rowSample, hm, okMap]
      rcases ih _ n d h with h1 | ⟨f, hf, h2⟩
      · simp only [] at h1
        rw [DeviceMap.get_push] at h1
        by_cases hn : n = (mkDeviceStats L ts flds m).Name
        · rw [if_pos hn] at h1
          rcases List.mem_append.1 h1 with h1 | h1
          · exact Or.inl h1
          · simp only [List.mem_singleton] at h1
            refine Or.inr ⟨flds, List.mem_cons_self _ _, ?_, by rw [h1, hs]⟩
            rw [hn]; rfl
        · rw [if_neg hn] at h1
          exact Or.inl h1
      · exact Or.inr ⟨f, List.mem_cons_of_mem _ hf, h2⟩

theorem runBlocks_devices_mem (L : Lib F T) (bs : List (RawBlock T)) :
    ∀ (p : ParsedData F T) (n : Str) (d : DeviceStats F T),
      d ∈ (runBlocks L bs p).1.Devices.get n →
      d ∈ p.Devices.get n ∨
        ∃ b ∈ bs, ∃ flds ∈ b.rows, flds.getD 0 [] = n ∧ d = rowSample L b.ts b.devHeader flds := by
  induction bs with
  | nil => intro p n d h; exact Or.inl h
  | cons b bs ih =>
    intro p n d h
    cases hm : cpuMapLoop L b.cpuValues 0 b.cpuHeader [] with
    | error e =>
      rw [runBlocks, hm] at h
      exact Or.inl h
    | ok m =>
      rw [runBlocks, hm] at h
      simp only [] at h
      have hrow := runRows_devices_mem L b.ts b.devHeader b.rows
        { p with CPUs := p.CPUs ++ [mkCPUStats L b.ts m] } n d
      generalize runRows L b.ts b.devHeader b.rows
        { p with CPUs := p.CPUs ++ [mkCPUStats L b.ts m] } = r at h hrow
      obtain ⟨p2, e⟩ := r
      cases e with
      | some e =>
        rcases hrow h with h1 | ⟨f, hf, h2⟩
        · exact Or.inl h1
        · exact Or.inr ⟨b, List.mem_cons_self _ _, f, hf, h2⟩
      | none =>
        rcases ih p2 n d h with h1 | ⟨b2, hb2, h2⟩
        · rcases hrow h1 with h1 | ⟨f, hf, h2⟩
          · exact Or.inl h1
          · exact Or.inr ⟨b, List.mem_cons_self _ _, f, hf, h2⟩
        · exact Or.inr ⟨b2, List.mem_cons_of_mem _ hb2, h2⟩

end Origin


section Leading

variable {F T : Type}

theorem rawLinesGo_line (l : Str) (hl : '\n' ∉ l) (rest : Str) :
    ∀ cur : Str, rawLinesGo cur (l ++ '\n' :: rest) = (cur.reverse ++ l) :: rawLinesGo [] rest := by
  induction l with
  | nil => intro cur; simp [rawLinesGo]
  | cons c l ih =>
    intro cur
    have hc : c ≠ '\n' := fun h => hl (by rw [h]; exact List.mem_cons_self _ _)
    have hl2 : '\n' ∉ l := fun h => hl (List.mem_cons_of_mem _ h)
    rw [List.cons_append, rawLinesGo, if_neg hc, ih hl2]
    simp

theorem rawLines_joinLines (lead : List Str) (hline : ∀ l ∈ lead, '\n' ∉ l) (data : Str) :
    rawLines (joinLines lead ++ data) = lead ++ rawLines data := by
  induction lead with
  | nil => rfl
  | cons l lead ih =>
    have h1 : joinLines (l :: lead) ++ data = l ++ '\n' :: (joinLines lead ++ data) := by
      simp [joinLines]
    rw [h1]
    unfold rawLines
    rw [rawLinesGo_line l (hline l (List.mem_cons_self _ _))]
    have := ih (fun x hx => hline x (List.mem_cons_of_mem _ hx))
    unfold rawLines at this
    rw [this]
    rfl

theorem scanLines_append_fit (lead : List Str) (hfit : ∀ l ∈ lead, byteLen l < maxScanTokenSize)
    (ls : List Str) :
    scanLines (lead ++ ls) = (lead.map dropCR).map some ++ scanLines ls := by
  induction lead with
  | nil => rfl
  | cons l lead ih =>
    rw [List.cons_append, scanLines, if_pos (hfit l (List.mem_cons_self _ _)),
      ih (fun x hx => hfit x (List.mem_cons_of_mem _ hx))]
    rfl

theorem trimSpace_cons_space (c : Char) (hc : isSpace c = true) (l : Str) :
    trimSpace (c :: l) = trimSpace l := by
  simp [trimSpace, List.dropWhile, hc]

theorem trimSpace_concat_space (c : Char) (hc : isSpace c = true) (l : Str) :
    trimSpace (l ++ [c]) = trimSpace l := by
  induction l with
  | nil => simp [trimSpace, List.dropWhile, hc]
  | cons a l ih =>
    by_cases ha : isSpace a = true
    · rw [List.cons_append, trimSpace_cons_space a ha, trimSpace_cons_space a ha, ih]
    · have h1 : (a :: l).dropWhile isSpace = a :: l := by simp [List.dropWhile, ha]
      have h2 : (a :: l ++ [c]).dropWhile isSpace = a :: l ++ [c] := by
        simp [List.dropWhile, ha]
      unfold trimSpace
      rw [h1, h2]
      simp [List.dropWhile, hc]

theorem trimSpace_dropCR (l : Str) : trimSpace (dropCR l) = trimSpace l := by
  unfold dropCR
  split
  · rename_i h
    rcases List.eq_nil_or_concat l with h0 | ⟨l2, c, h0⟩
    · subst h0; rfl
    · subst h0
      have hc : c = '\r' := by
        simpa [List.getLast?_append, Option.or] using h
      subst hc
      rw [List.concat_eq_append, List.dropLast_concat, trimSpace_concat_space _ (by decide)]
  · rfl

theorem scannerErr_map_some_append (lead : List Str) (s : Stream) :
    scannerErr (lead.map some ++ s) = scannerErr s := by
  induction lead with
  | nil => rfl
  | cons l lead ih =>
    simp only [scannerErr, List.map_cons, List.cons_append] at ih ⊢
    simp only [List.contains_cons]
    have : (none == some l) = false := rfl
    rw [this, Bool.false_or]
    exact ih

theorem ParseIostatOutput_leading (L : Lib F T) (lead : List Str) (data : Str)
    (hline : ∀ l ∈ lead, '\n' ∉ l) (hfit : ∀ l ∈ lead, byteLen l < maxScanTokenSize)
    (hno : ∀ l ∈ lead, trimSpace l = [] ∨ L.parseTime (trimSpace l) = none) :
    ParseIostatOutput L (joinLines lead ++ data) = ParseIostatOutput L data := by
  have hs : newScanner (joinLines lead ++ data) =
      (lead.map dropCR).map some ++ newScanner data := by
    unfold newScanner
    rw [rawLines_joinLines lead hline, scanLines_append_fit lead hfit]
  have hno2 : ∀ l ∈ lead.map dropCR,
      trimSpace l = [] ∨ L.parseTime (trimSpace l) = none := by
    intro l hl
    obtain ⟨l0, hl0, e⟩ := List.mem_map.1 hl
    rw [← e, trimSpace_dropCR]
    exact hno l0 hl0
  unfold ParseIostatOutput
  simp only [hs, parseFrom_eq_runBlocks, rawBlocks_skip_all L _ _ hno2,
    scannerErr_map_some_append]

theorem ParseIostatOutput_long_first_line (L : Lib F T) (l : Str) (data : Str)
    (hl : '\n' ∉ l) (hlong : maxScanTokenSize ≤ byteLen l) :
    ParseIostatOutput L (joinLines [l] ++ data) =
      ({ CPUs := [], Devices := [] }, some .tooLong) := by
  have hline : ∀ x ∈ [l], '\n' ∉ x := by
    intro x hx
    rw [List.mem_singleton.1 hx]
    exact hl
  unfold ParseIostatOutput newScanner
  rw [rawLines_joinLines [l] hline, List.singleton_append, scanLines,
    if_neg (by omega)]
  rfl

theorem newline_not_mem_replicate_space (n : Nat) : '\n' ∉ List.replicate n ' ' := by
  intro h
  have := List.eq_of_mem_replicate h
  revert this
  decide

end Leading

/-- C16 fails for a prepended line of 65536 spaces: trimmed it is empty
and is no timestamp, `c3Input` alone parses without error, and with the
line in front the scanner stops with `ErrTooLong` before any block. -/
theorem C16_counterexample :
    (∀ l ∈ [List.replicate 65536 ' '],
      '\n' ∉ l ∧ trimSpace l = [] ∧ sampleLib.parseTime (trimSpace l) = none) ∧
    (ParseIostatOutput sampleLib c3Input).2 = none ∧
    (ParseIostatOutput sampleLib c3Input).1.CPUs.length = 1 ∧
    ParseIostatOutput sampleLib (joinLines [List.replicate 65536 ' '] ++ c3Input) =
      ({ CPUs := [], Devices := [] }, some .tooLong) := by
  have ht : trimSpace (List.replicate 65536 ' ') = [] := by
    apply trimSpace_eq_nil_of_all_space
    intro c hc
    rw [List.eq_of_mem_replicate hc]
    decide
  refine ⟨?_, by decide, by decide, ?_⟩
  · intro l hl
    rw [List.mem_singleton.1 hl, ht]
    exact ⟨newline_not_mem_replicate_space _, rfl, rfl⟩
  · apply ParseIostatOutput_long_first_line
    · exact newline_not_mem_replicate_space _
    · rw [byteLen_replicate_space]
      decide

/-- C16, amended: prepending lines that stay below the scanner's line
limit of 64 KiB and that are blank or do not parse as a timestamp after
trimming does not change the result of `ParseIostatOutput`: same CPU
samples, same device map, same error. -/
theorem C16_leading_lines_skipped {F T : Type} (L : Lib F T) (lead : List Str) (data : Str)
    (hline : ∀ l ∈ lead, '\n' ∉ l) (hfit : ∀ l ∈ lead, byteLen l < maxScanTokenSize)
    (hno : ∀ l ∈ lead, trimSpace l = [] ∨ L.parseTime (trimSpace l) = none) :
    ParseIostatOutput L (joinLines lead ++ data) = ParseIostatOutput L data :=
  ParseIostatOutput_leading L lead data hline hfit hno

/-- Witness of C16 (amended): a banner line and a blank line before `c3Input`. -/
theorem C16_witness :
    (∀ l ∈ c16Lead, '\n' ∉ l) ∧ (∀ l ∈ c16Lead, byteLen l < maxScanTokenSize) ∧
    (∀ l ∈ c16Lead, trimSpace l = [] ∨ sampleLib.parseTime (trimSpace l) = none) ∧
    ParseIostatOutput sampleLib (joinLines c16Lead ++ c3Input) =
      ParseIostatOutput sampleLib c3Input :=
  ⟨by decide, by decide, by decide,
    C16_leading_lines_skipped sampleLib c16Lead c3Input (by decide) (by decide) (by decide)⟩

section MachineRefines

variable {F T : Type}

theorem cpuMapLoop_nil_values (L : Lib F T) (hs : List Str) :
    ∀ (i : Nat) (m : FloatMap F), cpuMapLoop L [] i hs m = .ok m := by
  induction hs with
  | nil => intro i m; rfl
  | cons h hs ih => intro i m; simp [cpuMapLoop, ih]

theorem cpuDone_nil (L : Lib F T) (ts : T) (hdr : List Str) (p : ParsedData F T) :
    cpuDone L ts hdr [] p = (.seekDevHeader ts, { p with CPUs := p.CPUs ++ [mkCPUStats L ts []] }) := by
  simp [cpuDone, cpuMapLoop_nil_values]

theorem foldl_step_stopped (L : Lib F T) (e : Option ParseError) (p : ParsedData F T)
    (s : Stream) : s.foldl (step L) (.stopped e, p) = (.stopped e, p) := by
  induction s with
  | nil => rfl
  | cons x s ih => rw [List.foldl_cons]; exact ih

theorem run_stopped (L : Lib F T) (e : Option ParseError) (p : ParsedData F T) (s : Stream) :
    run L (.stopped e, p) s = (p, e) := by
  unfold run
  rw [foldl_step_stopped]
  rfl

theorem run_cons (L : Lib F T) (st : Phase T × ParsedData F T) (x : Option Str) (s : Stream) :
    run L st (x :: s) = run L (step L st x) s := rfl

theorem run_seekDevHeader_nil (L : Lib F T) (ts : T) (p : ParsedData F T) :
    run L (.seekDevHeader ts, p) [] = (p, none) := rfl

theorem run_deviceLines_nil (L : Lib F T) (ts : T) (dh : List Str) (p : ParsedData F T) :
    run L (.deviceLines ts dh, p) [] = (p, none) := rfl

theorem run_seekTimestamp_nil (L : Lib F T) (p : ParsedData F T) :
    run L (.seekTimestamp, p) [] = (p, none) := rfl

theorem run_seekCpuValues_nil (L : Lib F T) (ts : T) (hdr : List Str) (p : ParsedData F T) :
    run L (.seekCpuValues ts hdr, p) [] =
      ({ p with CPUs := p.CPUs ++ [mkCPUStats L ts []] }, none) := by
  simp only [run, finish, List.foldl_nil, List.replicate, List.foldl_cons, step, cpuDone_nil]

theorem run_seekCpuHeader_nil (L : Lib F T) (ts : T) (p : ParsedData F T) :
    run L (.seekCpuHeader ts, p) [] =
      ({ p with CPUs := p.CPUs ++ [mkCPUStats L ts []] }, none) := by
  simp only [run, finish, List.foldl_nil, List.replicate, List.foldl_cons, step, cpuDone_nil]

theorem run_seekCpuHeader (L : Lib F T) (ts : T) (p : ParsedData F T) (s : Stream) :
    run L (.seekCpuHeader ts, p) s =
      run L (.seekCpuValues ts (findCpuHeader s).1, p) (findCpuHeader s).2 := by
  induction s with
  | nil => rw [run_seekCpuHeader_nil]; simp only [findCpuHeader]; rw [run_seekCpuValues_nil]
  | cons x rest ih =>
    cases x with
    | none => rfl
    | some raw =>
      rw [run_cons]
      by_cases h : hasPrefix (trimSpace raw) "avg-cpu:".toList = true
      · simp only [step, findCpuHeader, h, if_true]
      · simp only [step, findCpuHeader, h]
        exact ih

theorem run_seekCpuValues (L : Lib F T) (ts : T) (hdr : List Str) (p : ParsedData F T)
    (s : Stream) :
    run L (.seekCpuValues ts hdr, p) s =
      run L (cpuDone L ts hdr (findCpuValues s).1 p) (findCpuValues s).2 := by
  induction s with
  | nil =>
    rw [run_seekCpuValues_nil]
    simp only [findCpuValues]
    rw [cpuDone_nil]
    rfl
  | cons x rest ih =>
    cases x with
    | none => rfl
    | some raw =>
      rw [run_cons]
      by_cases h : trimSpace raw = []
      · simp only [step, findCpuValues, h, if_true]
        exact ih
      · simp only [step, findCpuValues, h, if_false]

theorem run_seekDevHeader (L : Lib F T) (ts : T) (p : ParsedData F T) (s : Stream) :
    run L (.seekDevHeader ts, p) s =
      run L (.deviceLines ts (findDevHeader s).1, p) (findDevHeader s).2 := by
  induction s with
  | nil => rfl
  | cons x rest ih =>
    cases x with
    | none => rfl
    | some raw =>
      rw [run_cons]
      by_cases h : trimSpace raw = []
      · simp only [step, findDevHeader, h, if_true]
        exact ih
      · by_cases h2 : hasPrefix (trimSpace raw) "Device".toList = true
        · simp only [step, findDevHeader, h, h2, if_true, if_false]
        · simp only [step, findDevHeader, h, h2, if_false]
          exact ih

theorem run_deviceLines (L : Lib F T) (ts : T) (dh : List Str) (s : Stream) :
    ∀ p : ParsedData F T,
      run L (.deviceLines ts dh, p) s =
        match deviceLoop L ts dh s p with
        | (p2, some e, _) => (p2, some e)
        | (p2, none, s4) => run L (.seekTimestamp, p2) s4 := by
  induction s with
  | nil => intro p; rfl
  | cons x rest ih =>
    intro p
    cases x with
    | none => rfl
    | some raw =>
      rw [run_cons]
      by_cases h : trimSpace raw = []
      · simp only [step, deviceLoop, h, if_true]
      · cases hm : devMapLoop L (fields (trimSpace raw)) 0 dh [] with
        | error e =>
          simp only [step, deviceLoop, h, hm, if_false]
          rw [run_stopped]
        | ok m =>
          simp only [step, deviceLoop, h, hm, if_false]
          exact ih _

theorem deviceLoop_length (L : Lib F T) (ts : T) (dh : List Str) (s : Stream) :
    ∀ p : ParsedData F T, (deviceLoop L ts dh s p).2.2.length ≤ s.length := by
  induction s with
  | nil => intro p; simp [deviceLoop]
  | cons x rest ih =>
    intro p
    cases x with
    | none => simp [deviceLoop]
    | some raw =>
      by_cases h : trimSpace raw = []
      · simp [deviceLoop, h]
      · cases hm : devMapLoop L (fields (trimSpace raw)) 0 dh [] with
        | error e => simp [deviceLoop, h, hm]
        | ok m =>
          simp only [deviceLoop, h, hm, if_false, List.length_cons]
          exact le_trans (ih _) (Nat.le_succ _)

theorem parseLoop_eq_run (L : Lib F T) (n : Nat) :
    ∀ (s : Stream) (p : ParsedData F T), s.length ≤ n →
      parseLoop L n s p = run L (.seekTimestamp, p) s := by
  induction n with
  | zero =>
    intro s p hs
    have : s = [] := List.length_eq_zero.1 (Nat.le_zero.1 hs)
    subst this
    rfl
  | succ n ih =>
    intro s p hs
    cases s with
    | nil => rfl
    | cons x rest =>
      have hlen : rest.length ≤ n := by simpa using hs
      cases x with
      | none =>
        rw [run_cons]
        simp only [parseLoop, step]
        rw [run_stopped]
      | some raw =>
        rw [run_cons]
        by_cases hb : trimSpace raw = []
        · simp only [parseLoop, step, hb, if_true]
          exact ih _ _ hlen
        · cases ht : L.parseTime (trimSpace raw) with
          | none =>
            simp only [parseLoop, step, hb, ht, if_false]
            exact ih _ _ hlen
          | some ts =>
            simp only [parseLoop, step, hb, ht, if_false]
            rw [run_seekCpuHeader, run_seekCpuValues]
            unfold cpuDone
            cases hm : cpuMapLoop L (findCpuValues (findCpuHeader rest).2).1 0
                (findCpuHeader rest).1 [] with
            | error e =>
              simp only []
              rw [run_stopped]
            | ok m =>
              simp only []
              rw [run_seekDevHeader, run_deviceLines]
              have h1 := findCpuHeader_length rest
              have h2 := findCpuValues_length (findCpuHeader rest).2
              have h3 := findDevHeader_length (findCpuValues (findCpuHeader rest).2).2
              have h4 := deviceLoop_length L ts
                (findDevHeader (findCpuValues (findCpuHeader rest).2).2).1
                (findDevHeader (findCpuValues (findCpuHeader rest).2).2).2
                { p with CPUs := p.CPUs ++ [mkCPUStats L ts m] }
              generalize deviceLoop L ts
                (findDevHeader (findCpuValues (findCpuHeader rest).2).2).1
                (findDevHeader (findCpuValues (findCpuHeader rest).2).2).2
                { p with CPUs := p.CPUs ++ [mkCPUStats L ts m] } = dl at h4 ⊢
              obtain ⟨p2, e2, s4⟩ := dl
              cases e2 with
              | some e => rfl
              | none =>
                simp only [] at h4 ⊢
                exact ih _ _ (by omega)

/-- The transitions of `step` over a scan give the result of the loops. -/
theorem parseFrom_eq_run (L : Lib F T) (s : Stream) (p : ParsedData F T) :
    parseFrom L s p = run L (.seekTimestamp, p) s :=
  parseLoop_eq_run L s.length s p (le_refl _)

end MachineRefines

section ExtraTokens

variable {F T : Type}

theorem cpuMapLoop_extra (L : Lib F T) (vals extra : List Str) (hs : List Str) :
    ∀ (i : Nat) (m : FloatMap F), i + hs.length ≤ vals.length →
      cpuMapLoop L (vals ++ extra) i hs m = cpuMapLoop L vals i hs m := by
  induction hs with
  | nil => intro i m _; rfl
  | cons h hs ih =>
    intro i m hi
    simp only [List.length_cons] at hi
    have h1 : i < vals.length := by omega
    have h2 : i < (vals ++ extra).length := by rw [List.length_append]; omega
    have h3 : (vals ++ extra).getD i [] = vals.getD i [] := by
      rw [List.getD_eq_getElem _ _ h2, List.getD_eq_getElem _ _ h1, List.getElem_append_left h1]
    simp only [cpuMapLoop, h1, h2, h3, if_true]
    cases L.parseFloat (vals.getD i []) with
    | none => rfl
    | some v => exact ih _ _ (by omega)

theorem devMapLoop_extra (L : Lib F T) (flds extra : List Str) (hs : List Str) :
    ∀ (i : Nat) (m : FloatMap F), i + hs.length ≤ flds.length →
      devMapLoop L (flds ++ extra) i hs m = devMapLoop L flds i hs m := by
  induction hs with
  | nil => intro i m _; rfl
  | cons h hs ih =>
    intro i m hi
    simp only [List.length_cons] at hi
    have h1 : i < flds.length := by omega
    have h2 : i < (flds ++ extra).length := by rw [List.length_append]; omega
    have h3 : (flds ++ extra).getD i [] = flds.getD i [] := by
      rw [List.getD_eq_getElem _ _ h2, List.getD_eq_getElem _ _ h1, List.getElem_append_left h1]
    by_cases h0 : i = 0
    · simp only [devMapLoop, h0, true_or, if_true]
      exact ih _ _ (by omega)
    · have h4 : ¬ (i = 0 ∨ i ≥ flds.length) := by omega
      have h5 : ¬ (i = 0 ∨ i ≥ (flds ++ extra).length) := by omega
      simp only [devMapLoop, h4, h5, h3, if_false]
      cases L.parseFloat (flds.getD i []) with
      | none => rfl
      | some v => exact ih _ _ (by omega)

theorem mkDeviceStats_extra (L : Lib F T) (ts : T) (flds extra : List Str) (m : FloatMap F)
    (h : flds ≠ []) : mkDeviceStats L ts (flds ++ extra) m = mkDeviceStats L ts flds m := by
  cases flds with
  | nil => exact absurd rfl h
  | cons f flds => rfl

theorem step_extra (L : Lib F T) (st : Phase T × ParsedData F T) (raw raw2 : Str)
    (extra : List Str) (h0 : trimSpace raw ≠ []) (htok : tokens raw2 = tokens raw ++ extra)
    (hph : (∃ ts hdr, st.1 = .seekCpuValues ts hdr ∧ hdr.length ≤ (tokens raw).length) ∨
      (∃ ts dh, st.1 = .deviceLines ts dh ∧ dh.length ≤ (tokens raw).length)) :
    step L st (some raw2) = step L st (some raw) := by
  have hne : tokens raw ≠ [] := fields_trimSpace_ne_nil raw h0
  have h2 : trimSpace raw2 ≠ [] := by
    intro hcon
    have : tokens raw2 = [] := by unfold tokens; rw [hcon]; rfl
    rw [htok] at this
    exact hne (List.append_eq_nil.1 this).1
  unfold tokens at htok hne hph
  obtain ⟨ph, p⟩ := st
  rcases hph with ⟨ts, hdr, e, hw⟩ | ⟨ts, dh, e, hw⟩
  · simp only at e
    subst e
    simp only [step, h0, h2, if_false, htok, cpuDone]
    rw [cpuMapLoop_extra L _ _ _ _ _ (by omega)]
  · simp only at e
    subst e
    simp only [step, h0, h2, if_false, htok]
    rw [devMapLoop_extra L _ _ _ _ _ (by omega)]
    cases devMapLoop L (fields (trimSpace raw)) 0 dh [] with
    | error e => rfl
    | ok m =>
      simp only []
      rw [mkDeviceStats_extra L ts _ _ m hne]

theorem scannerErr_replace (pre rest : Stream) (a b : Str) :
    scannerErr (pre ++ some a :: rest) = scannerErr (pre ++ some b :: rest) := by
  simp [scannerErr]

theorem ParseIostatOutput_eq_run (L : Lib F T) (data : Str) :
    ParseIostatOutput L data =
      match run L (.seekTimestamp, { CPUs := [], Devices := [] }) (newScanner data) with
      | (p, some e) => (p, some e)
      | (p, none) => (p, scannerErr (newScanner data)) := by
  unfold ParseIostatOutput
  simp only [parseFrom_eq_run]

end ExtraTokens

section LongToken

theorem fieldsGo_append_space (a b : Str) (c : Char) (hc : isSpace c = true) :
    ∀ cur : Str, fieldsGo cur (a ++ c :: b) = fieldsGo cur a ++ fieldsGo [] b := by
  induction a with
  | nil =>
    intro cur
    by_cases h : cur = []
    · simp [fieldsGo, hc, h]
    · simp [fieldsGo, hc, h]
  | cons x a ih =>
    intro cur
    by_cases hx : isSpace x = true
    · by_cases h : cur = []
      · simp [fieldsGo, hx, h, ih]
      · simp [fieldsGo, hx, h, ih]
    · simp [fieldsGo, hx, ih]

theorem fieldsGo_replicate_x (n : Nat) :
    ∀ cur : Str, fieldsGo cur (List.replicate (n + 1) 'x') =
      [cur.reverse ++ List.replicate (n + 1) 'x'] := by
  have hx : isSpace 'x' = false := by decide
  induction n with
  | zero => intro cur; simp [fieldsGo, hx]
  | succ n ih =>
    intro cur
    have hrep : List.replicate (n + 1 + 1) 'x' = 'x' :: List.replicate (n + 1) 'x' := rfl
    rw [hrep, fieldsGo]
    simp only [hx, Bool.false_eq_true, if_false]
    rw [ih]
    simp

theorem trimSpace_eq_self (l : Str) (a z : Char) (t u : Str) (h1 : l = a :: t)
    (h2 : l = u ++ [z]) (ha : isSpace a = false) (hz : isSpace z = false) :
    trimSpace l = l := by
  have e1 : l.dropWhile isSpace = l := by rw [h1]; simp [List.dropWhile, ha]
  have e2 : l.reverse.dropWhile isSpace = l.reverse := by
    rw [h2]; simp [List.dropWhile, hz]
  unfold trimSpace
  rw [e1, e2, List.reverse_reverse]

/-- The tokens of a line that starts with a letter, extended by a space
and a run of the letter `x`. -/
theorem tokens_long_token (row : Str) (a : Char) (t : Str) (hrow : row = a :: t)
    (ha : isSpace a = false) (n : Nat) :
    tokens (row ++ ' ' :: List.replicate (n + 1) 'x') =
      fields row ++ [List.replicate (n + 1) 'x'] := by
  have h2 : row ++ ' ' :: List.replicate (n + 1) 'x' =
      (row ++ ' ' :: List.replicate n 'x') ++ ['x'] := by
    rw [List.replicate_succ']
    simp
  have h1 : row ++ ' ' :: List.replicate (n + 1) 'x' =
      a :: (t ++ ' ' :: List.replicate (n + 1) 'x') := by
    rw [hrow]; rfl
  unfold tokens
  rw [trimSpace_eq_self _ a 'x' _ _ h1 h2 ha (by decide)]
  unfold fields
  rw [fieldsGo_append_space _ _ ' ' (by decide), fieldsGo_replicate_x]
  rfl

end LongToken

section LongLines

variable {F T : Type}

theorem rawLinesGo_no_newline (l : Str) (hl : '\n' ∉ l) :
    ∀ cur : Str, (cur ≠ [] ∨ l ≠ []) → rawLinesGo cur l = [cur.reverse ++ l] := by
  induction l with
  | nil =>
    intro cur h
    have hc : cur ≠ [] := by
      rcases h with h | h
      · exact h
      · exact absurd rfl h
    simp [rawLinesGo, hc]
  | cons c l ih =>
    intro cur _
    have hc : c ≠ '\n' := fun h => hl (by rw [h]; exact List.mem_cons_self _ _)
    have hl2 : '\n' ∉ l := fun h => hl (List.mem_cons_of_mem _ h)
    rw [rawLinesGo, if_neg hc, ih hl2 _ (Or.inl (List.cons_ne_nil _ _))]
    simp

theorem rawLines_no_newline (l : Str) (hl : '\n' ∉ l) (hne : l ≠ []) : rawLines l = [l] := by
  unfold rawLines
  rw [rawLinesGo_no_newline l hl [] (Or.inr hne)]
  rfl

theorem byteLen_append (a b : Str) : byteLen (a ++ b) = byteLen a + byteLen b := by
  simp [byteLen]

theorem le_byteLen_replicate (c : Char) (n : Nat) : n ≤ byteLen (List.replicate n c) := by
  have h1 : 1 ≤ c.utf8Size := by
    have := Char.utf8Size_pos c
    omega
  simp only [byteLen, List.map_replicate, List.sum_replicate, smul_eq_mul]
  exact Nat.le_mul_of_pos_right n h1

/-- A last line that exceeds the scanner's limit makes `ParseIostatOutput`
return an error, whatever the lines before it. -/
theorem ParseIostatOutput_long_last_line (L : Lib F T) (lead : List Str) (l : Str)
    (hline : ∀ x ∈ lead, '\n' ∉ x) (hfit : ∀ x ∈ lead, byteLen x < maxScanTokenSize)
    (hl : '\n' ∉ l) (hlong : maxScanTokenSize ≤ byteLen l) :
    (ParseIostatOutput L (joinLines lead ++ l)).2 ≠ none := by
  have hne : l ≠ [] := by
    intro h
    subst h
    revert hlong
    decide
  have hs : newScanner (joinLines lead ++ l) =
      (lead.map dropCR).map some ++ [none, some (dropCR (takeBytes maxScanTokenSize l))] := by
    unfold newScanner
    rw [rawLines_joinLines lead hline, rawLines_no_newline l hl hne,
      scanLines_append_fit lead hfit, scanLines, if_neg (by omega)]
  have herr : scannerErr (newScanner (joinLines lead ++ l)) = some .tooLong := by
    rw [hs]
    simp [scannerErr]
  unfold ParseIostatOutput
  simp only []
  generalize parseFrom L (newScanner (joinLines lead ++ l)) { CPUs := [], Devices := [] } = r
  obtain ⟨p, e⟩ := r
  cases e with
  | some e => simp
  | none => simp [herr]

theorem ParseIostatOutput_long_token (L : Lib F T) (lead : List Str) (row : Str) (n : Nat)
    (hline : ∀ x ∈ lead, '\n' ∉ x) (hfit : ∀ x ∈ lead, byteLen x < maxScanTokenSize)
    (hrow : '\n' ∉ row) (hn : maxScanTokenSize ≤ n) :
    (ParseIostatOutput L (joinLines lead ++ (row ++ ' ' :: List.replicate n 'x'))).2 ≠ none := by
  apply ParseIostatOutput_long_last_line L lead _ hline hfit
  · intro h
    rcases List.mem_append.1 h with h | h
    · exact hrow h
    · rcases List.mem_cons.1 h with h | h
      · revert h; decide
      · have := List.eq_of_mem_replicate h
        revert this
        decide
  · rw [byteLen_append]
    have h1 : byteLen (' ' :: List.replicate n 'x') = 1 + byteLen (List.replicate n 'x') := by
      simp only [byteLen, List.map_cons, List.sum_cons]
      rfl
    have h2 := le_byteLen_replicate 'x' n
    omega

end LongLines

/-- C13 fails when the appended token makes the line too long for the
scanner.  The last line of `c13Input` is a device row of three tokens
under a `Device` line of three tokens, and the input parses without
error; with a space and one token of 65536 letters appended to that row,
`ParseIostatOutput` returns an error. -/
theorem C13_counterexample :
    newScanner c13Input = c13Lead.map some ++ [some c13Row] ∧
    (phaseAfter sampleLib (c13Lead.map some)).1 =
      .deviceLines { year := 2024, month := 9, day := 4, hour := 12, minute := 7, second := 20 }
        ["Device".toList, "r/s".toList, "w/s".toList] ∧
    tokens c13Row = ["sda".toList, "2.08".toList, "9.58".toList] ∧
    tokens (c13Row ++ ' ' :: List.replicate 65536 'x') =
      tokens c13Row ++ [List.replicate 65536 'x'] ∧
    (ParseIostatOutput sampleLib c13Input).2 = none ∧
    (ParseIostatOutput sampleLib (c13Input ++ ' ' :: List.replicate 65536 'x')).2 ≠ none := by
  have ht : tokens c13Row = fields c13Row := by decide
  refine ⟨by decide, by decide, by decide, ?_, by decide, ?_⟩
  · rw [ht]
    exact tokens_long_token c13Row 's' _ rfl (by decide) 65535
  have e : c13Input ++ ' ' :: List.replicate 65536 'x' =
      joinLines c13Lead ++ (c13Row ++ ' ' :: List.replicate 65536 'x') := by
    unfold c13Input
    rw [List.append_assoc]
  rw [e]
  exact ParseIostatOutput_long_token sampleLib c13Lead c13Row 65536 (by decide) (by decide)
    (by decide) (by decide)

/-- C13, amended: let the scanner deliver the same lines for two inputs
except for one non-blank line, which in the second input has further
tokens after those of the first (so the longer line is still below the
scanner's line limit).  If that line is read as a CPU value line or as
a device row, and its tokens in the first input already reach the width
of the header, then `ParseIostatOutput` returns the same data and the
same error outcome for both inputs. -/
theorem C13_extra_tokens_ignored {F T : Type} (L : Lib F T) (data data2 : Str)
    (pre rest : Stream) (raw raw2 : Str) (extra : List Str)
    (hs : newScanner data = pre ++ some raw :: rest)
    (hs2 : newScanner data2 = pre ++ some raw2 :: rest)
    (h0 : trimSpace raw ≠ [])
    (htok : tokens raw2 = tokens raw ++ extra)
    (hph : (∃ ts hdr, (phaseAfter L pre).1 = .seekCpuValues ts hdr ∧
        hdr.length ≤ (tokens raw).length) ∨
      (∃ ts dh, (phaseAfter L pre).1 = .deviceLines ts dh ∧
        dh.length ≤ (tokens raw).length)) :
    ParseIostatOutput L data2 = ParseIostatOutput L data := by
  rw [ParseIostatOutput_eq_run, ParseIostatOutput_eq_run, hs, hs2,
    scannerErr_replace pre rest raw2 raw]
  have hrun : run L (.seekTimestamp, { CPUs := [], Devices := [] }) (pre ++ some raw2 :: rest) =
      run L (.seekTimestamp, { CPUs := [], Devices := [] }) (pre ++ some raw :: rest) := by
    unfold run
    rw [List.foldl_append, List.foldl_append, List.foldl_cons, List.foldl_cons]
    have := step_extra L (phaseAfter L pre) raw raw2 extra h0 htok hph
    unfold phaseAfter at this
    rw [this]
  rw [hrun]

/-- Witness of C13 (amended): two further tokens, one of them not
numeric, on the CPU value line and on the device row of `c13Input`. -/
theorem C13_witness :
    ParseIostatOutput sampleLib c13WideCpu = ParseIostatOutput sampleLib c13Input ∧
    ParseIostatOutput sampleLib c13WideRow = ParseIostatOutput sampleLib c13Input ∧
    (ParseIostatOutput sampleLib c13Input).2 = none :=
  ⟨C13_extra_tokens_ignored sampleLib c13Input c13WideCpu
      ((c13Lead.take 2).map some) ((c13Lead.drop 3).map some ++ [some c13Row])
      "           2.36   97.20".toList "           2.36   97.20   N/A   7".toList
      ["N/A".toList, "7".toList] (by decide) (by decide) (by decide) (by decide)
      (Or.inl ⟨{ year := 2024, month := 9, day := 4, hour := 12, minute := 7, second := 20 },
        ["%user".toList, "%idle".toList], by decide, by decide⟩),
   C13_extra_tokens_ignored sampleLib c13Input c13WideRow
      (c13Lead.map some) [] c13Row (c13Row ++ "   0.06  extra".toList)
      ["0.06".toList, "extra".toList] (by decide) (by decide) (by decide) (by decide)
      (Or.inr ⟨{ year := 2024, month := 9, day := 4, hour := 12, minute := 7, second := 20 },
        ["Device".toList, "r/s".toList, "w/s".toList], by decide, by decide⟩),
   by decide⟩

section HelperLemmas

variable {F T : Type}

theorem floatsLoop_error_iff (L : Lib F T) (fields : List Str) (n : Nat) :
    ∀ i, (∃ e, floatsLoop L fields n i = .error e) ↔
      ∃ j, i ≤ j ∧ j < i + n ∧ L.parseFloat (fields.getD j []) = none := by
  induction n with
  | zero =>
    intro i
    simp only [floatsLoop, false_iff, reduceCtorEq, exists_false]
    rintro ⟨j, h1, h2, _⟩
    omega
  | succ n ih =>
    intro i
    cases hp : L.parseFloat (fields.getD i []) with
    | none =>
      simp only [floatsLoop, hp]
      exact ⟨fun _ => ⟨i, le_refl _, by omega, hp⟩, fun _ => ⟨_, rfl⟩⟩
    | some v =>
      have h := ih (i + 1)
      simp only [floatsLoop, hp]
      cases hr : floatsLoop L fields n (i + 1) with
      | error e =>
        rw [hr] at h
        obtain ⟨j, h1, h2, h3⟩ := h.1 ⟨e, rfl⟩
        exact ⟨fun _ => ⟨j, by omega, by omega, h3⟩, fun _ => ⟨e, rfl⟩⟩
      | ok vals =>
        rw [hr] at h
        constructor
        · rintro ⟨e, he⟩
          cases he
        · rintro ⟨j, h1, h2, h3⟩
          by_cases hj : j = i
          · rw [hj, hp] at h3
            cases h3
          · obtain ⟨e, he⟩ := h.2 ⟨j, by omega, by omega, h3⟩
            cases he

theorem floatsLoop_ok (L : Lib F T) (fields : List Str) (n : Nat) :
    ∀ i vals, floatsLoop L fields n i = .ok vals →
      vals.length = n ∧
      ∀ j, j < n → L.parseFloat (fields.getD (i + j) []) = some (vals.getD j L.zero) := by
  induction n with
  | zero =>
    intro i vals h
    simp only [floatsLoop, Except.ok.injEq] at h
    subst h
    exact ⟨rfl, fun j hj => absurd hj (Nat.not_lt_zero _)⟩
  | succ n ih =>
    intro i vals h
    cases hp : L.parseFloat (fields.getD i []) with
    | none =>
      simp only [floatsLoop, hp] at h
      cases h
    | some v =>
      cases hr : floatsLoop L fields n (i + 1) with
      | error e =>
        simp only [floatsLoop, hp, hr] at h
        cases h
      | ok vs =>
        simp only [floatsLoop, hp, hr, Except.ok.injEq] at h
        subst h
        obtain ⟨h1, h2⟩ := ih (i + 1) vs hr
        refine ⟨by simp [h1], ?_⟩
        intro j hj
        cases j with
        | zero => simpa using hp
        | succ k =>
          have := h2 k (by omega)
          rw [show i + (k + 1) = i + 1 + k by omega, this]
          simp

theorem floatsLoop_congr (L : Lib F T) (fields fields2 : List Str) (n : Nat) :
    ∀ i, (∀ j, i ≤ j → j < i + n → fields2.getD j [] = fields.getD j []) →
      floatsLoop L fields2 n i = floatsLoop L fields n i := by
  induction n with
  | zero => intro i _; rfl
  | succ n ih =>
    intro i h
    have h0 := h i (le_refl _) (by omega)
    have h1 := ih (i + 1) (fun j hj1 hj2 => h j (by omega) (by omega))
    simp only [floatsLoop, h0, h1]

end HelperLemmas

/-- C28: `parseCPUStats(ts, fields)` returns an error if and only if
`fields` does not have exactly six elements or some element is not a
valid float; when it returns a `CPUStats`, its `Timestamp` is `ts` and
`User`, `Nice`, `System`, `Iowait`, `Steal`, `Idle` are the values of
fields 0 through 5, in that order. -/
theorem C28_parseCPUStats {F T : Type} (L : Lib F T) (ts : T) (fields : List Str) :
    ((∃ e, parseCPUStats L ts fields = .error e) ↔
      (fields.length ≠ 6 ∨ ∃ f ∈ fields, L.parseFloat f = none)) ∧
    (∀ c, parseCPUStats L ts fields = .ok c →
      c.Timestamp = ts ∧
      L.parseFloat (fields.getD 0 []) = some c.User ∧
      L.parseFloat (fields.getD 1 []) = some c.Nice ∧
      L.parseFloat (fields.getD 2 []) = some c.System ∧
      L.parseFloat (fields.getD 3 []) = some c.Iowait ∧
      L.parseFloat (fields.getD 4 []) = some c.Steal ∧
      L.parseFloat (fields.getD 5 []) = some c.Idle) := by
  by_cases hlen : fields.length = 6
  · have hmem : (∃ f ∈ fields, L.parseFloat f = none) ↔
        ∃ j, 0 ≤ j ∧ j < 0 + 6 ∧ L.parseFloat (fields.getD j []) = none := by
      constructor
      · rintro ⟨f, hf, hp⟩
        obtain ⟨j, hj, rfl⟩ := List.getElem_of_mem hf
        exact ⟨j, Nat.zero_le _, by omega, by rw [List.getD_eq_getElem _ _ hj]; exact hp⟩
      · rintro ⟨j, _, hj, hp⟩
        have hj2 : j < fields.length := by omega
        rw [List.getD_eq_getElem _ _ hj2] at hp
        exact ⟨_, List.getElem_mem _, hp⟩
    have herr := floatsLoop_error_iff L fields 6 0
    constructor
    · rw [hmem, ← herr]
      simp only [parseCPUStats, hlen, ne_eq, not_true_eq_false, if_false, false_or]
      cases floatsLoop L fields 6 0 with
      | error e => simp
      | ok vals => simp
    · intro c hc
      simp only [parseCPUStats, hlen, ne_eq, not_true_eq_false, if_false] at hc
      cases hr : floatsLoop L fields 6 0 with
      | error e => rw [hr] at hc; cases hc
      | ok vals =>
        rw [hr] at hc
        simp only [Except.ok.injEq] at hc
        subst hc
        obtain ⟨_, h2⟩ := floatsLoop_ok L fields 6 0 vals hr
        have e0 := h2 0 (by omega)
        have e1 := h2 1 (by omega)
        have e2 := h2 2 (by omega)
        have e3 := h2 3 (by omega)
        have e4 := h2 4 (by omega)
        have e5 := h2 5 (by omega)
        simp only [Nat.zero_add] at e0 e1 e2 e3 e4 e5
        exact ⟨rfl, e0, e1, e2, e3, e4, e5⟩
  · constructor
    · simp [parseCPUStats, hlen]
    · intro c hc
      simp [parseCPUStats, hlen] at hc

/-- Witness of C28 on the tokens of `TestParseCPUStats` (values in
hundredths) and on a line of five tokens. -/
theorem C28_witness :
    parseCPUStats sampleLib c28Stamp
      ["2.36".toList, "0.00".toList, "0.40".toList, "0.04".toList, "0.01".toList,
        "97.20".toList] =
      .ok { Timestamp := c28Stamp, User := 236, Nice := 0, System := 40, Iowait := 4,
            Steal := 1, Idle := 9720 } ∧
    ∃ e, parseCPUStats sampleLib c28Stamp
      ["2.36".toList, "0.00".toList, "0.40".toList, "0.04".toList, "0.01".toList] = .error e :=
  ⟨by rfl,
   (C28_parseCPUStats sampleLib c28Stamp
      ["2.36".toList, "0.00".toList, "0.40".toList, "0.04".toList, "0.01".toList]).1.2
      (Or.inl (by decide))⟩

/-- C29: `parseDeviceStats(ts, fields)` returns an error if and only if
`fields` has fewer than 13 elements or one of `fields[1..12]` is not a
valid float; when it returns a `DeviceStats`, its `Timestamp` is `ts`,
its `Name` is `fields[0]` and the twelve read/write metrics are the
values of fields 1 through 12, in order; the elements past index 12 have
no influence on the result. -/
theorem C29_parseDeviceStats {F T : Type} (L : Lib F T) (ts : T) (fields : List Str) :
    ((∃ e, parseDeviceStats L ts fields = .error e) ↔
      (fields.length < 13 ∨
        ∃ i, 1 ≤ i ∧ i ≤ 12 ∧ L.parseFloat (fields.getD i []) = none)) ∧
    (∀ d, parseDeviceStats L ts fields = .ok d →
      d.Timestamp = ts ∧ d.Name = fields.getD 0 [] ∧
      L.parseFloat (fields.getD 1 []) = some d.ReadsPerSec ∧
      L.parseFloat (fields.getD 2 []) = some d.ReadKBPerSec ∧
      L.parseFloat (fields.getD 3 []) = some d.ReadMergedPerSec ∧
      L.parseFloat (fields.getD 4 []) = some d.ReadPctMerged ∧
      L.parseFloat (fields.getD 5 []) = some d.ReadAwaitMs ∧
      L.parseFloat (fields.getD 6 []) = some d.ReadReqSzKB ∧
      L.parseFloat (fields.getD 7 []) = some d.WritesPerSec ∧
      L.parseFloat (fields.getD 8 []) = some d.WriteKBPerSec ∧
      L.parseFloat (fields.getD 9 []) = some d.WriteMergedPerSec ∧
      L.parseFloat (fields.getD 10 []) = some d.WritePctMerged ∧
      L.parseFloat (fields.getD 11 []) = some d.WriteAwaitMs ∧
      L.parseFloat (fields.getD 12 []) = some d.WriteReqSzKB) ∧
    (∀ fields2 : List Str, 13 ≤ fields.length → 13 ≤ fields2.length →
      fields2.take 13 = fields.take 13 →
      parseDeviceStats L ts fields2 = parseDeviceStats L ts fields) := by
  refine ⟨?_, ?_, ?_⟩
  · by_cases hlen : fields.length < 13
    · simp [parseDeviceStats, hlen]
    · have herr := floatsLoop_error_iff L fields 12 1
      have hidx : (∃ i, 1 ≤ i ∧ i ≤ 12 ∧ L.parseFloat (fields.getD i []) = none) ↔
          ∃ j, 1 ≤ j ∧ j < 1 + 12 ∧ L.parseFloat (fields.getD j []) = none := by
        constructor
        · rintro ⟨i, h1, h2, h3⟩; exact ⟨i, h1, by omega, h3⟩
        · rintro ⟨i, h1, h2, h3⟩; exact ⟨i, h1, by omega, h3⟩
      rw [hidx, ← herr]
      simp only [parseDeviceStats, hlen, if_false, false_or]
      cases floatsLoop L fields 12 1 with
      | error e => simp
      | ok vals => simp
  · intro d hd
    by_cases hlen : fields.length < 13
    · simp [parseDeviceStats, hlen] at hd
    · simp only [parseDeviceStats, hlen, if_false] at hd
      cases hr : floatsLoop L fields 12 1 with
      | error e => rw [hr] at hd; cases hd
      | ok vals =>
        rw [hr] at hd
        simp only [Except.ok.injEq] at hd
        subst hd
        obtain ⟨_, h2⟩ := floatsLoop_ok L fields 12 1 vals hr
        exact ⟨rfl, rfl, h2 0 (by omega), h2 1 (by omega), h2 2 (by omega), h2 3 (by omega),
          h2 4 (by omega), h2 5 (by omega), h2 6 (by omega), h2 7 (by omega), h2 8 (by omega),
          h2 9 (by omega), h2 10 (by omega), h2 11 (by omega)⟩
  · intro fields2 h1 h2 htake
    have hget : ∀ j, j < 13 → fields2.getD j [] = fields.getD j [] := by
      intro j hj
      have e1 : (fields2.take 13)[j]? = fields2[j]? := List.getElem?_take_of_lt hj
      have e2 : (fields.take 13)[j]? = fields[j]? := List.getElem?_take_of_lt hj
      rw [htake, e2] at e1
      simp only [List.getD_eq_getElem?_getD, e1]
    have hl1 : ¬ fields.length < 13 := by omega
    have hl2 : ¬ fields2.length < 13 := by omega
    simp only [parseDeviceStats, hl1, hl2, if_false, hget 0 (by omega),
      floatsLoop_congr L fields fields2 12 1 (fun j _ hj => hget j (by omega))]

/-- Witness of C29 on the tokens of `TestParseDeviceStats` (values in
hundredths), with and without a fourteenth token. -/
theorem C29_witness :
    parseDeviceStats sampleLib c28Stamp
      ["sda".toList, "2.08".toList, "94.38".toList, "0.31".toList, "13.07".toList,
        "0.89".toList, "45.47".toList, "9.58".toList, "210.39".toList, "5.55".toList,
        "36.68".toList, "2.74".toList, "21.96".toList] =
      .ok { Timestamp := c28Stamp, Name := "sda".toList,
            ReadsPerSec := 208, ReadKBPerSec := 9438, ReadMergedPerSec := 31,
            ReadPctMerged := 1307, ReadAwaitMs := 89, ReadReqSzKB := 4547,
            WritesPerSec := 958, WriteKBPerSec := 21039, WriteMergedPerSec := 555,
            WritePctMerged := 3668, WriteAwaitMs := 274, WriteReqSzKB := 2196,
            QueueSize := 0 } ∧
    parseDeviceStats sampleLib c28Stamp
      ["sda".toList, "2.08".toList, "94.38".toList, "0.31".toList, "13.07".toList,
        "0.89".toList, "45.47".toList, "9.58".toList, "210.39".toList, "5.55".toList,
        "36.68".toList, "2.74".toList, "21.96".toList, "N/A".toList] =
      parseDeviceStats sampleLib c28Stamp
        ["sda".toList, "2.08".toList, "94.38".toList, "0.31".toList, "13.07".toList,
          "0.89".toList, "45.47".toList, "9.58".toList, "210.39".toList, "5.55".toList,
          "36.68".toList, "2.74".toList, "21.96".toList] :=
  ⟨by rfl,
   (C29_parseDeviceStats sampleLib c28Stamp
      ["sda".toList, "2.08".toList, "94.38".toList, "0.31".toList, "13.07".toList,
        "0.89".toList, "45.47".toList, "9.58".toList, "210.39".toList, "5.55".toList,
        "36.68".toList, "2.74".toList, "21.96".toList]).2.2 _ (by decide) (by decide) (by decide)⟩

section FirstToken

theorem fieldsGo_head (s : Str) :
    ∀ cur : Str, (cur ≠ [] ∨ ∃ c cs, s = c :: cs ∧ isSpace c = false) →
      (fieldsGo cur s).getD 0 [] = cur.reverse ++ s.takeWhile (fun c => !isSpace c) := by
  induction s with
  | nil =>
    intro cur h
    have hc : cur ≠ [] := by
      rcases h with h | ⟨c, cs, h, _⟩
      · exact h
      · cases h
    simp [fieldsGo, hc]
  | cons c cs ih =>
    intro cur h
    by_cases hsp : isSpace c = true
    · have hc : cur ≠ [] := by
        rcases h with h | ⟨c2, cs2, h, h2⟩
        · exact h
        · cases h
          rw [hsp] at h2
          cases h2
      simp [fieldsGo, hsp, hc]
    · have hsp2 : isSpace c = false := by simpa using hsp
      simp only [fieldsGo, hsp2, Bool.false_eq_true, if_false]
      rw [ih (c :: cur) (Or.inl (List.cons_ne_nil _ _))]
      simp [List.takeWhile, hsp2]

theorem isPrefixOf_takeWhile (p : Str) (hp : ∀ c ∈ p, isSpace c = false) :
    ∀ s : Str, p.isPrefixOf (s.takeWhile (fun c => !isSpace c)) = p.isPrefixOf s := by
  induction p with
  | nil => intro s; simp
  | cons a p ih =>
    intro s
    have ha : isSpace a = false := hp a (List.mem_cons_self _ _)
    have hp2 : ∀ c ∈ p, isSpace c = false := fun c hc => hp c (List.mem_cons_of_mem _ hc)
    cases s with
    | nil => simp
    | cons b s =>
      by_cases hb : isSpace b = true
      · have hne : a ≠ b := by
          intro h
          rw [h, hb] at ha
          cases ha
        simp [List.takeWhile, hb, List.isPrefixOf, hne]
      · have hb2 : isSpace b = false := by simpa using hb
        simp only [List.takeWhile, hb2, Bool.not_false, List.isPrefixOf, ih hp2 s]

theorem trimSpace_head_not_space (raw : Str) (h : trimSpace raw ≠ []) :
    ∃ c cs, trimSpace raw = c :: cs ∧ isSpace c = false := by
  have hpre : trimSpace raw <+: raw.dropWhile isSpace := by
    unfold trimSpace
    exact List.rdropWhile_prefix _ _
  obtain ⟨t, ht⟩ := hpre
  cases htr : trimSpace raw with
  | nil => exact absurd htr h
  | cons c cs =>
    refine ⟨c, cs, rfl, ?_⟩
    rw [htr] at ht
    have hne : raw.dropWhile isSpace ≠ [] := by
      rw [← ht]
      exact List.cons_ne_nil _ _
    have hhead := List.head_dropWhile_not isSpace raw hne
    have hc : (raw.dropWhile isSpace).head hne = c := by
      simp [← ht]
    rw [hc] at hhead
    exact hhead

/-- The trimmed line starts with `p` exactly when its first token does,
for a `p` without white space. -/
theorem hasPrefix_first_token (raw p : Str) (h : trimSpace raw ≠ [])
    (hp : ∀ c ∈ p, isSpace c = false) :
    hasPrefix ((tokens raw).getD 0 []) p = hasPrefix (trimSpace raw) p := by
  unfold tokens fields hasPrefix
  rw [fieldsGo_head _ [] (Or.inr (trimSpace_head_not_space raw h))]
  simp only [List.reverse_nil, List.nil_append]
  exact isPrefixOf_takeWhile p hp _

end FirstToken

/-- C23 fails on a line whose first token is `Devices:`: read while the
parser seeks the device header, the line becomes the device header, and
the row after it gives a sample of `sda`. -/
theorem C23_counterexample :
    (phaseAfter sampleLib ((c23Lead.take 4).map some)).1 = .seekDevHeader c28Stamp ∧
    (tokens "Devices:          r/s     w/s".toList).getD 0 [] = "Devices:".toList ∧
    (phaseAfter sampleLib (c23Lead.map some)).1 =
      .deviceLines c28Stamp ["Devices:".toList, "r/s".toList, "w/s".toList] ∧
    ((ParseIostatOutput sampleLib c23Input).1.Devices.get "sda".toList).map
      (fun d => d.ReadsPerSec) = [208] := by
  decide

/-- C23, amended: while seeking the device header, a non-blank line is
taken as the device header if and only if its first token starts with
`Device` (equivalently, the trimmed line does), so also `Device:`,
`Devices` or `DeviceX`; every other non-blank line is skipped. -/
theorem C23_device_header_starts_with {F T : Type} (L : Lib F T) (ts : T) (p : ParsedData F T)
    (raw : Str) (rest : Stream) (h0 : trimSpace raw ≠ []) :
    hasPrefix ((tokens raw).getD 0 []) "Device".toList =
      hasPrefix (trimSpace raw) "Device".toList ∧
    (hasPrefix ((tokens raw).getD 0 []) "Device".toList = true →
      findDevHeader (some raw :: rest) = (tokens raw, rest) ∧
      step L (.seekDevHeader ts, p) (some raw) = (.deviceLines ts (tokens raw), p)) ∧
    (hasPrefix ((tokens raw).getD 0 []) "Device".toList = false →
      findDevHeader (some raw :: rest) = findDevHeader rest ∧
      step L (.seekDevHeader ts, p) (some raw) = (.seekDevHeader ts, p)) := by
  have hfirst := hasPrefix_first_token raw "Device".toList h0 (by decide)
  refine ⟨hfirst, ?_, ?_⟩
  · intro h
    rw [hfirst] at h
    constructor
    · simp only [findDevHeader, h0, h, if_true, if_false, tokens]
    · simp only [step, h0, h, if_true, if_false, tokens]
  · intro h
    rw [hfirst] at h
    constructor
    · simp only [findDevHeader, h0, h, if_false, Bool.false_eq_true]
    · simp only [step, h0, h, if_false, Bool.false_eq_true]

/-- Witness of C23 (amended): `Device:` is taken, `Dev` is skipped. -/
theorem C23_witness :
    step sampleLib (.seekDevHeader c28Stamp, { CPUs := [], Devices := [] })
        (some "Device:   r/s".toList) =
      (.deviceLines c28Stamp ["Device:".toList, "r/s".toList], { CPUs := [], Devices := [] }) ∧
    step sampleLib (.seekDevHeader c28Stamp, { CPUs := [], Devices := [] })
        (some "Dev   r/s".toList) =
      (.seekDevHeader c28Stamp, { CPUs := [], Devices := [] }) :=
  ⟨((C23_device_header_starts_with sampleLib c28Stamp { CPUs := [], Devices := [] }
      "Device:   r/s".toList [] (by decide)).2.1 (by decide)).2,
   ((C23_device_header_starts_with sampleLib c28Stamp { CPUs := [], Devices := [] }
      "Dev   r/s".toList [] (by decide)).2.2 (by decide)).2⟩

section MissingMarkers

variable {F T : Type}

theorem run_append (L : Lib F T) (st : Phase T × ParsedData F T) (a b : Stream) :
    run L st (a ++ b) = run L (a.foldl (step L) st) b := by
  unfold run
  rw [List.foldl_append]

theorem findCpuHeader_none (rest : List Str)
    (h : ∀ l ∈ rest, hasPrefix (trimSpace l) "avg-cpu:".toList = false) :
    findCpuHeader (rest.map some) = ([], []) := by
  induction rest with
  | nil => rfl
  | cons l rest ih =>
    have h1 := h l (List.mem_cons_self _ _)
    simp only [List.map_cons, findCpuHeader, h1, Bool.false_eq_true, if_false]
    exact ih (fun x hx => h x (List.mem_cons_of_mem _ hx))

/-- A line read in phase `deviceLines` whose tokens do not bind to the
header ends `ParseIostatOutput` with the error of the binding. -/
theorem ParseIostatOutput_row_error (L : Lib F T) (data : Str) (pre rest : Stream) (raw : Str)
    (ts0 : T) (dh : List Str) (p : ParsedData F T) (e : ParseError)
    (hs : newScanner data = pre ++ some raw :: rest)
    (hph : phaseAfter L pre = (.deviceLines ts0 dh, p))
    (h0 : trimSpace raw ≠ [])
    (he : devMapLoop L (tokens raw) 0 dh [] = .error e) :
    ParseIostatOutput L data = (p, some e) := by
  rw [ParseIostatOutput_eq_run, hs, run_append]
  unfold phaseAfter at hph
  unfold tokens at he
  rw [hph, run_cons]
  simp only [step, h0, if_false, he]
  rw [run_stopped]

theorem devMapLoop_second_token (L : Lib F T) (flds dh : List Str) (h1 : 2 ≤ dh.length)
    (h2 : 2 ≤ flds.length) (h3 : L.parseFloat (flds.getD 1 []) = none) :
    devMapLoop L flds 0 dh [] = .error (.num (flds.getD 1 [])) := by
  cases dh with
  | nil => simp at h1
  | cons a dh =>
    cases dh with
    | nil => simp at h1
    | cons b dh =>
      have hlt : ¬ (1 = 0 ∨ 1 ≥ flds.length) := by omega
      simp only [devMapLoop, true_or, if_true, Nat.zero_add, hlt, if_false, h3]

end MissingMarkers

/-- C21 fails on `c21Input`: the line `09/04/24 12:07:21` matches the
timestamp pattern and follows the row `sda` directly; it is read as a
device row, its second token is not numeric, and `ParseIostatOutput`
returns that error with the one CPU sample of the first block. -/
theorem C21_counterexample :
    sampleLib.parseTime (trimSpace "09/04/24 12:07:21".toList) =
      some { year := 2024, month := 9, day := 4, hour := 12, minute := 7, second := 21 } ∧
    (scannedLines c21Input).getD 6 [] = "09/04/24 12:07:21".toList ∧
    (phaseAfter sampleLib (((scannedLines c21Input).take 6).map some)).1 =
      .deviceLines c28Stamp ["Device".toList, "r/s".toList, "w/s".toList] ∧
    (ParseIostatOutput sampleLib c21Input).2 = some (.num "12:07:21".toList) ∧
    (ParseIostatOutput sampleLib c21Input).1.CPUs.length = 1 := by
  decide

/-- C21, amended: a non-blank line read while the parser reads the
device rows of a block, whether or not it matches the timestamp pattern,
is consumed as a device row of that block and starts no new block.  Its
first token is the device name; when its tokens bind to the header the
sample is appended and the parser goes on reading rows of the same
block, and otherwise `ParseIostatOutput` returns the error, as it does
for a timestamp line under a header of two or more columns, whose second
token `HH:MM:SS` is not numeric. -/
theorem C21_timestamp_line_is_a_row {F T : Type} (L : Lib F T) (data : Str)
    (pre rest : Stream) (raw : Str) (ts0 : T) (dh : List Str) (p : ParsedData F T)
    (hs : newScanner data = pre ++ some raw :: rest)
    (hph : phaseAfter L pre = (.deviceLines ts0 dh, p))
    (h0 : trimSpace raw ≠ []) :
    (∀ m, devMapLoop L (tokens raw) 0 dh [] = .ok m →
      phaseAfter L (pre ++ [some raw]) =
        (.deviceLines ts0 dh,
          { p with Devices := DeviceMap.push (mkDeviceStats L ts0 (tokens raw) m) p.Devices })) ∧
    (∀ e, devMapLoop L (tokens raw) 0 dh [] = .error e →
      ParseIostatOutput L data = (p, some e)) ∧
    (2 ≤ dh.length → 2 ≤ (tokens raw).length → L.parseFloat ((tokens raw).getD 1 []) = none →
      ParseIostatOutput L data = (p, some (.num ((tokens raw).getD 1 [])))) := by
  refine ⟨?_, ?_, ?_⟩
  · intro m hm
    unfold phaseAfter at hph ⊢
    unfold tokens at hm
    rw [List.foldl_append, hph]
    simp only [List.foldl_cons, List.foldl_nil, step, h0, if_false, hm, tokens]
  · intro e he
    exact ParseIostatOutput_row_error L data pre rest raw ts0 dh p e hs hph h0 he
  · intro h1 h2 h3
    exact ParseIostatOutput_row_error L data pre rest raw ts0 dh p _ hs hph h0
      (devMapLoop_second_token L _ _ h1 h2 h3)

/-- Witness of C21 (amended) on `c21Input`. -/
theorem C21_witness :
    ParseIostatOutput sampleLib c21Input =
      ((phaseAfter sampleLib (((scannedLines c21Input).take 6).map some)).2,
        some (.num "12:07:21".toList)) :=
  (C21_timestamp_line_is_a_row sampleLib c21Input
    (((scannedLines c21Input).take 6).map some) (((scannedLines c21Input).drop 7).map some)
    "09/04/24 12:07:21".toList c28Stamp ["Device".toList, "r/s".toList, "w/s".toList]
    (phaseAfter sampleLib (((scannedLines c21Input).take 6).map some)).2
    (by decide) (by decide) (by decide)).2.2 (by decide) (by decide) (by decide)

/-- C22 fails in two ways.  On `c22Input` the timestamp line is followed
by no `avg-cpu:` line, and the result holds a CPU sample for that
timestamp, with every field zero.  And when a line after the timestamp
line has 65536 letters, `ParseIostatOutput` returns an error. -/
theorem C22_counterexample :
    (∀ l ∈ (scannedLines c22Input).tail, hasPrefix (trimSpace l) "avg-cpu:".toList = false) ∧
    ParseIostatOutput sampleLib c22Input =
      ({ CPUs := [{ Timestamp := c28Stamp, User := 0, Nice := 0, System := 0, Iowait := 0,
                    Steal := 0, Idle := 0 }],
         Devices := [] }, none) ∧
    (ParseIostatOutput sampleLib
      (joinLines ["09/04/24 12:07:20".toList] ++ List.replicate 65536 'x')).2 ≠ none := by
  refine ⟨by decide, by decide, ?_⟩
  apply ParseIostatOutput_long_last_line sampleLib _ _ (by decide) (by decide)
  · intro h
    have := List.eq_of_mem_replicate h
    revert this
    decide
  · have h2 := le_byteLen_replicate 'x' 65536
    have h3 : maxScanTokenSize = 65536 := by decide
    omega

/-- C22, amended: when a timestamp line is followed by no `avg-cpu:` line
before the end of the input, and every line of the input fits the
scanner's line limit, `ParseIostatOutput` returns no error; the result
holds one CPU sample for that timestamp, with every field zero, and no
device sample for it. -/
theorem C22_missing_cpu_header {F T : Type} (L : Lib F T) (data : Str) (pre rest : List Str)
    (raw : Str) (ts : T) (p : ParsedData F T) (hfit : LinesFit data)
    (hs : scannedLines data = pre ++ raw :: rest)
    (hph : phaseAfter L (pre.map some) = (.seekTimestamp, p))
    (h0 : trimSpace raw ≠ []) (ht : L.parseTime (trimSpace raw) = some ts)
    (hno : ∀ l ∈ rest, hasPrefix (trimSpace l) "avg-cpu:".toList = false) :
    ParseIostatOutput L data =
      ({ CPUs := p.CPUs ++ [{ Timestamp := ts, User := L.zero, Nice := L.zero,
                              System := L.zero, Iowait := L.zero, Steal := L.zero,
                              Idle := L.zero }],
         Devices := p.Devices }, none) := by
  rw [ParseIostatOutput_eq_run, newScanner_fit data hfit, hs, scannerErr_map_some,
    List.map_append, List.map_cons, run_append]
  unfold phaseAfter at hph
  rw [hph, run_cons]
  simp only [step, h0, if_false, ht]
  rw [run_seekCpuHeader, findCpuHeader_none rest hno]
  simp only []
  rw [run_seekCpuValues_nil]
  rfl

/-- Witness of C22 (amended) on `c22Input`. -/
theorem C22_witness :
    ParseIostatOutput sampleLib c22Input =
      ({ CPUs := [] ++ [{ Timestamp := c28Stamp, User := 0, Nice := 0, System := 0,
                          Iowait := 0, Steal := 0, Idle := 0 }],
         Devices := [] }, none) :=
  C22_missing_cpu_header sampleLib c22Input []
    ["Device            r/s     w/s".toList, "sda              2.08    9.58".toList]
    "09/04/24 12:07:20".toList c28Stamp { CPUs := [], Devices := [] }
    (by decide) (by decide) (by decide) (by decide) (by decide) (by decide)

section Concatenation

variable {F T : Type}

theorem rawLinesGo_append (A B : Str) :
    ∀ cur : Str, A.getLast? = some '\n' →
      rawLinesGo cur (A ++ B) = rawLinesGo cur A ++ rawLinesGo [] B := by
  induction A with
  | nil => intro cur h; simp at h
  | cons c A ih =>
    intro cur h
    cases A with
    | nil =>
      simp only [List.getLast?_singleton, Option.some.injEq] at h
      subst h
      simp [rawLinesGo]
    | cons d A =>
      have h2 : (d :: A).getLast? = some '\n' := by
        rw [List.getLast?_cons_cons] at h
        exact h
      by_cases hc : c = '\n'
      · simp only [List.cons_append, rawLinesGo, hc, if_true] at ih ⊢
        rw [ih [] h2]
      · simp only [List.cons_append, rawLinesGo, hc, if_false] at ih ⊢
        exact ih _ h2

theorem rawLines_append (A B : Str) (h : A = [] ∨ A.getLast? = some '\n') :
    rawLines (A ++ B) = rawLines A ++ rawLines B := by
  rcases h with h | h
  · subst h; rfl
  · exact rawLinesGo_append A B [] h

theorem fit_of_scannerErr_none (ls : List Str) (h : scannerErr (scanLines ls) = none) :
    ∀ l ∈ ls, byteLen l < maxScanTokenSize := by
  induction ls with
  | nil => intro l hl; cases hl
  | cons x rest ih =>
    by_cases hx : byteLen x < maxScanTokenSize
    · have h2 : scannerErr (scanLines rest) = none := by
        simp only [scanLines, hx, if_true, scannerErr, List.contains_cons] at h ⊢
        have : (none == some (dropCR x)) = false := rfl
        rw [this, Bool.false_or] at h
        exact h
      intro l hl
      rcases List.mem_cons.1 hl with hl | hl
      · rw [hl]; exact hx
      · exact ih h2 l hl
    · simp [scanLines, hx, scannerErr] at h

theorem linesFit_of_success (L : Lib F T) (data : Str) (h : (ParseIostatOutput L data).2 = none) :
    LinesFit data := by
  apply fit_of_scannerErr_none
  unfold ParseIostatOutput at h
  simp only [] at h
  generalize parseFrom L (newScanner data) { CPUs := [], Devices := [] } = r at h
  obtain ⟨p, e⟩ := r
  cases e with
  | some e => simp at h
  | none => exact h

theorem rawBlocks_blocks_append (L : Lib F T) (blocks : List (BlockText T)) (rest : List Str)
    (hwf : ∀ b ∈ blocks, b.WellFormed L) (htrail : ∀ b ∈ blocks, b.trail ≠ []) :
    rawBlocks L (((blocks.map BlockText.lines).flatten ++ rest).map some) =
      blocks.map BlockText.rawBlock ++ rawBlocks L (rest.map some) := by
  induction blocks with
  | nil => rfl
  | cons b bs ih =>
    have hb := hwf b (List.mem_cons_self _ _)
    have e : ((b :: bs).map BlockText.lines).flatten ++ rest =
        b.lines ++ ((bs.map BlockText.lines).flatten ++ rest) := by
      simp
    rw [e, rawBlocks_block L b _ hb (Or.inl (htrail b (List.mem_cons_self _ _))),
      ih (fun x hx => hwf x (List.mem_cons_of_mem _ hx))
        (fun x hx => htrail x (List.mem_cons_of_mem _ hx))]
    rfl

theorem separated_of_trail (blocks : List (BlockText T)) (htrail : ∀ b ∈ blocks, b.trail ≠ []) :
    Separated blocks := by
  induction blocks with
  | nil => trivial
  | cons b bs ih =>
    cases bs with
    | nil => trivial
    | cons b2 bs2 =>
      exact ⟨htrail b (List.mem_cons_self _ _),
        ih (fun x hx => htrail x (List.mem_cons_of_mem _ hx))⟩

/-- A parse without error gives the samples of all blocks of the scan. -/
theorem ParseIostatOutput_success (L : Lib F T) (data : Str)
    (h : (ParseIostatOutput L data).2 = none) :
    (ParseIostatOutput L data).1 =
      { CPUs := (rawBlocks L (newScanner data)).map (RawBlock.cpuSample L),
        Devices :=
          pushAll ((rawBlocks L (newScanner data)).map (RawBlock.rowSamples L)).flatten [] } := by
  have hnone := ParseIostatOutput_snd_none L data h
  have hgood : ∀ b ∈ rawBlocks L (newScanner data), ¬ BadBlock L b := by
    intro b hb hbad
    exact ((runBlocks_error_iff L _ { CPUs := [], Devices := [] }).2 ⟨b, hb, hbad⟩) hnone
  rw [ParseIostatOutput_fst, runBlocks_good L _ _ hgood]
  simp

end Concatenation

/-- C27: let `A` consist of complete well-formed blocks, each ended by a
blank line (banner lines may precede them), and let `A` end with its
last line break; let `ParseIostatOutput` succeed on `B`.  Then it
succeeds on `A` and on `A` followed by `B`, the CPU samples of `A ++ B`
are those of `A` followed by those of `B`, and so is the sequence of
every device name. -/
theorem C27_concatenation {F T : Type} (L : Lib F T) (A B : Str) (lead : List Str)
    (blocks : List (BlockText T)) (hfit : LinesFit A)
    (hend : A = [] ∨ A.getLast? = some '\n')
    (hlines : scannedLines A = lead ++ (blocks.map BlockText.lines).flatten)
    (hlead : ∀ l ∈ lead, trimSpace l = [] ∨ L.parseTime (trimSpace l) = none)
    (hwf : ∀ b ∈ blocks, b.WellFormed L) (htrail : ∀ b ∈ blocks, b.trail ≠ [])
    (hB : (ParseIostatOutput L B).2 = none) :
    (ParseIostatOutput L A).2 = none ∧
    (ParseIostatOutput L (A ++ B)).2 = none ∧
    (ParseIostatOutput L (A ++ B)).1.CPUs =
      (ParseIostatOutput L A).1.CPUs ++ (ParseIostatOutput L B).1.CPUs ∧
    ∀ n, (ParseIostatOutput L (A ++ B)).1.Devices.get n =
      (ParseIostatOutput L A).1.Devices.get n ++ (ParseIostatOutput L B).1.Devices.get n := by
  have hA := ParseIostatOutput_wellFormed L A lead blocks hfit hlines hlead hwf
    (separated_of_trail blocks htrail)
  have hfitB := linesFit_of_success L B hB
  have hraw := rawLines_append A B hend
  have hfitAB : LinesFit (A ++ B) := by
    intro l hl
    rw [hraw] at hl
    rcases List.mem_append.1 hl with hl | hl
    · exact hfit l hl
    · exact hfitB l hl
  have hsAB : newScanner (A ++ B) =
      (lead ++ ((blocks.map BlockText.lines).flatten ++ scannedLines B)).map some := by
    rw [newScanner_fit _ hfitAB]
    unfold scannedLines at hlines ⊢
    rw [hraw, List.map_append, hlines, List.append_assoc]
  have hbAB : rawBlocks L (newScanner (A ++ B)) =
      blocks.map BlockText.rawBlock ++ rawBlocks L (newScanner B) := by
    rw [hsAB, List.map_append, rawBlocks_skip_all L lead _ hlead,
      rawBlocks_blocks_append L blocks _ hwf htrail, newScanner_fit B hfitB]
  have hgoodB : ∀ b ∈ rawBlocks L (newScanner B), ¬ BadBlock L b := by
    intro b hb hbad
    exact ((runBlocks_error_iff L _ { CPUs := [], Devices := [] }).2 ⟨b, hb, hbad⟩)
      (ParseIostatOutput_snd_none L B hB)
  have hgoodAB : ∀ b ∈ rawBlocks L (newScanner (A ++ B)), ¬ BadBlock L b := by
    intro b hb
    rw [hbAB] at hb
    rcases List.mem_append.1 hb with hb | hb
    · obtain ⟨bt, hbt, rfl⟩ := List.mem_map.1 hb
      exact not_badBlock_of_wellFormed L bt (hwf bt hbt)
    · exact hgoodB b hb
  have hAB : ParseIostatOutput L (A ++ B) =
      ({ CPUs := (rawBlocks L (newScanner (A ++ B))).map (RawBlock.cpuSample L),
         Devices := pushAll
           ((rawBlocks L (newScanner (A ++ B))).map (RawBlock.rowSamples L)).flatten [] },
        none) := by
    rw [ParseIostatOutput_fit L _ hfitAB, runBlocks_good L _ _ hgoodAB]
    simp
  have hBv := ParseIostatOutput_success L B hB
  refine ⟨by rw [hA], by rw [hAB], ?_, ?_⟩
  · rw [hAB, hA, hBv, hbAB]
    simp [List.map_map, Function.comp_def]
  · intro n
    rw [hAB, hA, hBv, hbAB]
    simp only [pushAll_get, List.map_append, List.flatten_append, List.filter_append,
      List.map_map, Function.comp_def]
    simp [DeviceMap.get]

/-- Witness of C27: the block `c4Block1` followed by the input of
`TestParseIostatMultipleDevices`. -/
theorem C27_witness :
    (ParseIostatOutput sampleLib c27A).2 = none ∧
    (ParseIostatOutput sampleLib (c27A ++ c3Input)).2 = none ∧
    (ParseIostatOutput sampleLib (c27A ++ c3Input)).1.CPUs =
      (ParseIostatOutput sampleLib c27A).1.CPUs ++ (ParseIostatOutput sampleLib c3Input).1.CPUs ∧
    ∀ n, (ParseIostatOutput sampleLib (c27A ++ c3Input)).1.Devices.get n =
      (ParseIostatOutput sampleLib c27A).1.Devices.get n ++
        (ParseIostatOutput sampleLib c3Input).1.Devices.get n :=
  C27_concatenation sampleLib c27A c3Input [] [c4Block1] (by decide) (by decide) (by decide)
    (by decide)
    (by
      intro b hb
      rw [List.mem_singleton.1 hb]
      exact ⟨by decide, by decide, by decide, by decide, by decide, by decide, by decide,
        by decide, by decide, by decide, by decide⟩)
    (by decide) (by decide)

section Unrecognized

variable {F T : Type}

/-- Two maps with the same entry for every recognized device column. -/
theorem devMapLoop_agree (L : Lib F T) (dh flds flds2 : List Str)
    (hag : TokensAgree L dh flds flds2) :
    ∀ (hs : List Str) (i : Nat) (m m2 : FloatMap F), hs = dh.drop i →
      (∀ key ∈ deviceKeys, List.lookup key m2 = List.lookup key m) →
      (∃ e, devMapLoop L flds i hs m = .error e ∧ devMapLoop L flds2 i hs m2 = .error e) ∨
      (∃ r r2, devMapLoop L flds i hs m = .ok r ∧ devMapLoop L flds2 i hs m2 = .ok r2 ∧
        ∀ key ∈ deviceKeys, List.lookup key r2 = List.lookup key r) := by
  intro hs
  induction hs with
  | nil =>
    intro i m m2 _ hm
    exact Or.inr ⟨m, m2, rfl, rfl, hm⟩
  | cons h hs ih =>
    intro i m m2 hdrop hm
    have hi : i < dh.length := by
      by_contra hcon
      rw [List.drop_eq_nil_of_le (by omega)] at hdrop
      cases hdrop
    have hd : dh.drop i = dh.getD i [] :: dh.drop (i + 1) := by
      rw [List.getD_eq_getElem _ _ hi]
      exact List.drop_eq_getElem_cons hi
    rw [hd] at hdrop
    have hh : h = dh.getD i [] := (List.cons.inj hdrop).1
    have hrest : hs = dh.drop (i + 1) := (List.cons.inj hdrop).2
    by_cases hskip : i = 0 ∨ i ≥ flds.length
    · have hskip2 : i = 0 ∨ i ≥ flds2.length := by rw [hag.1]; exact hskip
      simp only [devMapLoop, hskip, hskip2, if_true]
      exact ih (i + 1) m m2 hrest hm
    · have hskip2 : ¬ (i = 0 ∨ i ≥ flds2.length) := by rw [hag.1]; exact hskip
      simp only [devMapLoop, hskip, hskip2, if_false]
      rcases hag.2 i (by omega) with heq | ⟨_, _, hkey, hv, hv2⟩
      · rw [heq]
        cases hp : L.parseFloat (flds.getD i []) with
        | none => exact Or.inl ⟨_, rfl, rfl⟩
        | some v =>
          simp only []
          apply ih (i + 1) _ _ hrest
          intro key hk
          rw [lookup_cons_ite, lookup_cons_ite, hm key hk]
      · cases hp : L.parseFloat (flds.getD i []) with
        | none => rw [hp] at hv; cases hv
        | some v =>
          cases hp2 : L.parseFloat (flds2.getD i []) with
          | none => rw [hp2] at hv2; cases hv2
          | some v2 =>
            simp only []
            apply ih (i + 1) _ _ hrest
            intro key hk
            have hne : key ≠ trimPercent h := by
              intro hcon
              apply hkey
              rw [← hh, ← hcon]
              exact hk
            rw [lookup_cons_ite, lookup_cons_ite, if_neg hne, if_neg hne, hm key hk]

theorem mkDeviceStats_agree (L : Lib F T) (ts : T) (flds flds2 : List Str) (r r2 : FloatMap F)
    (h0 : flds2.getD 0 [] = flds.getD 0 [])
    (h : ∀ key ∈ deviceKeys, List.lookup key r2 = List.lookup key r) :
    mkDeviceStats L ts flds2 r2 = mkDeviceStats L ts flds r := by
  simp only [mkDeviceStats, FloatMap.get, h0]
  rw [h "r/s".toList (by decide), h "rkB/s".toList (by decide), h "rrqm/s".toList (by decide),
    h "rrqm".toList (by decide), h "r_await".toList (by decide),
    h "rareq-sz".toList (by decide), h "w/s".toList (by decide), h "wkB/s".toList (by decide),
    h "wrqm/s".toList (by decide), h "wrqm".toList (by decide), h "w_await".toList (by decide),
    h "wareq-sz".toList (by decide), h "aqu-sz".toList (by decide)]

theorem step_sameUpToUnrecognized (L : Lib F T) (st : Phase T × ParsedData F T)
    (x x2 : Option Str) (h : SameUpToUnrecognized L st x x2) :
    step L st x2 = step L st x := by
  rcases h with h | ⟨raw, raw2, ts, dh, hx, hx2, hph, h0, hag⟩
  · rw [h]
  · subst hx; subst hx2
    obtain ⟨ph, p⟩ := st
    simp only at hph
    subst hph
    have hne : tokens raw ≠ [] := fields_trimSpace_ne_nil raw h0
    have h2 : trimSpace raw2 ≠ [] := by
      intro hcon
      have : tokens raw2 = [] := by unfold tokens; rw [hcon]; rfl
      have hl := hag.1
      rw [this] at hl
      exact hne (List.length_eq_zero.1 hl.symm)
    have hname : (tokens raw2).getD 0 [] = (tokens raw).getD 0 [] := by
      have hpos : 0 < (tokens raw).length := List.length_pos.2 hne
      rcases hag.2 0 hpos with h | ⟨h, _⟩
      · exact h
      · omega
    unfold tokens at hag hname
    simp only [step, h0, h2, if_false]
    rcases devMapLoop_agree L dh _ _ hag dh 0 [] [] rfl (fun _ _ => rfl) with
      ⟨e, he, he2⟩ | ⟨r, r2, hr, hr2, hl⟩
    · rw [he, he2]
    · rw [hr, hr2]
      simp only []
      rw [mkDeviceStats_agree L ts _ _ r r2 hname hl]

theorem foldl_step_congr (L : Lib F T) :
    ∀ (s s2 : Stream) (st : Phase T × ParsedData F T), s2.length = s.length →
      (∀ k, k < s.length →
        SameUpToUnrecognized L ((s.take k).foldl (step L) st) (s.getD k none)
          (s2.getD k none)) →
      s2.foldl (step L) st = s.foldl (step L) st ∧ s2.contains none = s.contains none := by
  intro s
  induction s with
  | nil =>
    intro s2 st hlen _
    have : s2 = [] := List.length_eq_zero.1 hlen
    subst this
    exact ⟨rfl, rfl⟩
  | cons x s ih =>
    intro s2 st hlen h
    cases s2 with
    | nil => simp at hlen
    | cons x2 s2 =>
      have h0 := h 0 (by simp)
      simp only [List.take_zero, List.foldl_nil, List.getD_cons_zero] at h0
      have hstep := step_sameUpToUnrecognized L st x x2 h0
      have hrec := ih s2 (step L st x) (by simpa using hlen) (by
        intro k hk
        have := h (k + 1) (by simp; omega)
        simpa using this)
      refine ⟨by rw [List.foldl_cons, List.foldl_cons, hstep]; exact hrec.1, ?_⟩
      have hx : (none == x2) = (none == x) := by
        rcases h0 with h0 | ⟨raw, raw2, _, _, hx, hx2, _⟩
        · rw [h0]
        · rw [hx, hx2]; rfl
      simp only [List.contains_cons, hx, hrec.2]

end Unrecognized

section LongNumber

theorem fieldsGo_nonspace (tok : Str) (h : ∀ c ∈ tok, isSpace c = false) :
    ∀ cur : Str, (cur ≠ [] ∨ tok ≠ []) → fieldsGo cur tok = [cur.reverse ++ tok] := by
  induction tok with
  | nil =>
    intro cur hne
    have hc : cur ≠ [] := by
      rcases hne with hne | hne
      · exact hne
      · exact absurd rfl hne
    simp [fieldsGo, hc]
  | cons c tok ih =>
    intro cur _
    have hc : isSpace c = false := h c (List.mem_cons_self _ _)
    simp only [fieldsGo, hc, Bool.false_eq_true, if_false]
    rw [ih (fun x hx => h x (List.mem_cons_of_mem _ hx)) _ (Or.inl (List.cons_ne_nil _ _))]
    simp

/-- The tokens of a line that starts with a letter, extended by a space
and one more token. -/
theorem tokens_append_token (row tok : Str) (a : Char) (t : Str) (hrow : row = a :: t)
    (ha : isSpace a = false) (htok : ∀ c ∈ tok, isSpace c = false) (hne : tok ≠ []) :
    tokens (row ++ ' ' :: tok) = fields row ++ [tok] := by
  rcases List.eq_nil_or_concat tok with h | ⟨u, z, h⟩
  · exact absurd h hne
  · have hz : isSpace z = false := htok z (by rw [h]; simp)
    have h2 : row ++ ' ' :: tok = (row ++ ' ' :: u) ++ [z] := by
      rw [h]; simp
    have h1 : row ++ ' ' :: tok = a :: (t ++ ' ' :: tok) := by
      rw [hrow]; rfl
    unfold tokens
    rw [trimSpace_eq_self _ a z _ _ h1 h2 ha hz]
    unfold fields
    rw [fieldsGo_append_space _ _ ' ' (by decide), fieldsGo_nonspace tok htok [] (Or.inr hne)]
    rfl

theorem readNat_zeros_one (n : Nat) :
    readNat (List.replicate n '0' ++ ['1']) = some 1 := by
  have hfold : ∀ n : Nat, (List.replicate n '0').foldl (fun acc c =>
      match acc with
      | none => none
      | some k => if c.isDigit then some (10 * k + (c.toNat - 48)) else none) (some 0) =
        some 0 := by
    intro n
    induction n with
    | zero => rfl
    | succ n ih =>
      rw [List.replicate_succ, List.foldl_cons]
      exact ih
  have hne : List.replicate n '0' ++ ['1'] ≠ [] := by simp
  unfold readNat
  rw [if_neg hne, List.foldl_append, hfold n]
  rfl

theorem sampleParseFloat_zeros_one (n : Nat) :
    sampleParseFloat (List.replicate n '0' ++ ['1']) = some 100 := by
  have hall : ∀ c ∈ List.replicate n '0' ++ ['1'], (c != '.') = true := by
    intro c hc
    rcases List.mem_append.1 hc with hc | hc
    · rw [List.eq_of_mem_replicate hc]; decide
    · rw [List.mem_singleton.1 hc]; decide
  have hspan : (List.replicate n '0' ++ ['1']).span (fun c => c != '.') =
      (List.replicate n '0' ++ ['1'], []) := by
    rw [List.span_eq_take_drop, List.takeWhile_eq_self_iff.2 hall,
      List.dropWhile_eq_nil_iff.2 hall]
  unfold sampleParseFloat
  rw [hspan]
  simp only [readNat_zeros_one]
  rfl

theorem not_space_zeros_one (n : Nat) :
    ∀ c ∈ List.replicate n '0' ++ ['1'], isSpace c = false := by
  intro c hc
  rcases List.mem_append.1 hc with hc | hc
  · rw [List.eq_of_mem_replicate hc]; decide
  · rw [List.mem_singleton.1 hc]; decide

theorem tokens_long_number (row : Str) (a : Char) (t : Str) (hrow : row = a :: t)
    (ha : isSpace a = false) (n : Nat) :
    tokens (row ++ ' ' :: (List.replicate n '0' ++ ['1'])) =
      fields row ++ [List.replicate n '0' ++ ['1']] :=
  tokens_append_token row _ a t hrow ha (not_space_zeros_one n) (by simp)

theorem ParseIostatOutput_long_number {F T : Type} (L : Lib F T) (lead : List Str) (row : Str)
    (n : Nat) (hline : ∀ x ∈ lead, '\n' ∉ x) (hfit : ∀ x ∈ lead, byteLen x < maxScanTokenSize)
    (hrow : '\n' ∉ row) (hn : maxScanTokenSize ≤ n) :
    (ParseIostatOutput L
      (joinLines lead ++ (row ++ ' ' :: (List.replicate n '0' ++ ['1'])))).2 ≠ none := by
  apply ParseIostatOutput_long_last_line L lead _ hline hfit
  · intro h
    rcases List.mem_append.1 h with h | h
    · exact hrow h
    · rcases List.mem_cons.1 h with h | h
      · revert h; decide
      · rcases List.mem_append.1 h with h | h
        · have := List.eq_of_mem_replicate h
          revert this
          decide
        · have := List.mem_singleton.1 h
          revert this
          decide
  · rw [byteLen_append]
    have h1 : byteLen (' ' :: (List.replicate n '0' ++ ['1'])) =
        1 + byteLen (List.replicate n '0' ++ ['1']) := by
      simp only [byteLen, List.map_cons, List.sum_cons]
      rfl
    rw [h1, byteLen_append]
    have h2 := le_byteLen_replicate '0' n
    omega

end LongNumber

/-- C25 fails when the other value makes the line too long for the
scanner.  The last line of `c25Input` is a device row whose fifth token
`19.41` lies under `%util`, and the input parses without error.  With
that token replaced by a valid number of 65537 digits, the row has the
same tokens otherwise, and `ParseIostatOutput` returns an error. -/
theorem C25_counterexample :
    newScanner c25Input =
      (c25Lead ++ ["sdb              0.00    1.00    0.00    0.50".toList]).map some ++
        [some (c25Row ++ "   19.41".toList)] ∧
    (phaseAfter sampleLib
      ((c25Lead ++ ["sdb              0.00    1.00    0.00    0.50".toList]).map some)).1 =
      .deviceLines c28Stamp
        ["Device".toList, "r/s".toList, "w/s".toList, "aqu-sz".toList, "%util".toList] ∧
    tokens (c25Row ++ "   19.41".toList) = fields c25Row ++ ["19.41".toList] ∧
    tokens (c25Row ++ ' ' :: (List.replicate 65536 '0' ++ ['1'])) =
      fields c25Row ++ [List.replicate 65536 '0' ++ ['1']] ∧
    sampleLib.parseFloat (List.replicate 65536 '0' ++ ['1']) = some 100 ∧
    (ParseIostatOutput sampleLib c25Input).2 = none ∧
    (ParseIostatOutput sampleLib
      (joinLines (c25Lead ++ ["sdb              0.00    1.00    0.00    0.50".toList]) ++
        (c25Row ++ ' ' :: (List.replicate 65536 '0' ++ ['1'])))).2 ≠ none := by
  refine ⟨by decide, by decide, by decide, ?_, ?_, by decide, ?_⟩
  · exact tokens_long_number c25Row 's' _ rfl (by decide) 65536
  · have hlib : sampleLib.parseFloat = sampleParseFloat := rfl
    rw [hlib]
    exact sampleParseFloat_zeros_one 65536
  · exact ParseIostatOutput_long_number sampleLib _ c25Row 65536 (by decide) (by decide)
      (by decide) (by decide)

/-- C25, amended: let the scanner deliver, for two inputs, the same
number of lines, and at every position either the same line or two
device rows with the same tokens except under header columns (other
than the name column) whose name, stripped of one leading `%`, is none
of the thirteen recognized ones, where both rows hold valid numbers (so
both rows are below the scanner's line limit).  Then
`ParseIostatOutput` returns the same result for both inputs. -/
theorem C25_unrecognized_columns_dropped {F T : Type} (L : Lib F T) (data data2 : Str)
    (hlen : (newScanner data2).length = (newScanner data).length)
    (hdiff : ∀ k, k < (newScanner data).length →
      SameUpToUnrecognized L (phaseAfter L ((newScanner data).take k))
        ((newScanner data).getD k none) ((newScanner data2).getD k none)) :
    ParseIostatOutput L data2 = ParseIostatOutput L data := by
  obtain ⟨h1, h2⟩ := foldl_step_congr L (newScanner data) (newScanner data2)
    (.seekTimestamp, { CPUs := [], Devices := [] }) hlen hdiff
  rw [ParseIostatOutput_eq_run, ParseIostatOutput_eq_run]
  unfold run scannerErr
  rw [h1, h2]

/-- Witness of C25 (amended): `c25Input` and `c25Other` differ in the
values under `%util` of both rows. -/
theorem C25_witness :
    ParseIostatOutput sampleLib c25Other = ParseIostatOutput sampleLib c25Input :=
  C25_unrecognized_columns_dropped sampleLib c25Input c25Other (by decide) (by
    intro k hk
    have hk7 : k < 7 := hk
    have hdev : ∀ j, 5 ≤ j → j < 7 →
        (phaseAfter sampleLib ((newScanner c25Input).take j)).1 =
          .deviceLines c28Stamp
            ["Device".toList, "r/s".toList, "w/s".toList, "aqu-sz".toList, "%util".toList] := by
      decide
    interval_cases k
    · exact Or.inl (by decide)
    · exact Or.inl (by decide)
    · exact Or.inl (by decide)
    · exact Or.inl (by decide)
    · exact Or.inl (by decide)
    · exact Or.inr ⟨"sdb              0.00    1.00    0.00    0.50".toList,
        "sdb              0.00    1.00    0.00   77.00".toList, c28Stamp, _,
        by decide, by decide, hdev 5 (by decide) (by decide), by decide, by decide⟩
    · exact Or.inr ⟨c25Row ++ "   19.41".toList, c25Row ++ "    0.00".toList, c28Stamp, _,
        by decide, by decide, hdev 6 (by decide) (by decide), by decide, by decide⟩)

section Permuted

variable {F T : Type}

theorem lookup_perm {β : Type} {l1 l2 : List (Str × β)} (p : l1.Perm l2)
    (nd : (l1.map Prod.fst).Nodup) (k : Str) : List.lookup k l1 = List.lookup k l2 := by
  induction p with
  | nil => rfl
  | cons x _ ih =>
    obtain ⟨a, b⟩ := x
    rw [lookup_cons_ite, lookup_cons_ite, ih (List.nodup_cons.1 nd).2]
  | swap x y l =>
    obtain ⟨a, b⟩ := x
    obtain ⟨c, d⟩ := y
    simp only [lookup_cons_ite]
    by_cases h1 : k = c
    · by_cases h2 : k = a
      · exfalso
        simp only [List.map_cons, List.nodup_cons, List.mem_cons] at nd
        exact nd.1 (Or.inl (by rw [← h1, h2]))
      · rw [if_pos h1, if_neg h2, if_pos h1]
    · rw [if_neg h1]
      by_cases h2 : k = a
      · rw [if_pos h2, if_pos h2]
      · rw [if_neg h2, if_neg h2, if_neg h1]
  | trans p1 _ ih1 ih2 =>
    rw [ih1 nd, ih2 ((p1.map Prod.fst).nodup_iff.1 nd)]

/-- The pairs a zipping binds: column name without `%`, and value. -/
theorem bindPairs_ok (L : Lib F T) (ps : List (Str × Str)) :
    ∀ m : FloatMap F, (∀ p ∈ ps, L.parseFloat p.2 ≠ none) →
      bindPairs L ps m =
        .ok ((ps.filterMap (fun p =>
          (L.parseFloat p.2).map (fun x => (trimPercent p.1, x)))).reverse ++ m) := by
  induction ps with
  | nil => intro m _; rfl
  | cons q ps ih =>
    intro m h
    obtain ⟨hd, v⟩ := q
    cases hp : L.parseFloat v with
    | none => exact absurd hp (h (hd, v) (List.mem_cons_self _ _))
    | some x =>
      simp only [bindPairs, hp]
      rw [ih _ (fun p hp => h p (List.mem_cons_of_mem _ hp))]
      simp [hp]

theorem bindPairs_perm (L : Lib F T) (ps ps2 : List (Str × Str)) (hperm : ps2.Perm ps)
    (nd : (ps.map (fun p => trimPercent p.1)).Nodup) :
    ((∃ e, bindPairs L ps [] = .error e) ∧ (∃ e2, bindPairs L ps2 [] = .error e2)) ∨
    (∃ r r2, bindPairs L ps [] = .ok r ∧ bindPairs L ps2 [] = .ok r2 ∧
      ∀ key, List.lookup key r2 = List.lookup key r) := by
  by_cases hbad : ∃ p ∈ ps, L.parseFloat p.2 = none
  · left
    refine ⟨(bindPairs_error_iff L ps []).2 hbad, (bindPairs_error_iff L ps2 []).2 ?_⟩
    obtain ⟨p, hp, h⟩ := hbad
    exact ⟨p, hperm.mem_iff.2 hp, h⟩
  · right
    have hgood : ∀ p ∈ ps, L.parseFloat p.2 ≠ none := fun p hp h => hbad ⟨p, hp, h⟩
    have hgood2 : ∀ p ∈ ps2, L.parseFloat p.2 ≠ none :=
      fun p hp h => hbad ⟨p, hperm.mem_iff.1 hp, h⟩
    refine ⟨_, _, bindPairs_ok L ps [] hgood, bindPairs_ok L ps2 [] hgood2, ?_⟩
    intro key
    simp only [List.append_nil]
    apply lookup_perm
    · exact (List.reverse_perm _).trans (((hperm.filterMap _).trans (List.reverse_perm _).symm))
    · have hsub : ((ps2.filterMap (fun p =>
          (L.parseFloat p.2).map (fun x => (trimPercent p.1, x)))).map Prod.fst).Sublist
          (ps2.map (fun p => trimPercent p.1)) := by
        clear hgood2 hperm
        induction ps2 with
        | nil => exact List.Sublist.slnil
        | cons q ps2 ih =>
          cases hq : L.parseFloat q.2 with
          | none =>
            simp only [List.filterMap_cons, hq, Option.map_none', List.map_cons]
            exact ih.cons _
          | some x =>
            simp only [List.filterMap_cons, hq, Option.map_some', List.map_cons]
            exact ih.cons₂ _
      have nd2 : (ps2.map (fun p => trimPercent p.1)).Nodup :=
        ((hperm.map (fun p => trimPercent p.1)).nodup_iff).2 nd
      rw [List.map_reverse]
      exact List.nodup_reverse.2 (hsub.nodup nd2)

theorem zip_fst_sublist (hdr vals : List Str) :
    ((hdr.zip vals).map Prod.fst).Sublist hdr := by
  induction hdr generalizing vals with
  | nil => simp
  | cons h hdr ih =>
    cases vals with
    | nil => simp
    | cons v vals =>
      simp only [List.zip_cons_cons, List.map_cons]
      exact (ih vals).cons₂ _

theorem nodup_zip_keys (hdr vals : List Str) (nd : (hdr.map trimPercent).Nodup) :
    ((hdr.zip vals).map (fun p => trimPercent p.1)).Nodup := by
  have h1 : (hdr.zip vals).map (fun p => trimPercent p.1) =
      ((hdr.zip vals).map Prod.fst).map trimPercent := by
    rw [List.map_map]; rfl
  rw [h1]
  exact ((zip_fst_sublist hdr vals).map trimPercent).nodup nd

end Permuted

section PermutedBlocks

variable {F T : Type}

theorem mkCPUStats_congr (L : Lib F T) (ts : T) (r r2 : FloatMap F)
    (h : ∀ key, List.lookup key r2 = List.lookup key r) :
    mkCPUStats L ts r2 = mkCPUStats L ts r := by
  simp only [mkCPUStats, FloatMap.get, h]

theorem mkDeviceStats_congr (L : Lib F T) (ts : T) (flds flds2 : List Str) (r r2 : FloatMap F)
    (h0 : flds2.head? = flds.head?) (h : ∀ key, List.lookup key r2 = List.lookup key r) :
    mkDeviceStats L ts flds2 r2 = mkDeviceStats L ts flds r := by
  have hname : flds2.getD 0 [] = flds.getD 0 [] := by
    cases flds with
    | nil =>
      cases flds2 with
      | nil => rfl
      | cons a t => simp at h0
    | cons b u =>
      cases flds2 with
      | nil => simp at h0
      | cons a t =>
        simp only [List.head?_cons, Option.some.injEq] at h0
        simp [h0]
  simp only [mkDeviceStats, FloatMap.get, h, hname]

theorem cpu_permuted (L : Lib F T) (hdr vals hdr2 vals2 : List Str)
    (h : (hdr2 = hdr ∧ vals2 = vals) ∨ ColumnsPermuted hdr vals hdr2 vals2) :
    ((∃ e, cpuMapLoop L vals 0 hdr [] = .error e) ∧
      (∃ e2, cpuMapLoop L vals2 0 hdr2 [] = .error e2)) ∨
    (∃ r r2, cpuMapLoop L vals 0 hdr [] = .ok r ∧ cpuMapLoop L vals2 0 hdr2 [] = .ok r2 ∧
      ∀ key, List.lookup key r2 = List.lookup key r) := by
  rcases h with ⟨h1, h2⟩ | ⟨nd, _, _, hperm⟩
  · subst h1; subst h2
    cases hr : cpuMapLoop L vals2 0 hdr2 [] with
    | error e => exact Or.inl ⟨⟨e, rfl⟩, ⟨e, rfl⟩⟩
    | ok r => exact Or.inr ⟨r, r, rfl, rfl, fun _ => rfl⟩
  · rw [cpuMapLoop_eq_bindPairs, cpuMapLoop_eq_bindPairs, List.drop_zero, List.drop_zero]
    exact bindPairs_perm L _ _ hperm (nodup_zip_keys hdr vals nd)

theorem row_permuted (L : Lib F T) (dh dh2 flds flds2 : List Str)
    (h : ColumnsPermuted dh.tail flds.tail dh2.tail flds2.tail) :
    ((∃ e, devMapLoop L flds 0 dh [] = .error e) ∧
      (∃ e2, devMapLoop L flds2 0 dh2 [] = .error e2)) ∨
    (∃ r r2, devMapLoop L flds 0 dh [] = .ok r ∧ devMapLoop L flds2 0 dh2 [] = .ok r2 ∧
      ∀ key, List.lookup key r2 = List.lookup key r) := by
  obtain ⟨nd, _, _, hperm⟩ := h
  rw [devMapLoop_eq_bindPairs, devMapLoop_eq_bindPairs]
  exact bindPairs_perm L _ _ hperm (nodup_zip_keys _ _ nd)

theorem runRows_permuted (L : Lib F T) (ts : T) (dh dh2 : List Str)
    (rows rows2 : List (List Str))
    (h : List.Forall₂ (fun r r2 => r2.head? = r.head? ∧
      ColumnsPermuted dh.tail r.tail dh2.tail r2.tail) rows rows2) :
    ∀ p : ParsedData F T,
      (runRows L ts dh2 rows2 p).1 = (runRows L ts dh rows p).1 ∧
      ((runRows L ts dh2 rows2 p).2 = none ↔ (runRows L ts dh rows p).2 = none) := by
  induction h with
  | nil => intro p; exact ⟨rfl, Iff.rfl⟩
  | @cons r r2 rs rs2 hrow _ ih =>
    intro p
    rcases row_permuted L dh dh2 r r2 hrow.2 with ⟨⟨e, he⟩, ⟨e2, he2⟩⟩ | ⟨m, m2, hm, hm2, hl⟩
    · simp [runRows, he, he2]
    · simp only [runRows, hm, hm2]
      rw [mkDeviceStats_congr L ts r r2 m m2 hrow.1 hl]
      exact ih _

theorem runBlocks_permuted (L : Lib F T) (bs bs2 : List (RawBlock T))
    (h : List.Forall₂ BlockPermuted bs bs2) :
    ∀ p : ParsedData F T,
      (runBlocks L bs2 p).1 = (runBlocks L bs p).1 ∧
      ((runBlocks L bs2 p).2 = none ↔ (runBlocks L bs p).2 = none) := by
  induction h with
  | nil => intro p; exact ⟨rfl, Iff.rfl⟩
  | @cons b b2 rest rest2 hb _ ih =>
    intro p
    obtain ⟨hts, hcpu, hdev⟩ := hb
    rcases cpu_permuted L b.cpuHeader b.cpuValues b2.cpuHeader b2.cpuValues hcpu with
      ⟨⟨e, he⟩, ⟨e2, he2⟩⟩ | ⟨m, m2, hm, hm2, hl⟩
    · simp [runBlocks, he, he2]
    · simp only [runBlocks, hm, hm2]
      rw [hts, mkCPUStats_congr L b.ts m m2 hl]
      have hrows : ∀ q : ParsedData F T,
          (runRows L b.ts b2.devHeader b2.rows q).1 = (runRows L b.ts b.devHeader b.rows q).1 ∧
          ((runRows L b.ts b2.devHeader b2.rows q).2 = none ↔
            (runRows L b.ts b.devHeader b.rows q).2 = none) := by
        rcases hdev with ⟨h1, h2⟩ | ⟨_, h2⟩
        · intro q; rw [h1, h2]; exact ⟨rfl, Iff.rfl⟩
        · exact runRows_permuted L b.ts b.devHeader b2.devHeader b.rows b2.rows h2
      have hq := hrows { p with CPUs := p.CPUs ++ [mkCPUStats L b.ts m] }
      generalize runRows L b.ts b2.devHeader b2.rows
        { p with CPUs := p.CPUs ++ [mkCPUStats L b.ts m] } = res2 at hq ⊢
      generalize runRows L b.ts b.devHeader b.rows
        { p with CPUs := p.CPUs ++ [mkCPUStats L b.ts m] } = res at hq ⊢
      obtain ⟨q2, e2⟩ := res2
      obtain ⟨q, e⟩ := res
      obtain ⟨hq1, hq2⟩ := hq
      simp only at hq1 hq2
      subst hq1
      cases e with
      | none =>
        have : e2 = none := hq2.2 rfl
        subst this
        exact ih _
      | some e =>
        cases e2 with
        | none => exact absurd (hq2.1 rfl) (by simp)
        | some e2 => simp

theorem ParseIostatOutput_snd_none_iff (L : Lib F T) (data : Str) :
    (ParseIostatOutput L data).2 = none ↔
      (runBlocks L (rawBlocks L (newScanner data)) { CPUs := [], Devices := [] }).2 = none ∧
        scannerErr (newScanner data) = none := by
  unfold ParseIostatOutput
  simp only [parseFrom_eq_runBlocks]
  generalize runBlocks L (rawBlocks L (newScanner data)) { CPUs := [], Devices := [] } = r
  obtain ⟨p, e⟩ := r
  cases e with
  | none => simp
  | some e => simp

end PermutedBlocks

/-- C26 fails in the error that is returned: with the CPU columns
`%user %idle` over the tokens `N/A n/a`, both not numeric, the error
names `N/A`; with the two columns and the two tokens exchanged it names
`n/a`. -/
theorem C26_counterexample :
    (rawBlocks sampleLib (newScanner c26Input)).map (fun b => (b.cpuHeader, b.cpuValues)) =
      [(["%user".toList, "%idle".toList], ["N/A".toList, "n/a".toList])] ∧
    (rawBlocks sampleLib (newScanner c26Swapped)).map (fun b => (b.cpuHeader, b.cpuValues)) =
      [(["%idle".toList, "%user".toList], ["n/a".toList, "N/A".toList])] ∧
    ParseIostatOutput sampleLib c26Input =
      ({ CPUs := [], Devices := [] }, some (.num "N/A".toList)) ∧
    ParseIostatOutput sampleLib c26Swapped =
      ({ CPUs := [], Devices := [] }, some (.num "n/a".toList)) ∧
    ParseIostatOutput sampleLib c26Swapped ≠ ParseIostatOutput sampleLib c26Input := by
  decide

/-- C26, amended: let the blocks of two inputs correspond one to one,
each block of the second being the block of the first with one
permutation applied to the avg-cpu columns and the CPU value tokens, and
one to the Device columns after the first and the tokens of every device
row, where the column names are pairwise distinct and every line has as
many tokens as its header; let the scanner meet a line beyond its limit
in both inputs or in neither.  Then `ParseIostatOutput` returns the same
data for both, and an error for one exactly when for the other. -/
theorem C26_columns_bound_by_name {F T : Type} (L : Lib F T) (data data2 : Str)
    (hscan : scannerErr (newScanner data2) = scannerErr (newScanner data))
    (hblocks : List.Forall₂ BlockPermuted (rawBlocks L (newScanner data))
      (rawBlocks L (newScanner data2))) :
    (ParseIostatOutput L data2).1 = (ParseIostatOutput L data).1 ∧
    ((ParseIostatOutput L data2).2 = none ↔ (ParseIostatOutput L data).2 = none) := by
  obtain ⟨h1, h2⟩ := runBlocks_permuted L _ _ hblocks { CPUs := [], Devices := [] }
  refine ⟨by rw [ParseIostatOutput_fst, ParseIostatOutput_fst, h1], ?_⟩
  rw [ParseIostatOutput_snd_none_iff, ParseIostatOutput_snd_none_iff, h2, hscan]

/-- Witness of C26 (amended): `c26Rotated` is `c26Good` with the CPU
columns and the device columns rotated; both parse without error. -/
theorem C26_witness :
    (ParseIostatOutput sampleLib c26Rotated).1 = (ParseIostatOutput sampleLib c26Good).1 ∧
    ((ParseIostatOutput sampleLib c26Rotated).2 = none ↔
      (ParseIostatOutput sampleLib c26Good).2 = none) ∧
    (ParseIostatOutput sampleLib c26Good).2 = none :=
  have e1 : rawBlocks sampleLib (newScanner c26Good) =
      [{ ts := c28Stamp
         cpuHeader := ["%user".toList, "%nice".toList, "%idle".toList]
         cpuValues := ["2.36".toList, "0.10".toList, "97.20".toList]
         devHeader := ["Device".toList, "r/s".toList, "w/s".toList, "aqu-sz".toList]
         rows := [["sda".toList, "2.08".toList, "9.58".toList, "0.03".toList],
                  ["sdb".toList, "0.00".toList, "1.00".toList, "0.00".toList]] }] := by
    decide
  have e2 : rawBlocks sampleLib (newScanner c26Rotated) =
      [{ ts := c28Stamp
         cpuHeader := ["%idle".toList, "%user".toList, "%nice".toList]
         cpuValues := ["97.20".toList, "2.36".toList, "0.10".toList]
         devHeader := ["Device".toList, "aqu-sz".toList, "r/s".toList, "w/s".toList]
         rows := [["sda".toList, "0.03".toList, "2.08".toList, "9.58".toList],
                  ["sdb".toList, "0.00".toList, "0.00".toList, "1.00".toList]] }] := by
    decide
  have h := C26_columns_bound_by_name sampleLib c26Good c26Rotated (by decide) (by
    rw [e1, e2]
    exact List.Forall₂.cons
      ⟨rfl, Or.inr ⟨by decide, by decide, by decide, by decide⟩,
        Or.inr ⟨rfl, List.Forall₂.cons ⟨rfl, by decide, by decide, by decide, by decide⟩
          (List.Forall₂.cons ⟨rfl, by decide, by decide, by decide, by decide⟩
            List.Forall₂.nil)⟩⟩
      List.Forall₂.nil)
  ⟨h.1, h.2, by decide⟩

section Words

theorem fields_unwords (toks : List Str) (h : ∀ t ∈ toks, IsToken t) :
    fields (unwords toks) = toks := by
  induction toks with
  | nil => rfl
  | cons t ts ih =>
    have ht := h t (List.mem_cons_self _ _)
    cases ts with
    | nil =>
      simp only [unwords, fields]
      rw [fieldsGo_nonspace t ht.2 [] (Or.inr ht.1)]
      rfl
    | cons t2 ts =>
      simp only [unwords]
      unfold fields
      rw [fieldsGo_append_space _ _ ' ' (by decide), fieldsGo_nonspace t ht.2 [] (Or.inr ht.1)]
      have := ih (fun x hx => h x (List.mem_cons_of_mem _ hx))
      unfold fields at this
      rw [this]
      rfl

theorem unwords_head (t : Str) (ts : List Str) (ht : IsToken t) :
    ∃ a u, unwords (t :: ts) = a :: u ∧ isSpace a = false := by
  obtain ⟨hne, hsp⟩ := ht
  cases t with
  | nil => exact absurd rfl hne
  | cons a t =>
    have ha := hsp a (List.mem_cons_self _ _)
    cases ts with
    | nil => exact ⟨a, t, rfl, ha⟩
    | cons t2 ts => exact ⟨a, _, rfl, ha⟩

theorem unwords_last (toks : List Str) (h : ∀ t ∈ toks, IsToken t) (hne : toks ≠ []) :
    ∃ u z, unwords toks = u ++ [z] ∧ isSpace z = false := by
  induction toks with
  | nil => exact absurd rfl hne
  | cons t ts ih =>
    have ht := h t (List.mem_cons_self _ _)
    cases ts with
    | nil =>
      rcases List.eq_nil_or_concat t with h0 | ⟨u, z, h0⟩
      · exact absurd h0 ht.1
      · refine ⟨u, z, by simpa [unwords] using h0, ht.2 z (by rw [h0]; simp)⟩
    | cons t2 ts =>
      obtain ⟨u, z, hu, hz⟩ := ih (fun x hx => h x (List.mem_cons_of_mem _ hx))
        (List.cons_ne_nil _ _)
      refine ⟨t ++ ' ' :: u, z, ?_, hz⟩
      simp only [unwords]
      rw [hu]
      simp

theorem trimSpace_unwords (toks : List Str) (h : ∀ t ∈ toks, IsToken t) :
    trimSpace (unwords toks) = unwords toks := by
  cases toks with
  | nil => rfl
  | cons t ts =>
    obtain ⟨a, u, h1, ha⟩ := unwords_head t ts (h t (List.mem_cons_self _ _))
    obtain ⟨v, z, h2, hz⟩ := unwords_last (t :: ts) h (List.cons_ne_nil _ _)
    exact trimSpace_eq_self _ a z u v h1 h2 ha hz

theorem tokens_unwords (toks : List Str) (h : ∀ t ∈ toks, IsToken t) :
    tokens (unwords toks) = toks := by
  unfold tokens
  rw [trimSpace_unwords toks h, fields_unwords toks h]

theorem tokens_dropCR (l : Str) : tokens (dropCR l) = tokens l := by
  unfold tokens
  rw [trimSpace_dropCR]

theorem unwords_ne_nil (t : Str) (ts : List Str) (ht : IsToken t) : unwords (t :: ts) ≠ [] := by
  obtain ⟨a, u, h1, _⟩ := unwords_head t ts ht
  rw [h1]
  exact List.cons_ne_nil _ _

theorem newline_not_mem_unwords (toks : List Str) (h : ∀ t ∈ toks, IsToken t) :
    '\n' ∉ unwords toks := by
  induction toks with
  | nil => simp [unwords]
  | cons t ts ih =>
    have ht := h t (List.mem_cons_self _ _)
    have hn : '\n' ∉ t := by
      intro hmem
      have := ht.2 _ hmem
      revert this
      decide
    cases ts with
    | nil => simpa [unwords] using hn
    | cons t2 ts =>
      have ih2 := ih (fun x hx => h x (List.mem_cons_of_mem _ hx))
      simp only [unwords, List.mem_append, List.mem_cons]
      rintro (h1 | h1 | h1)
      · exact hn h1
      · revert h1; decide
      · exact ih2 h1

end Words

section RenderedBlock

variable {F T : Type}

theorem rowSample_thirteen (L : Lib F T) (ts : T) (name : Str)
    (t1 t2 t3 t4 t5 t6 t7 t8 t9 t10 t11 t12 t13 : Str)
    (v1 v2 v3 v4 v5 v6 v7 v8 v9 v10 v11 v12 v13 : F)
    (h1 : L.parseFloat t1 = some v1) (h2 : L.parseFloat t2 = some v2)
    (h3 : L.parseFloat t3 = some v3) (h4 : L.parseFloat t4 = some v4)
    (h5 : L.parseFloat t5 = some v5) (h6 : L.parseFloat t6 = some v6)
    (h7 : L.parseFloat t7 = some v7) (h8 : L.parseFloat t8 = some v8)
    (h9 : L.parseFloat t9 = some v9) (h10 : L.parseFloat t10 = some v10)
    (h11 : L.parseFloat t11 = some v11) (h12 : L.parseFloat t12 = some v12)
    (h13 : L.parseFloat t13 = some v13) :
    rowSample L ts ("Device".toList :: (baseColumns ++ ["aqu-sz".toList]))
        [name, t1, t2, t3, t4, t5, t6, t7, t8, t9, t10, t11, t12, t13] =
      { Timestamp := ts, Name := name,
        ReadsPerSec := v1, ReadKBPerSec := v2, ReadMergedPerSec := v3, ReadPctMerged := v4,
        ReadAwaitMs := v5, ReadReqSzKB := v6, WritesPerSec := v7, WriteKBPerSec := v8,
        WriteMergedPerSec := v9, WritePctMerged := v10, WriteAwaitMs := v11,
        WriteReqSzKB := v12, QueueSize := v13 } := by
  have hm : devMapLoop L [name, t1, t2, t3, t4, t5, t6, t7, t8, t9, t10, t11, t12, t13] 0
      ("Device".toList :: (baseColumns ++ ["aqu-sz".toList])) [] =
      .ok [("aqu-sz".toList, v13), ("wareq-sz".toList, v12), ("w_await".toList, v11),
        ("wrqm".toList, v10), ("wrqm/s".toList, v9), ("wkB/s".toList, v8), ("w/s".toList, v7),
        ("rareq-sz".toList, v6), ("r_await".toList, v5), ("rrqm".toList, v4),
        ("rrqm/s".toList, v3), ("rkB/s".toList, v2), ("r/s".toList, v1)] := by
    simp [baseColumns, devMapLoop, trimPercent, h1, h2, h3, h4, h5, h6, h7, h8, h9, h10, h11,
      h12, h13]
  simp only [rowSample, hm, okMap, mkDeviceStats, FloatMap.get_cons]
  simp

theorem rowSample_rendered (L : Lib F T) (fmt : Fmt F T) (ts : T) (d : DeviceStats F T)
    (h : ∀ x ∈ d.values, L.parseFloat (fmt.float x) = some x) :
    rowSample L ts ("Device".toList :: (baseColumns ++ ["aqu-sz".toList]))
        (d.Name :: d.values.map fmt.float) =
      { d with Timestamp := ts } := by
  have hv : ∀ x, x ∈ d.values → L.parseFloat (fmt.float x) = some x := h
  simp only [DeviceStats.values, DeviceStats.metrics, List.cons_append, List.nil_append,
    List.mem_cons, List.mem_singleton, List.map_cons, List.map_nil] at hv ⊢
  rw [rowSample_thirteen L ts d.Name _ _ _ _ _ _ _ _ _ _ _ _ _
    d.ReadsPerSec d.ReadKBPerSec d.ReadMergedPerSec d.ReadPctMerged d.ReadAwaitMs d.ReadReqSzKB
    d.WritesPerSec d.WriteKBPerSec d.WriteMergedPerSec d.WritePctMerged d.WriteAwaitMs
    d.WriteReqSzKB d.QueueSize
    (hv _ (by simp)) (hv _ (by simp)) (hv _ (by simp)) (hv _ (by simp)) (hv _ (by simp))
    (hv _ (by simp)) (hv _ (by simp)) (hv _ (by simp)) (hv _ (by simp)) (hv _ (by simp))
    (hv _ (by simp)) (hv _ (by simp)) (hv _ (by simp))]

theorem tokens_renderRow (fmt : Fmt F T) (d : DeviceStats F T) (hn : IsToken d.Name)
    (h : ∀ x ∈ d.values, IsToken (fmt.float x)) :
    tokens (dropCR (renderRow fmt d)) = d.Name :: d.values.map fmt.float := by
  rw [tokens_dropCR]
  apply tokens_unwords
  intro t ht
  rcases List.mem_cons.1 ht with ht | ht
  · rw [ht]; exact hn
  · obtain ⟨x, hx, rfl⟩ := List.mem_map.1 ht
    exact h x hx

theorem tokens_renderCpu (fmt : Fmt F T) (c : CPUStats F T)
    (h : ∀ x ∈ c.values, IsToken (fmt.float x)) :
    tokens (dropCR (unwords (c.values.map fmt.float))) = c.values.map fmt.float := by
  rw [tokens_dropCR]
  apply tokens_unwords
  intro t ht
  obtain ⟨x, hx, rfl⟩ := List.mem_map.1 ht
  exact h x hx

theorem trimSpace_ne_nil_of_tokens_ne_nil (l : Str) (h : tokens l ≠ []) : trimSpace l ≠ [] := by
  intro hcon
  apply h
  unfold tokens
  rw [hcon]
  rfl

/-- A rendered block is well-formed. -/
theorem renderedBlock_wellFormed (L : Lib F T) (fmt : Fmt F T) (c : CPUStats F T)
    (rows : List (DeviceStats F T))
    (hts : trimSpace (fmt.time c.Timestamp) ≠ [] ∧
      L.parseTime (trimSpace (fmt.time c.Timestamp)) = some c.Timestamp)
    (hc : ∀ x ∈ c.values, IsToken (fmt.float x) ∧ L.parseFloat (fmt.float x) = some x)
    (hrows : ∀ d ∈ rows, IsToken d.Name ∧
      ∀ x ∈ d.values, IsToken (fmt.float x) ∧ L.parseFloat (fmt.float x) = some x)
    (hnd : (rows.map (fun d => d.Name)).Nodup) :
    (renderedBlock fmt c rows).WellFormed L := by
  have hcpu := tokens_renderCpu fmt c (fun x hx => (hc x hx).1)
  have hrow : ∀ d ∈ rows, tokens (dropCR (renderRow fmt d)) = d.Name :: d.values.map fmt.float :=
    fun d hd => tokens_renderRow fmt d (hrows d hd).1 (fun x hx => ((hrows d hd).2 x hx).1)
  refine
    { ts_nonblank := ?_, ts_parses := ?_, cpu_header := ?_, cpu_values_nonblank := ?_,
      cpu_values_numeric := ?_, blanks_blank := ?_, dev_header := ?_, rows_nonblank := ?_,
      rows_numeric := ?_, names_distinct := ?_, trail_blank := ?_ }
  · simp only [renderedBlock, trimSpace_dropCR]; exact hts.1
  · simp only [renderedBlock, trimSpace_dropCR]; exact hts.2
  · show hasPrefix (trimSpace (dropCR cpuHeaderText)) "avg-cpu:".toList = true
    decide
  · apply trimSpace_ne_nil_of_tokens_ne_nil
    simp only [renderedBlock]
    rw [hcpu]
    simp [CPUStats.values]
  · intro tok htok
    simp only [renderedBlock] at htok
    rw [hcpu] at htok
    obtain ⟨x, hx, rfl⟩ := List.mem_map.1 htok
    rw [(hc x hx).2]
    simp
  · intro l hl
    simp [renderedBlock] at hl
  · show hasPrefix (trimSpace (dropCR devHeaderText)) "Device".toList = true
    decide
  · intro l hl
    simp only [renderedBlock] at hl
    obtain ⟨d, hd, rfl⟩ := List.mem_map.1 hl
    apply trimSpace_ne_nil_of_tokens_ne_nil
    rw [hrow d hd]
    simp
  · intro l hl tok htok
    simp only [renderedBlock] at hl
    obtain ⟨d, hd, rfl⟩ := List.mem_map.1 hl
    rw [hrow d hd, List.tail_cons] at htok
    obtain ⟨x, hx, rfl⟩ := List.mem_map.1 htok
    rw [((hrows d hd).2 x hx).2]
    simp
  · have e : (renderedBlock fmt c rows).rowNames = rows.map (fun d => d.Name) := by
      simp only [BlockText.rowNames, renderedBlock, List.map_map]
      apply List.map_congr_left
      intro d hd
      simp only [Function.comp, hrow d hd]
      rfl
    rw [e]
    exact hnd
  · intro l hl
    simp only [renderedBlock, List.mem_singleton] at hl
    rw [hl]
    rfl

/-- The samples read from a rendered block are the samples rendered. -/
theorem renderedBlock_samples (L : Lib F T) (fmt : Fmt F T) (c : CPUStats F T)
    (rows : List (DeviceStats F T))
    (hc : ∀ x ∈ c.values, IsToken (fmt.float x) ∧ L.parseFloat (fmt.float x) = some x)
    (hrows : ∀ d ∈ rows, IsToken d.Name ∧
      ∀ x ∈ d.values, IsToken (fmt.float x) ∧ L.parseFloat (fmt.float x) = some x) :
    (renderedBlock fmt c rows).rawBlock.cpuSample L = c ∧
    (renderedBlock fmt c rows).rawBlock.rowSamples L =
      rows.map (fun d => { d with Timestamp := c.Timestamp }) := by
  have hcpu := tokens_renderCpu fmt c (fun x hx => (hc x hx).1)
  constructor
  · have hv : ∀ x, x ∈ c.values → L.parseFloat (fmt.float x) = some x := fun x hx => (hc x hx).2
    simp only [CPUStats.values, List.mem_cons, List.mem_singleton] at hv
    rw [cpuSample_six L _ (fmt.float c.User) (fmt.float c.Nice) (fmt.float c.System)
      (fmt.float c.Iowait) (fmt.float c.Steal) (fmt.float c.Idle) c.User c.Nice c.System
      c.Iowait c.Steal c.Idle (by
        show (tokens (dropCR cpuHeaderText)).drop 1 = cpuColumns
        decide) (by
        simp only [BlockText.rawBlock, renderedBlock]
        rw [hcpu]
        rfl)
      (hv _ (by simp)) (hv _ (by simp)) (hv _ (by simp)) (hv _ (by simp)) (hv _ (by simp))
      (hv _ (by simp))]
    rfl
  · have hdh : tokens (dropCR devHeaderText) =
        "Device".toList :: (baseColumns ++ ["aqu-sz".toList]) := by decide
    simp only [RawBlock.rowSamples, BlockText.rawBlock, renderedBlock, List.map_map, hdh]
    apply List.map_congr_left
    intro d hd
    simp only [Function.comp]
    rw [tokens_renderRow fmt d (hrows d hd).1 (fun x hx => ((hrows d hd).2 x hx).1),
      rowSample_rendered L fmt c.Timestamp d (fun x hx => ((hrows d hd).2 x hx).2)]

end RenderedBlock

section RoundTrip

variable {F T : Type}

theorem renderFrom_dropCR (fmt : Fmt F T) (devs : DeviceMap F T) (cs : List (CPUStats F T)) :
    ∀ j, (renderFrom fmt devs j cs).map dropCR =
      ((renderedBlocks fmt devs j cs).map BlockText.lines).flatten := by
  induction cs with
  | nil => intro j; rfl
  | cons c cs ih =>
    intro j
    simp only [renderFrom, renderedBlocks, List.map_append, ih (j + 1), List.map_cons,
      List.flatten_cons]
    congr 1
    simp [renderBlock, renderedBlock, BlockText.lines, dropCR, Function.comp_def]

theorem rowsAt_names_sublist (devs : DeviceMap F T) (j : Nat)
    (h : ∀ kv ∈ devs, ∀ d ∈ kv.2, d.Name = kv.1) :
    ((rowsAt devs j).map (fun d => d.Name)).Sublist (devs.map Prod.fst) := by
  induction devs with
  | nil => exact List.Sublist.slnil
  | cons kv devs ih =>
    have ih2 := ih (fun x hx => h x (List.mem_cons_of_mem _ hx))
    unfold rowsAt at ih2 ⊢
    cases hj : kv.2[j]? with
    | none =>
      simp only [List.filterMap_cons, hj, List.map_cons]
      exact ih2.cons _
    | some d =>
      have hd : d.Name = kv.1 :=
        h kv (List.mem_cons_self _ _) d (List.mem_iff_getElem?.2 ⟨j, hj⟩)
      simp only [List.filterMap_cons, hj, List.map_cons, hd]
      exact ih2.cons₂ _

theorem mem_rowsAt (devs : DeviceMap F T) (j : Nat) (d : DeviceStats F T)
    (h : d ∈ rowsAt devs j) : ∃ kv ∈ devs, kv.2[j]? = some d := by
  unfold rowsAt at h
  obtain ⟨kv, hkv, hd⟩ := List.mem_filterMap.1 h
  exact ⟨kv, hkv, hd⟩

theorem lookup_none_of_not_mem {β : Type} (n : Str) (m : List (Str × β))
    (h : n ∉ m.map Prod.fst) : List.lookup n m = none := by
  induction m with
  | nil => rfl
  | cons kv m ih =>
    obtain ⟨k, v⟩ := kv
    simp only [List.map_cons, List.mem_cons, not_or] at h
    rw [lookup_cons_ite, if_neg h.1]
    exact ih h.2

theorem rowsAt_filter (devs : DeviceMap F T) (j : Nat) (n : Str) (hp : DeviceMap.Proper devs) :
    (rowsAt devs j).filter (fun d => d.Name = n) = ((devs.get n)[j]?).toList := by
  induction devs with
  | nil => simp [rowsAt, DeviceMap.get]
  | cons kv devs ih =>
    obtain ⟨a, ds⟩ := kv
    have hnd := hp.1
    simp only [List.map_cons, List.nodup_cons] at hnd
    have hp2 : DeviceMap.Proper devs :=
      ⟨hnd.2, fun x hx => hp.2 x (List.mem_cons_of_mem _ hx)⟩
    have ih2 := ih hp2
    have hnames := (hp.2 (a, ds) (List.mem_cons_self _ _)).2
    have hget : DeviceMap.get ((a, ds) :: devs) n = if n = a then ds else DeviceMap.get devs n := by
      simp only [DeviceMap.get, lookup_cons_ite]
      split <;> rfl
    have hrest : n = a → (rowsAt devs j).filter (fun d => d.Name = n) = [] := by
      intro hna
      rw [ih2]
      have : DeviceMap.get devs n = [] := by
        have hnot : List.lookup n devs = none :=
          lookup_none_of_not_mem n devs (by rw [hna]; exact hnd.1)
        simp [DeviceMap.get, hnot]
      rw [this]
      rfl
    unfold rowsAt at ih2 hrest ⊢
    rw [hget]
    cases hj : ds[j]? with
    | none =>
      simp only [List.filterMap_cons, hj]
      by_cases hna : n = a
      · rw [if_pos hna, hrest hna, hj]
        rfl
      · rw [if_neg hna, ih2]
    | some d =>
      have hd : d.Name = a := hnames d (List.mem_iff_getElem?.2 ⟨j, hj⟩)
      simp only [List.filterMap_cons, hj]
      by_cases hna : n = a
      · have hpos : decide (d.Name = n) = true := by simp [hd, hna]
        simp only [List.filter_cons, hpos, if_true]
        rw [hrest hna, if_pos hna, hj]
        rfl
      · have hneg : ¬ decide (d.Name = n) = true := by
          simp only [hd, decide_eq_true_eq]
          exact fun h => hna h.symm
        simp only [List.filter_cons, hneg, Bool.false_eq_true, if_false]
        rw [ih2, if_neg hna]

end RoundTrip

section RoundTripCore

variable {F T : Type}

theorem renderFrom_no_newline (fmt : Fmt F T) (devs : DeviceMap F T)
    (hD : ∀ kv ∈ devs, ∀ d ∈ kv.2, IsToken d.Name ∧ ∀ x ∈ d.values, IsToken (fmt.float x))
    (cs : List (CPUStats F T))
    (hC : ∀ c ∈ cs, '\n' ∉ fmt.time c.Timestamp ∧ ∀ x ∈ c.values, IsToken (fmt.float x)) :
    ∀ j, ∀ l ∈ renderFrom fmt devs j cs, '\n' ∉ l := by
  induction cs with
  | nil => intro j l hl; simp [renderFrom] at hl
  | cons c cs ih =>
    intro j l hl
    have hc := hC c (List.mem_cons_self _ _)
    simp only [renderFrom, renderBlock, List.mem_append, List.mem_cons, List.mem_map,
      List.mem_singleton] at hl
    rcases hl with (h | h | h | h | ⟨d, hd, h⟩ | h) | h
    · rw [h]; exact hc.1
    · rw [h]; decide
    · rw [h]
      apply newline_not_mem_unwords
      intro t ht
      obtain ⟨x, hx, rfl⟩ := List.mem_map.1 ht
      exact hc.2 x hx
    · rw [h]; decide
    · rw [← h]
      obtain ⟨kv, hkv, hj⟩ := mem_rowsAt devs j d hd
      have hdd := hD kv hkv d (List.mem_iff_getElem?.2 ⟨j, hj⟩)
      apply newline_not_mem_unwords
      intro t ht
      rcases List.mem_cons.1 ht with ht | ht
      · rw [ht]; exact hdd.1
      · obtain ⟨x, hx, rfl⟩ := List.mem_map.1 ht
        exact hdd.2 x hx
    · rcases h with h | h
      · rw [h]; simp
      · cases h
    · exact ih (fun x hx => hC x (List.mem_cons_of_mem _ hx)) (j + 1) l h

theorem renderedBlocks_wellFormed (L : Lib F T) (fmt : Fmt F T) (devs : DeviceMap F T)
    (hp : DeviceMap.Proper devs)
    (hD : ∀ kv ∈ devs, ∀ d ∈ kv.2,
      ∀ x ∈ d.values, IsToken (fmt.float x) ∧ L.parseFloat (fmt.float x) = some x)
    (cs : List (CPUStats F T))
    (hC : ∀ c ∈ cs, (trimSpace (fmt.time c.Timestamp) ≠ [] ∧
        L.parseTime (trimSpace (fmt.time c.Timestamp)) = some c.Timestamp) ∧
      ∀ x ∈ c.values, IsToken (fmt.float x) ∧ L.parseFloat (fmt.float x) = some x) :
    ∀ j, ∀ b ∈ renderedBlocks fmt devs j cs, b.WellFormed L ∧ b.trail ≠ [] := by
  induction cs with
  | nil => intro j b hb; simp [renderedBlocks] at hb
  | cons c cs ih =>
    intro j b hb
    simp only [renderedBlocks, List.mem_cons] at hb
    rcases hb with hb | hb
    · rw [hb]
      have hc := hC c (List.mem_cons_self _ _)
      refine ⟨renderedBlock_wellFormed L fmt c (rowsAt devs j) hc.1 hc.2 ?_ ?_, by
        simp [renderedBlock]⟩
      · intro d hd
        obtain ⟨kv, hkv, hj⟩ := mem_rowsAt devs j d hd
        have hmem : d ∈ kv.2 := List.mem_iff_getElem?.2 ⟨j, hj⟩
        refine ⟨?_, hD kv hkv d hmem⟩
        rw [(hp.2 kv hkv).2 d hmem]
        exact (hp.2 kv hkv).1
      · exact (rowsAt_names_sublist devs j (fun kv hkv => (hp.2 kv hkv).2)).nodup hp.1
    · exact ih (fun x hx => hC x (List.mem_cons_of_mem _ hx)) (j + 1) b hb

theorem renderedBlocks_samples (L : Lib F T) (fmt : Fmt F T) (devs : DeviceMap F T)
    (hp : DeviceMap.Proper devs)
    (hD : ∀ kv ∈ devs, ∀ d ∈ kv.2,
      ∀ x ∈ d.values, IsToken (fmt.float x) ∧ L.parseFloat (fmt.float x) = some x)
    (n : Str) (cs : List (CPUStats F T))
    (hC : ∀ c ∈ cs, ∀ x ∈ c.values, IsToken (fmt.float x) ∧ L.parseFloat (fmt.float x) = some x) :
    ∀ j, (∀ (i : Nat) (c : CPUStats F T), cs[i]? = some c → ∀ kv ∈ devs,
        ∀ d : DeviceStats F T, kv.2[j + i]? = some d → d.Timestamp = c.Timestamp) →
      (renderedBlocks fmt devs j cs).map (fun b => b.rawBlock.cpuSample L) = cs ∧
      ((renderedBlocks fmt devs j cs).map (fun b => b.rawBlock.rowSamples L)).flatten.filter
        (fun d => d.Name = n) = ((devs.get n).drop j).take cs.length := by
  induction cs with
  | nil => intro j _; simp [renderedBlocks]
  | cons c cs ih =>
    intro j hal
    have hrows : ∀ d ∈ rowsAt devs j, IsToken d.Name ∧
        ∀ x ∈ d.values, IsToken (fmt.float x) ∧ L.parseFloat (fmt.float x) = some x := by
      intro d hd
      obtain ⟨kv, hkv, hj⟩ := mem_rowsAt devs j d hd
      have hmem : d ∈ kv.2 := List.mem_iff_getElem?.2 ⟨j, hj⟩
      refine ⟨?_, hD kv hkv d hmem⟩
      rw [(hp.2 kv hkv).2 d hmem]
      exact (hp.2 kv hkv).1
    obtain ⟨h1, h2⟩ := renderedBlock_samples L fmt c (rowsAt devs j)
      (hC c (List.mem_cons_self _ _)) hrows
    have h3 : (rowsAt devs j).map (fun d => { d with Timestamp := c.Timestamp }) =
        rowsAt devs j := by
      conv_rhs => rw [← List.map_id (rowsAt devs j)]
      apply List.map_congr_left
      intro d hd
      obtain ⟨kv, hkv, hj⟩ := mem_rowsAt devs j d hd
      have := hal 0 c (by simp) kv hkv d hj
      simp only [id]
      rw [← this]
    obtain ⟨ih1, ih2⟩ := ih (fun x hx => hC x (List.mem_cons_of_mem _ hx)) (j + 1) (by
      intro i c2 hc2 kv hkv d hd
      exact hal (i + 1) c2 (by simpa using hc2) kv hkv d (by
        rw [show j + (i + 1) = j + 1 + i by omega]; exact hd))
    constructor
    · simp only [renderedBlocks, List.map_cons, h1, ih1]
    · simp only [renderedBlocks, List.map_cons, List.flatten_cons, List.filter_append, h2, h3,
        ih2, rowsAt_filter devs j n hp, List.length_cons]
      by_cases hj : j < (devs.get n).length
      · rw [List.getElem?_eq_getElem hj]
        have hd : (devs.get n).drop j = (devs.get n)[j] :: (devs.get n).drop (j + 1) :=
          List.drop_eq_getElem_cons hj
        rw [hd]
        rfl
      · rw [List.getElem?_eq_none (by omega), List.drop_eq_nil_of_le (by omega),
          List.drop_eq_nil_of_le (by omega)]
        simp

theorem mem_of_lookup {β : Type} (n : Str) (m : List (Str × β)) (v : β)
    (h : List.lookup n m = some v) : (n, v) ∈ m := by
  induction m with
  | nil => cases h
  | cons kv m ih =>
    obtain ⟨k, w⟩ := kv
    rw [lookup_cons_ite] at h
    by_cases hk : n = k
    · rw [if_pos hk] at h
      cases h
      rw [hk]
      exact List.mem_cons_self _ _
    · rw [if_neg hk] at h
      exact List.mem_cons_of_mem _ (ih h)

/-- The rendering of a parsed result is read as its rendered blocks. -/
theorem render_parse_blocks (L : Lib F T) (fmt : Fmt F T) (p : ParsedData F T)
    (hp : DeviceMap.Proper p.Devices)
    (hnum : ∀ x ∈ p.numbers, IsToken (fmt.float x) ∧ L.parseFloat (fmt.float x) = some x)
    (htime : ∀ c ∈ p.CPUs, '\n' ∉ fmt.time c.Timestamp ∧
      trimSpace (fmt.time c.Timestamp) ≠ [] ∧
      L.parseTime (trimSpace (fmt.time c.Timestamp)) = some c.Timestamp)
    (hfit : LinesFit (render fmt p)) :
    (∀ c ∈ p.CPUs, ∀ x ∈ c.values,
      IsToken (fmt.float x) ∧ L.parseFloat (fmt.float x) = some x) ∧
    (∀ kv ∈ p.Devices, ∀ d ∈ kv.2, ∀ x ∈ d.values,
      IsToken (fmt.float x) ∧ L.parseFloat (fmt.float x) = some x) ∧
    ParseIostatOutput L (render fmt p) =
      ({ CPUs := (renderedBlocks fmt p.Devices 0 p.CPUs).map (fun b => b.rawBlock.cpuSample L),
         Devices := pushAll ((renderedBlocks fmt p.Devices 0 p.CPUs).map
           (fun b => b.rawBlock.rowSamples L)).flatten [] }, none) := by
  have hC : ∀ c ∈ p.CPUs, ∀ x ∈ c.values,
      IsToken (fmt.float x) ∧ L.parseFloat (fmt.float x) = some x := by
    intro c hc x hx
    apply hnum
    unfold ParsedData.numbers
    exact List.mem_append_left _ (List.mem_flatten.2 ⟨c.values, List.mem_map_of_mem _ hc, hx⟩)
  have hD : ∀ kv ∈ p.Devices, ∀ d ∈ kv.2, ∀ x ∈ d.values,
      IsToken (fmt.float x) ∧ L.parseFloat (fmt.float x) = some x := by
    intro kv hkv d hd x hx
    apply hnum
    unfold ParsedData.numbers
    apply List.mem_append_right
    refine List.mem_flatten.2 ⟨_, List.mem_map_of_mem _ hkv, ?_⟩
    exact List.mem_flatten.2 ⟨d.values, List.mem_map_of_mem _ hd, hx⟩
  have hnl := renderFrom_no_newline fmt p.Devices (by
      intro kv hkv d hd
      refine ⟨?_, fun x hx => (hD kv hkv d hd x hx).1⟩
      rw [(hp.2 kv hkv).2 d hd]
      exact (hp.2 kv hkv).1) p.CPUs
    (fun c hc => ⟨(htime c hc).1, fun x hx => (hC c hc x hx).1⟩) 0
  have hlines : scannedLines (render fmt p) =
      [] ++ ((renderedBlocks fmt p.Devices 0 p.CPUs).map BlockText.lines).flatten := by
    unfold scannedLines render
    have := rawLines_joinLines (renderFrom fmt p.Devices 0 p.CPUs) hnl []
    have h0 : rawLines ([] : Str) = [] := rfl
    rw [List.append_nil, h0, List.append_nil] at this
    rw [this, renderFrom_dropCR]
    rfl
  have hwf := renderedBlocks_wellFormed L fmt p.Devices hp hD p.CPUs
    (fun c hc => ⟨(htime c hc).2, hC c hc⟩) 0
  exact ⟨hC, hD, ParseIostatOutput_wellFormed L (render fmt p) []
    (renderedBlocks fmt p.Devices 0 p.CPUs) hfit hlines (by simp)
    (fun b hb => (hwf b hb).1) (separated_of_trail _ (fun b hb => (hwf b hb).2))⟩

/-- The round trip for a parsed result given by its invariants. -/
theorem render_roundTrip (L : Lib F T) (fmt : Fmt F T) (p : ParsedData F T)
    (hp : DeviceMap.Proper p.Devices) (hal : Aligned p)
    (hnum : ∀ x ∈ p.numbers, IsToken (fmt.float x) ∧ L.parseFloat (fmt.float x) = some x)
    (htime : ∀ c ∈ p.CPUs, '\n' ∉ fmt.time c.Timestamp ∧
      trimSpace (fmt.time c.Timestamp) ≠ [] ∧
      L.parseTime (trimSpace (fmt.time c.Timestamp)) = some c.Timestamp)
    (hfit : LinesFit (render fmt p)) :
    (ParseIostatOutput L (render fmt p)).2 = none ∧
    (ParseIostatOutput L (render fmt p)).1.CPUs = p.CPUs ∧
    ∀ n, (ParseIostatOutput L (render fmt p)).1.Devices.get n = p.Devices.get n := by
  obtain ⟨hC, hD, hP⟩ := render_parse_blocks L fmt p hp hnum htime hfit
  have hsam : ∀ n, _ := fun n => renderedBlocks_samples L fmt p.Devices hp hD n p.CPUs hC 0 (by
    intro i c hc kv hkv d hd
    have h1 : (kv.2.map (fun d => d.Timestamp))[i]? = (p.CPUs.map (fun c => c.Timestamp))[i]? := by
      rw [hal kv hkv]
    rw [Nat.zero_add] at hd
    rw [List.getElem?_map, List.getElem?_map, hd, hc] at h1
    simpa using h1)
  refine ⟨by rw [hP], by rw [hP]; exact (hsam []).1, ?_⟩
  intro n
  rw [hP]
  simp only []
  rw [pushAll_get, (hsam n).2, List.drop_zero]
  have hlen : (p.Devices.get n).length ≤ p.CPUs.length := by
    unfold DeviceMap.get
    cases hl : List.lookup n p.Devices with
    | none => simp
    | some ds =>
      have hm : (n, ds) ∈ p.Devices := mem_of_lookup n p.Devices ds hl
      simp only [Option.getD_some]
      have := congrArg List.length (hal (n, ds) hm)
      simp only [List.length_map] at this
      rw [this]
  rw [List.take_of_length_le hlen]
  simp [DeviceMap.get]

end RoundTripCore

section ParsedShape

variable {F T : Type}

theorem fieldsGo_tokens (s : Str) :
    ∀ cur : Str, (∀ c ∈ cur, isSpace c = false) → ∀ t ∈ fieldsGo cur s, IsToken t := by
  induction s with
  | nil =>
    intro cur hcur t ht
    by_cases hc : cur = []
    · simp [fieldsGo, hc] at ht
    · simp only [fieldsGo, hc, if_false, List.mem_singleton] at ht
      rw [ht]
      exact ⟨by simpa using hc, fun c hc2 => hcur c (List.mem_reverse.1 hc2)⟩
  | cons c cs ih =>
    intro cur hcur t ht
    by_cases hsp : isSpace c = true
    · by_cases hc : cur = []
      · simp only [fieldsGo, hsp, hc, if_true] at ht
        exact ih [] (by simp) t ht
      · simp only [fieldsGo, hsp, hc, if_true, if_false, List.mem_cons] at ht
        rcases ht with ht | ht
        · rw [ht]
          exact ⟨by simpa using hc, fun c hc2 => hcur c (List.mem_reverse.1 hc2)⟩
        · exact ih [] (by simp) t ht
    · have hsp2 : isSpace c = false := by simpa using hsp
      simp only [fieldsGo, hsp2, Bool.false_eq_true, if_false] at ht
      apply ih (c :: cur) _ t ht
      intro x hx
      rcases List.mem_cons.1 hx with hx | hx
      · rw [hx]; exact hsp2
      · exact hcur x hx

theorem deviceRows_tokens (s : Stream) :
    ∀ flds ∈ (deviceRows s).1, flds ≠ [] ∧ ∀ t ∈ flds, IsToken t := by
  induction s with
  | nil => intro flds h; simp [deviceRows] at h
  | cons x rest ih =>
    intro flds h
    cases x with
    | none => simp [deviceRows] at h
    | some raw =>
      by_cases hb : trimSpace raw = []
      · simp [deviceRows, hb] at h
      · simp only [deviceRows, hb, if_false, List.mem_cons] at h
        rcases h with h | h
        · rw [h]
          exact ⟨fields_trimSpace_ne_nil raw hb, fieldsGo_tokens _ [] (by simp)⟩
        · exact ih flds h

theorem rowSample_name_token (L : Lib F T) (s : Stream) :
    ∀ b ∈ rawBlocks L s, ∀ d ∈ b.rowSamples L, IsToken d.Name := by
  intro b hb d hd
  obtain ⟨pre, raw, rest, _, _, _, _, _, _, hrows⟩ := rawBlocks_origin L _ s (le_refl _) b hb
  unfold RawBlock.rowSamples at hd
  obtain ⟨flds, hf, rfl⟩ := List.mem_map.1 hd
  rw [hrows] at hf
  obtain ⟨hne, htok⟩ := deviceRows_tokens _ flds hf
  cases flds with
  | nil => exact absurd rfl hne
  | cons f fs => exact htok f (List.mem_cons_self _ _)

theorem mem_push (d : DeviceStats F T) (m : DeviceMap F T) :
    ∀ kv ∈ DeviceMap.push d m, kv ∈ m ∨
      (kv.1 = d.Name ∧ ∀ e ∈ kv.2, e = d ∨ ∃ kv0 ∈ m, kv0.1 = d.Name ∧ e ∈ kv0.2) := by
  induction m with
  | nil =>
    intro kv hkv
    simp only [DeviceMap.push, List.mem_singleton] at hkv
    rw [hkv]
    exact Or.inr ⟨rfl, fun e he => Or.inl (by simpa using he)⟩
  | cons x m ih =>
    intro kv hkv
    obtain ⟨k, v⟩ := x
    by_cases hk : k = d.Name
    · simp only [DeviceMap.push, hk, if_true, List.mem_cons] at hkv
      rcases hkv with hkv | hkv
      · rw [hkv]
        refine Or.inr ⟨rfl, ?_⟩
        intro e he
        rcases List.mem_append.1 he with he | he
        · exact Or.inr ⟨(k, v), List.mem_cons_self _ _, hk, he⟩
        · exact Or.inl (by simpa using he)
      · exact Or.inl (List.mem_cons_of_mem _ hkv)
    · simp only [DeviceMap.push, hk, if_false, List.mem_cons] at hkv
      rcases hkv with hkv | hkv
      · rw [hkv]; exact Or.inl (List.mem_cons_self _ _)
      · rcases ih kv hkv with h | ⟨h1, h2⟩
        · exact Or.inl (List.mem_cons_of_mem _ h)
        · refine Or.inr ⟨h1, ?_⟩
          intro e he
          rcases h2 e he with h | ⟨kv0, h3, h4, h5⟩
          · exact Or.inl h
          · exact Or.inr ⟨kv0, List.mem_cons_of_mem _ h3, h4, h5⟩

theorem push_proper (d : DeviceStats F T) (m : DeviceMap F T) (hm : DeviceMap.Proper m)
    (hd : IsToken d.Name) : DeviceMap.Proper (DeviceMap.push d m) := by
  constructor
  · have hk := DeviceMap.keys_push d m
    unfold DeviceMap.keys at hk
    rw [hk]
    split
    · exact hm.1
    · rename_i hnot
      exact List.Nodup.append hm.1 (List.nodup_singleton _) (by
        intro a ha hb
        rw [List.mem_singleton.1 hb] at ha
        exact hnot ha)
  · intro kv hkv
    rcases mem_push d m kv hkv with h | ⟨h1, h2⟩
    · exact hm.2 kv h
    · refine ⟨by rw [h1]; exact hd, ?_⟩
      intro e he
      rcases h2 e he with h | ⟨kv0, h3, h4, h5⟩
      · rw [h, h1]
      · rw [(hm.2 kv0 h3).2 e h5, h4, h1]

theorem pushAll_proper (ds : List (DeviceStats F T)) :
    ∀ m : DeviceMap F T, DeviceMap.Proper m → (∀ d ∈ ds, IsToken d.Name) →
      DeviceMap.Proper (pushAll ds m) := by
  induction ds with
  | nil => intro m hm _; exact hm
  | cons d ds ih =>
    intro m hm h
    have := ih (DeviceMap.push d m) (push_proper d m hm (h d (List.mem_cons_self _ _)))
      (fun e he => h e (List.mem_cons_of_mem _ he))
    simpa [pushAll] using this

/-- The device map of a successful parse has the shape `Proper`. -/
theorem ParseIostatOutput_proper (L : Lib F T) (data : Str)
    (h : (ParseIostatOutput L data).2 = none) :
    DeviceMap.Proper (ParseIostatOutput L data).1.Devices := by
  rw [ParseIostatOutput_success L data h]
  apply pushAll_proper
  · exact ⟨List.nodup_nil, fun kv hkv => by cases hkv⟩
  · intro d hd
    obtain ⟨l, hl, hdl⟩ := List.mem_flatten.1 hd
    obtain ⟨b, hb, rfl⟩ := List.mem_map.1 hl
    exact rowSample_name_token L _ b hb d hdl

end ParsedShape
section LongName

theorem isToken_replicate_x (n : Nat) (h : 0 < n) : IsToken (List.replicate n 'x') := by
  constructor
  · cases n with
    | zero => exact absurd h (Nat.lt_irrefl _)
    | succ k => simp [List.replicate_succ]
  · intro c hc
    rw [List.eq_of_mem_replicate hc]
    decide

theorem byteLen_replicate_x (n : Nat) : byteLen (List.replicate n 'x') = n := by
  have h1 : Char.utf8Size 'x' = 1 := by decide
  simp [byteLen, List.map_replicate, List.sum_replicate, h1]

theorem c24Data_aligned (nm : Str) : Aligned (c24Data nm) := by
  intro kv hkv
  simp only [c24Data, List.mem_singleton] at hkv
  subst hkv
  rfl

theorem c24Cpu_values : ∀ x ∈ c24Cpu.values, x = 100 := by decide

theorem c24Dev_values (nm : Str) : ∀ x ∈ (c24Dev nm).values, x = 100 := by
  intro x hx
  simp [c24Dev, DeviceStats.values, DeviceStats.metrics] at hx
  exact hx

theorem c24Data_numbers (nm : Str) : ∀ x ∈ (c24Data nm).numbers, x = 100 := by
  intro x hx
  simp only [ParsedData.numbers, c24Data, List.map_cons, List.map_nil, List.flatten_cons,
    List.flatten_nil, List.append_nil, List.mem_append] at hx
  rcases hx with hx | hx
  · exact c24Cpu_values x hx
  · exact c24Dev_values nm x hx

theorem c24Data_proper (nm : Str) (hnm : IsToken nm) : DeviceMap.Proper (c24Data nm).Devices := by
  constructor
  · simp [c24Data]
  · intro kv hkv
    simp only [c24Data, List.mem_singleton] at hkv
    subst hkv
    refine ⟨hnm, ?_⟩
    intro d hd
    simp only [List.mem_singleton] at hd
    subst hd
    rfl

theorem byteLen_unwords_cons (t : Str) (ts : List Str) (h : ts ≠ []) :
    byteLen (unwords (t :: ts)) = byteLen t + byteLen (' ' :: unwords ts) := by
  cases ts with
  | nil => exact absurd rfl h
  | cons t2 ts => simp only [unwords]; rw [byteLen_append]

theorem rawLines_joinLines_self (ls : List Str) (hline : ∀ l ∈ ls, '\n' ∉ l) :
    rawLines (joinLines ls) = ls := by
  have := rawLines_joinLines ls hline []
  have h0 : rawLines ([] : Str) = [] := rfl
  rw [List.append_nil, h0, List.append_nil] at this
  exact this

/-- The lines of the rendering of `c24Data nm` hold no line break. -/
theorem c24Data_render_lines (fmt : Fmt Int Stamp) (nm : Str) (hnm : IsToken nm)
    (hf : IsToken (fmt.float 100)) (ht : '\n' ∉ fmt.time c28Stamp) :
    ∀ l ∈ renderFrom fmt (c24Data nm).Devices 0 (c24Data nm).CPUs, '\n' ∉ l := by
  apply renderFrom_no_newline
  · intro kv hkv d hd
    simp only [c24Data, List.mem_singleton] at hkv
    subst hkv
    simp only [List.mem_singleton] at hd
    subst hd
    refine ⟨hnm, ?_⟩
    intro x hx
    rw [c24Dev_values nm x hx]
    exact hf
  · intro c hc
    simp only [c24Data, List.mem_singleton] at hc
    subst hc
    refine ⟨ht, ?_⟩
    intro x hx
    rw [c24Cpu_values x hx]
    exact hf

/-- The row of the device in the rendering of `c24Data nm`. -/
theorem c24Data_render_row (fmt : Fmt Int Stamp) (nm : Str) :
    unwords (nm :: List.replicate 13 (fmt.float 100)) ∈
      renderFrom fmt (c24Data nm).Devices 0 (c24Data nm).CPUs := by
  have hrow : renderRow fmt (c24Dev nm) = unwords (nm :: List.replicate 13 (fmt.float 100)) :=
    rfl
  rw [← hrow]
  simp [renderFrom, renderBlock, rowsAt, c24Data]

/-- The block `c24Lines nm` is read as `c24Data nm` when its row fits. -/
theorem c24Lines_parse (nm : Str) (hnm : IsToken nm)
    (hlen : byteLen nm + 26 < maxScanTokenSize) :
    ParseIostatOutput sampleLib (joinLines (c24Lines nm)) = (c24Data nm, none) := by
  have ht : c24Digit.time c28Stamp = "09/04/24 12:07:20".toList := by decide
  have hlines : renderFrom c24Digit (c24Data nm).Devices 0 (c24Data nm).CPUs = c24Lines nm := by
    have h1 : renderFrom c24Digit (c24Data nm).Devices 0 (c24Data nm).CPUs =
        [c24Digit.time c28Stamp, cpuHeaderText, unwords (List.replicate 6 ['1']),
         devHeaderText, unwords (nm :: c24Ones), []] := rfl
    have h2 : unwords (List.replicate 6 ['1']) = "1 1 1 1 1 1".toList := by decide
    rw [h1, ht, h2]
    rfl
  have hr : joinLines (c24Lines nm) = render c24Digit (c24Data nm) := by
    unfold render
    rw [hlines]
  have hone : IsToken ['1'] ∧ sampleLib.parseFloat ['1'] = some 100 := by decide
  have hnum : ∀ x ∈ (c24Data nm).numbers,
      IsToken (c24Digit.float x) ∧ sampleLib.parseFloat (c24Digit.float x) = some x := by
    intro x hx
    rw [c24Data_numbers nm x hx]
    exact hone
  have htime : ∀ c ∈ (c24Data nm).CPUs, '\n' ∉ c24Digit.time c.Timestamp ∧
      trimSpace (c24Digit.time c.Timestamp) ≠ [] ∧
      sampleLib.parseTime (trimSpace (c24Digit.time c.Timestamp)) = some c.Timestamp := by
    intro c hc
    simp only [c24Data, List.mem_singleton] at hc
    subst hc
    decide
  have hnl := c24Data_render_lines c24Digit nm hnm hone.1 (by decide)
  have hfit : LinesFit (render c24Digit (c24Data nm)) := by
    unfold LinesFit render
    rw [rawLines_joinLines_self _ hnl, hlines]
    intro l hl
    simp only [c24Lines, List.mem_cons, List.mem_singleton] at hl
    rcases hl with h | h | h | h | h | h
    · rw [h]; decide
    · rw [h]; decide
    · rw [h]; decide
    · rw [h]; decide
    · rw [h, byteLen_unwords_cons nm c24Ones (by decide)]
      have h26 : byteLen (' ' :: unwords c24Ones) = 26 := by decide
      rw [h26]
      exact hlen
    · rcases h with h | h
      · rw [h]; decide
      · cases h
  obtain ⟨hC, hD, hP⟩ := render_parse_blocks sampleLib c24Digit (c24Data nm)
    (c24Data_proper nm hnm) hnum htime hfit
  rw [hr, hP]
  have hs := renderedBlock_samples sampleLib c24Digit c24Cpu [c24Dev nm]
    (hC _ (by simp [c24Data]))
    (by
      intro d hd
      simp only [List.mem_singleton] at hd
      subst hd
      exact ⟨hnm, fun x hx =>
        hD (nm, [c24Dev nm]) (by simp [c24Data]) _ (List.mem_singleton.2 rfl) x hx⟩)
  have hb : renderedBlocks c24Digit (c24Data nm).Devices 0 (c24Data nm).CPUs =
      [renderedBlock c24Digit c24Cpu [c24Dev nm]] := rfl
  rw [hb]
  simp only [List.map_cons, List.map_nil, hs.1, hs.2, List.flatten_cons, List.flatten_nil,
    List.append_nil]
  rfl

/-- The rendering of `c24Data nm` with two decimals has a row of
`byteLen nm + 65` bytes. -/
theorem c24Data_render_long (nm : Str) (hnm : IsToken nm)
    (hlong : maxScanTokenSize ≤ byteLen nm + 65) :
    (ParseIostatOutput sampleLib (render sampleFmt (c24Data nm))).2 ≠ none := by
  intro hnone
  have hfit := linesFit_of_success sampleLib _ hnone
  have hnl := c24Data_render_lines sampleFmt nm hnm (by decide) (by decide)
  unfold LinesFit render at hfit
  rw [rawLines_joinLines_self _ hnl] at hfit
  have h := hfit _ (c24Data_render_row sampleFmt nm)
  rw [byteLen_unwords_cons nm _ (by decide)] at h
  have h65 : byteLen (' ' :: unwords (List.replicate 13 (sampleFmt.float 100))) = 65 := by
    decide
  rw [h65] at h
  omega

end LongName

/-- C24 fails when a line of the rendering is too long for the scanner.
The block `c24Long`, whose device has a name of
65500 letters and whose numbers are all written `1`, is parsed without
error; in its result the device has one sample per CPU sample and every
number has at most two decimals and is read back from its two-decimal
print; but the rendering of the result, where every number is printed
`1.00`, has a device row of more than 64 KiB, and `ParseIostatOutput`
returns an error on it. -/
theorem C24_counterexample :
    ParseIostatOutput sampleLib c24Long = (c24Data c24Name, none) ∧
    Aligned (c24Data c24Name) ∧
    (∀ x ∈ (c24Data c24Name).numbers,
      IsToken (sampleFmt.float x) ∧ sampleLib.parseFloat (sampleFmt.float x) = some x) ∧
    (ParseIostatOutput sampleLib (render sampleFmt (c24Data c24Name))).2 ≠ none := by
  have hnm : IsToken c24Name := isToken_replicate_x 65500 (by decide)
  have hlen : byteLen c24Name = 65500 := byteLen_replicate_x 65500
  refine ⟨?_, c24Data_aligned c24Name, ?_, ?_⟩
  · apply c24Lines_parse c24Name hnm
    rw [hlen]
    decide
  · intro x hx
    rw [c24Data_numbers c24Name x hx]
    decide
  · apply c24Data_render_long c24Name hnm
    rw [hlen]
    decide

/-- C24, amended: let `ParseIostatOutput` succeed on some input with the
result `p`, let every device of `p` have one sample per CPU sample
(sample `j` taken at the time of CPU sample `j`), let every number of
`p` be printed as one token that `ParseFloat` reads back as the same
number and every timestamp as a line that `time.Parse` reads back, and
let every line of the rendering be shorter than 64 KiB.  Then
`ParseIostatOutput` succeeds on the rendering of `p`, and its result has
the CPU samples of `p` and, under every name, the device samples of
`p`. -/
theorem C24_round_trip {F T : Type} (L : Lib F T) (fmt : Fmt F T) (data : Str)
    (hok : (ParseIostatOutput L data).2 = none)
    (hal : Aligned (ParseIostatOutput L data).1)
    (hnum : ∀ x ∈ (ParseIostatOutput L data).1.numbers,
      IsToken (fmt.float x) ∧ L.parseFloat (fmt.float x) = some x)
    (htime : ∀ c ∈ (ParseIostatOutput L data).1.CPUs, '\n' ∉ fmt.time c.Timestamp ∧
      trimSpace (fmt.time c.Timestamp) ≠ [] ∧
      L.parseTime (trimSpace (fmt.time c.Timestamp)) = some c.Timestamp)
    (hfit : LinesFit (render fmt (ParseIostatOutput L data).1)) :
    (ParseIostatOutput L (render fmt (ParseIostatOutput L data).1)).2 = none ∧
    (ParseIostatOutput L (render fmt (ParseIostatOutput L data).1)).1.CPUs =
      (ParseIostatOutput L data).1.CPUs ∧
    ∀ n, (ParseIostatOutput L (render fmt (ParseIostatOutput L data).1)).1.Devices.get n =
      (ParseIostatOutput L data).1.Devices.get n :=
  render_roundTrip L fmt _ (ParseIostatOutput_proper L data hok) hal hnum htime hfit

/-- Witness of C24 on two blocks with the rows `sda` and `sdb`. -/
theorem C24_witness :
    (ParseIostatOutput sampleLib c24Input).2 = none ∧
    (ParseIostatOutput sampleLib (render sampleFmt (ParseIostatOutput sampleLib c24Input).1)).2 =
      none ∧
    (ParseIostatOutput sampleLib
        (render sampleFmt (ParseIostatOutput sampleLib c24Input).1)).1.CPUs =
      (ParseIostatOutput sampleLib c24Input).1.CPUs ∧
    ∀ n, (ParseIostatOutput sampleLib
        (render sampleFmt (ParseIostatOutput sampleLib c24Input).1)).1.Devices.get n =
      (ParseIostatOutput sampleLib c24Input).1.Devices.get n :=
  ⟨by decide,
   C24_round_trip sampleLib sampleFmt c24Input (by decide) (by unfold Aligned; decide)
     (by decide) (by decide) (by decide)⟩
section ResultSamples

variable {F T : Type}

theorem ParseIostatOutput_good (L : Lib F T) (data : Str)
    (h : (ParseIostatOutput L data).2 = none) :
    ∀ b ∈ rawBlocks L (newScanner data), ¬ BadBlock L b := by
  intro b hb hbad
  exact ((runBlocks_error_iff L _ { CPUs := [], Devices := [] }).2 ⟨b, hb, hbad⟩)
    (ParseIostatOutput_snd_none L data h)

theorem ParseIostatOutput_ok (L : Lib F T) (data : Str) (hfit : LinesFit data)
    (hgood : ∀ b ∈ rawBlocks L (newScanner data), ¬ BadBlock L b) :
    (ParseIostatOutput L data).2 = none := by
  rw [ParseIostatOutput_fit L data hfit]
  by_contra hne
  obtain ⟨b, hb, hbad⟩ := (runBlocks_error_iff L _ _).1 hne
  exact hgood b hb hbad

/-- After a parse without error the sample of every row of every block is
in the sequence of the row's name. -/
theorem ParseIostatOutput_row_mem (L : Lib F T) (data : Str)
    (h : (ParseIostatOutput L data).2 = none) (b : RawBlock T)
    (hb : b ∈ rawBlocks L (newScanner data)) (flds : List Str) (hf : flds ∈ b.rows) :
    rowSample L b.ts b.devHeader flds ∈
      (ParseIostatOutput L data).1.Devices.get (flds.getD 0 []) := by
  rw [ParseIostatOutput_devices L data _ h, List.mem_filter]
  refine ⟨List.mem_flatten.2 ⟨b.rowSamples L, List.mem_map_of_mem _ hb, ?_⟩, ?_⟩
  · exact List.mem_map_of_mem _ hf
  · simp [rowSample, mkDeviceStats]

theorem runRows_devices_good (L : Lib F T) (ts : T) (devHeader : List Str)
    (rows : List (List Str)) :
    ∀ (p : ParsedData F T) (n : Str) (d : DeviceStats F T),
      d ∈ (runRows L ts devHeader rows p).1.Devices.get n →
      d ∈ p.Devices.get n ∨
        ∃ flds ∈ rows, flds.getD 0 [] = n ∧ d = rowSample L ts devHeader flds ∧
          ¬ BadRow L devHeader flds := by
  induction rows with
  | nil => intro p n d h; exact Or.inl h
  | cons flds rows ih =>
    intro p n d h
    cases hm : devMapLoop L flds 0 devHeader [] with
    | error e =>
      rw [runRows, hm] at h
      exact Or.inl h
    | ok m =>
      rw [runRows, hm] at h
      have hs : mkDeviceStats L ts flds m = rowSample L ts devHeader flds := by
        simp only [rowSample, hm, okMap]
      have hgood : ¬ BadRow L devHeader flds := by
        intro hbad
        obtain ⟨e, he⟩ := (devMapLoop_error_iff L devHeader flds).2 hbad
        rw [hm] at he
        cases he
      rcases ih _ n d h with h1 | ⟨f, hf, h2⟩
      · simp only [] at h1
        rw [DeviceMap.get_push] at h1
        by_cases hn : n = (mkDeviceStats L ts flds m).Name
        · rw [if_pos hn] at h1
          rcases List.mem_append.1 h1 with h1 | h1
          · exact Or.inl h1
          · simp only [List.mem_singleton] at h1
            refine Or.inr ⟨flds, List.mem_cons_self _ _, ?_, by rw [h1, hs], hgood⟩
            rw [hn]; rfl
        · rw [if_neg hn] at h1
          exact Or.inl h1
      · exact Or.inr ⟨f, List.mem_cons_of_mem _ hf, h2⟩

theorem runBlocks_devices_good (L : Lib F T) (bs : List (RawBlock T)) :
    ∀ (p : ParsedData F T) (n : Str) (d : DeviceStats F T),
      d ∈ (runBlocks L bs p).1.Devices.get n →
      d ∈ p.Devices.get n ∨
        ∃ b ∈ bs, ∃ flds ∈ b.rows, flds.getD 0 [] = n ∧
          d = rowSample L b.ts b.devHeader flds ∧ ¬ BadRow L b.devHeader flds := by
  induction bs with
  | nil => intro p n d h; exact Or.inl h
  | cons b bs ih =>
    intro p n d h
    cases hm : cpuMapLoop L b.cpuValues 0 b.cpuHeader [] with
    | error e =>
      rw [runBlocks, hm] at h
      exact Or.inl h
    | ok m =>
      rw [runBlocks, hm] at h
      simp only [] at h
      have hrow := runRows_devices_good L b.ts b.devHeader b.rows
        { p with CPUs := p.CPUs ++ [mkCPUStats L b.ts m] } n d
      generalize runRows L b.ts b.devHeader b.rows
        { p with CPUs := p.CPUs ++ [mkCPUStats L b.ts m] } = r at h hrow
      obtain ⟨p2, e⟩ := r
      cases e with
      | some e =>
        rcases hrow h with h1 | ⟨f, hf, h2⟩
        · exact Or.inl h1
        · exact Or.inr ⟨b, List.mem_cons_self _ _, f, hf, h2⟩
      | none =>
        rcases ih p2 n d h with h1 | ⟨b2, hb2, h2⟩
        · rcases hrow h1 with h1 | ⟨f, hf, h2⟩
          · exact Or.inl h1
          · exact Or.inr ⟨b, List.mem_cons_self _ _, f, hf, h2⟩
        · exact Or.inr ⟨b2, List.mem_cons_of_mem _ hb2, h2⟩

/-- Every device sample of a result, also of one returned with an error,
is the sample of a row of a block, and no token of that row is bad. -/
theorem ParseIostatOutput_device_origin (L : Lib F T) (data : Str) (n : Str)
    (d : DeviceStats F T) (hd : d ∈ (ParseIostatOutput L data).1.Devices.get n) :
    ∃ b ∈ rawBlocks L (newScanner data), ∃ flds ∈ b.rows, flds.getD 0 [] = n ∧
      d = rowSample L b.ts b.devHeader flds ∧ ¬ BadRow L b.devHeader flds := by
  rw [ParseIostatOutput_fst] at hd
  rcases runBlocks_devices_good L _ _ n d hd with h | h
  · simp [DeviceMap.get] at h
  · exact h

theorem runBlocks_CPUs_good (L : Lib F T) (bs : List (RawBlock T)) :
    ∀ p : ParsedData F T, ∃ j, j ≤ bs.length ∧
      (runBlocks L bs p).1.CPUs = p.CPUs ++ (bs.take j).map (RawBlock.cpuSample L) ∧
      (∀ b ∈ bs.take j, ¬ BadCpu L b) ∧
      ((runBlocks L bs p).2 = none → j = bs.length) := by
  induction bs with
  | nil => intro p; exact ⟨0, le_refl _, by simp [runBlocks], by simp, fun _ => rfl⟩
  | cons b bs ih =>
    intro p
    cases hm : cpuMapLoop L b.cpuValues 0 b.cpuHeader [] with
    | error e =>
      exact ⟨0, Nat.zero_le _, by simp [runBlocks, hm], by simp, by simp [runBlocks, hm]⟩
    | ok m =>
      have hs : RawBlock.cpuSample L b = mkCPUStats L b.ts m := by
        simp [RawBlock.cpuSample, hm, okMap]
      have hgood : ¬ BadCpu L b := by
        intro hbad
        obtain ⟨e, he⟩ := (cpuMapLoop_error_iff L b).2 hbad
        rw [hm] at he
        cases he
      have hc := runRows_CPUs L b.ts b.devHeader b.rows
        { p with CPUs := p.CPUs ++ [mkCPUStats L b.ts m] }
      cases hr : runRows L b.ts b.devHeader b.rows
          { p with CPUs := p.CPUs ++ [mkCPUStats L b.ts m] } with
      | mk p2 e2 =>
        rw [hr] at hc
        simp only [] at hc
        cases e2 with
        | some e3 =>
          refine ⟨1, by simp, ?_, ?_, ?_⟩
          · simp [runBlocks, hm, hr, hc, hs]
          · intro b2 hb2
            simp only [List.take_succ_cons, List.take_zero, List.mem_singleton] at hb2
            rw [hb2]; exact hgood
          · simp [runBlocks, hm, hr]
        | none =>
          obtain ⟨j, hj, hcp, hg, hnone⟩ := ih p2
          refine ⟨j + 1, by simpa using hj, ?_, ?_, ?_⟩
          · simp only [runBlocks, hm, hr, hcp, hc, List.take_succ_cons, List.map_cons, hs]
            simp
          · intro b2 hb2
            simp only [List.take_succ_cons, List.mem_cons] at hb2
            rcases hb2 with hb2 | hb2
            · rw [hb2]; exact hgood
            · exact hg b2 hb2
          · intro h
            simp only [runBlocks, hm, hr] at h
            simp [hnone h]

/-- The `k`-th CPU sample of a result, when there is one, is the CPU
sample of the `k`-th block, and no CPU value token of that block is bad;
there is one when the parse succeeds. -/
theorem ParseIostatOutput_cpu_good (L : Lib F T) (data : Str) (k : Nat) (b : RawBlock T)
    (hb : (rawBlocks L (newScanner data))[k]? = some b) :
    (∀ c, (ParseIostatOutput L data).1.CPUs[k]? = some c →
      c = b.cpuSample L ∧ ¬ BadCpu L b) ∧
    ((ParseIostatOutput L data).2 = none →
      (ParseIostatOutput L data).1.CPUs[k]? = some (b.cpuSample L)) := by
  obtain ⟨j, hj, hcp, hg, hnone⟩ :=
    runBlocks_CPUs_good L (rawBlocks L (newScanner data)) { CPUs := [], Devices := [] }
  rw [ParseIostatOutput_fst, hcp]
  simp only [List.nil_append]
  have hk : k < (rawBlocks L (newScanner data)).length := by
    by_contra hcon
    rw [List.getElem?_eq_none (by omega)] at hb
    cases hb
  have hget : k < j →
      (((rawBlocks L (newScanner data)).take j).map (RawBlock.cpuSample L))[k]? =
        some (RawBlock.cpuSample L b) := by
    intro hkj
    rw [List.getElem?_map, List.getElem?_take_of_lt hkj, hb]
    rfl
  constructor
  · intro c hc
    by_cases hkj : k < j
    · rw [hget hkj] at hc
      cases hc
      refine ⟨rfl, hg b ?_⟩
      apply List.mem_iff_getElem?.2
      exact ⟨k, by rw [List.getElem?_take_of_lt hkj, hb]⟩
    · rw [List.getElem?_eq_none (by simp; omega)] at hc
      cases hc
  · intro hnoerr
    have hjl := hnone (ParseIostatOutput_snd_none L data hnoerr)
    rw [hget (by omega)]

/-- The thirteen numbers of the sample of a row without a bad token, by
column: a key that no column within the row carries reads the zero value,
and a key reads the token under the last column within the row that
carries it. -/
theorem rowSample_rule (L : Lib F T) (ts : T) (devHeader flds : List Str)
    (hnum : ¬ BadRow L devHeader flds) :
    (rowSample L ts devHeader flds).Timestamp = ts ∧
    (rowSample L ts devHeader flds).Name = flds.getD 0 [] ∧
    ∀ kv ∈ deviceKeys.zip (rowSample L ts devHeader flds).values,
      ((∀ i, 1 ≤ i → i < devHeader.length → i < flds.length →
          trimPercent (devHeader.getD i []) ≠ kv.1) → kv.2 = L.zero) ∧
      (∀ i, 1 ≤ i → i < devHeader.length → i < flds.length →
        trimPercent (devHeader.getD i []) = kv.1 →
        (∀ j, i < j → j < devHeader.length → j < flds.length →
          trimPercent (devHeader.getD j []) ≠ kv.1) →
        L.parseFloat (flds.getD i []) = some kv.2) :=
  ⟨rfl, rfl, rowSample_fields L ts devHeader flds hnum⟩

end ResultSamples
/-- C6, amended: for every device row with numeric fields under a Device
header that starts with the twelve base columns, optionally followed by
further columns whose names, without a leading `%`, differ from the
names of the twelve: when `ParseIostatOutput` succeeds, the result holds
under the row's name a device sample with the timestamp of the row's
block, `Name` = token 0 and its twelve read/write metrics equal to the
values of the tokens under the twelve columns, in order; and
`ParseIostatOutput` does succeed when the lines fit the scanner and no
other token of the input that must be numeric is rejected. -/
theorem C6_base_columns {F T : Type} (L : Lib F T) (data : Str) (b : RawBlock T) (h0 : Str)
    (extra : List Str) (name : Str) (toks more : List Str) (vals : List F)
    (hb : b ∈ rawBlocks L (newScanner data))
    (hhdr : b.devHeader = h0 :: (baseColumns ++ extra))
    (hrow : name :: (toks ++ more) ∈ b.rows)
    (hvals : List.Forall₂ (fun t v => L.parseFloat t = some v) toks vals)
    (hlen : toks.length = 12)
    (hmore : ∀ tok ∈ more.take extra.length, L.parseFloat tok ≠ none)
    (hextra : ∀ h ∈ extra, trimPercent h ∉ baseKeys) :
    ((ParseIostatOutput L data).2 = none →
      ∃ d ∈ (ParseIostatOutput L data).1.Devices.get name,
        d.Timestamp = b.ts ∧ d.Name = name ∧ d.metrics = vals) ∧
    (LinesFit data →
      (∀ b2 ∈ rawBlocks L (newScanner data), ¬ BadCpu L b2 ∧
        ∀ f ∈ b2.rows, (b2.devHeader = b.devHeader ∧ f = name :: (toks ++ more)) ∨
          ¬ BadRow L b2.devHeader f) →
      (ParseIostatOutput L data).2 = none) := by
  have hbase := rowSample_base L b.ts h0 extra name toks more vals hvals hlen hmore hextra
  rw [← hhdr] at hbase
  constructor
  · intro hok
    have hmem := ParseIostatOutput_row_mem L data hok b hb _ hrow
    exact ⟨_, by simpa using hmem, rfl, rfl, hbase.2⟩
  · intro hfit hothers
    apply ParseIostatOutput_ok L data hfit
    intro b2 hb2 hbad
    rcases hbad with hcpu | ⟨f, hf, hrowbad⟩
    · exact (hothers b2 hb2).1 hcpu
    · rcases (hothers b2 hb2).2 f hf with ⟨hh, hfe⟩ | hgood
      · rw [hh, hfe] at hrowbad
        exact hbase.1 hrowbad
      · exact hgood hrowbad

/-- Witness of C6 on the input of `TestParseIostatOutputExtended`: the
parse succeeds and the sample of `sda` has `WritesPerSec = 161.39` and
`WriteReqSzKB = 3.41` (in hundredths). -/
theorem C6_witness :
    (ParseIostatOutput sampleLib extendedInput).2 = none ∧
    ∃ d ∈ (ParseIostatOutput sampleLib extendedInput).1.Devices.get "sda".toList,
      d.Timestamp = extendedStamp ∧ d.Name = "sda".toList ∧
      d.metrics = [0, 0, 0, 0, 0, 0, 16139, 55050, 5248, 2454, 35, 341] :=
  have h := C6_base_columns sampleLib extendedInput extendedBlock "Device".toList
    extendedExtra "sda".toList extendedBase extendedMore
    [0, 0, 0, 0, 0, 0, 16139, 55050, 5248, 2454, 35, 341]
    (by decide) (by decide) (by decide)
    (by
      unfold extendedBase
      repeat (first | exact List.Forall₂.nil | refine List.Forall₂.cons (by decide) ?_))
    (by decide) (by decide) (by decide)
  ⟨by decide, h.1 (by decide)⟩

/-- C9: every device sample of a result of `ParseIostatOutput` is the
sample of a device row of a block, and when the parse succeeds every
device row has its sample under its name; the sample's `QueueSize` is
the value of the row's token under the `aqu-sz` column (the last such
column the row reaches, the name taken without a leading `%` as for
every header token) when the Device header has that column at a position
the row reaches, and the zero value otherwise. -/
theorem C9_queue_size {F T : Type} (L : Lib F T) (data : Str) :
    (∀ (n : Str) (d : DeviceStats F T), d ∈ (ParseIostatOutput L data).1.Devices.get n →
      ∃ b ∈ rawBlocks L (newScanner data), ∃ flds ∈ b.rows,
        flds.getD 0 [] = n ∧ d.Name = n ∧ d.Timestamp = b.ts ∧
        (∀ i, 1 ≤ i → i < b.devHeader.length → i < flds.length →
          trimPercent (b.devHeader.getD i []) = "aqu-sz".toList →
          (∀ j, i < j → j < b.devHeader.length → j < flds.length →
            trimPercent (b.devHeader.getD j []) ≠ "aqu-sz".toList) →
          L.parseFloat (flds.getD i []) = some d.QueueSize) ∧
        ((∀ i, 1 ≤ i → i < b.devHeader.length → i < flds.length →
            trimPercent (b.devHeader.getD i []) ≠ "aqu-sz".toList) →
          d.QueueSize = L.zero)) ∧
    ((ParseIostatOutput L data).2 = none →
      ∀ b ∈ rawBlocks L (newScanner data), ∀ flds ∈ b.rows,
        ∃ d ∈ (ParseIostatOutput L data).1.Devices.get (flds.getD 0 []),
          d.Name = flds.getD 0 [] ∧ d.Timestamp = b.ts ∧
          (∀ i, 1 ≤ i → i < b.devHeader.length → i < flds.length →
            trimPercent (b.devHeader.getD i []) = "aqu-sz".toList →
            (∀ j, i < j → j < b.devHeader.length → j < flds.length →
              trimPercent (b.devHeader.getD j []) ≠ "aqu-sz".toList) →
            L.parseFloat (flds.getD i []) = some d.QueueSize) ∧
          ((∀ i, 1 ≤ i → i < b.devHeader.length → i < flds.length →
              trimPercent (b.devHeader.getD i []) ≠ "aqu-sz".toList) →
            d.QueueSize = L.zero)) := by
  constructor
  · intro n d hd
    obtain ⟨b, hb, flds, hf, hn, hdef, hgood⟩ := ParseIostatOutput_device_origin L data n d hd
    refine ⟨b, hb, flds, hf, hn, by rw [hdef]; exact hn, by rw [hdef]; rfl, ?_, ?_⟩
    · intro i h1 h2 h3 hkey hlast
      rw [hdef]
      exact rowSample_get_last L b.devHeader flds _ hgood i h1 h2 h3 hkey hlast
    · intro hno
      rw [hdef]
      exact rowSample_get_zero L b.devHeader flds _ hgood hno
  · intro hok b hb flds hf
    have hgood : ¬ BadRow L b.devHeader flds := fun hbad =>
      ParseIostatOutput_good L data hok b hb (Or.inr ⟨flds, hf, hbad⟩)
    refine ⟨_, ParseIostatOutput_row_mem L data hok b hb flds hf, rfl, rfl, ?_, ?_⟩
    · intro i h1 h2 h3 hkey hlast
      exact rowSample_get_last L b.devHeader flds _ hgood i h1 h2 h3 hkey hlast
    · intro hno
      exact rowSample_get_zero L b.devHeader flds _ hgood hno

/-- Witness of C9 on the input of `TestParseIostatOutputExtended`: the
header has `aqu-sz` at position 21, and the sample of `sda` in the result
has the value of the row's token 21 as `QueueSize`. -/
theorem C9_witness :
    (ParseIostatOutput sampleLib extendedInput).2 = none ∧
    ∃ d ∈ (ParseIostatOutput sampleLib extendedInput).1.Devices.get "sda".toList,
      d.Name = "sda".toList ∧ d.Timestamp = extendedStamp ∧
      sampleLib.parseFloat "0.06".toList = some d.QueueSize := by
  obtain ⟨d, hd, hn, ht, hq, _⟩ :=
    (C9_queue_size sampleLib extendedInput).2 (by decide) extendedBlock (by decide)
      (tokens extendedRow) (by decide)
  refine ⟨by decide, d, hd, hn, ht, ?_⟩
  exact hq 21 (by decide) (by decide) (by decide) (by decide) (by
    intro j hj1 hj2 _
    have hlen : extendedBlock.devHeader.length = 23 := by decide
    have hj : j = 22 := by omega
    subst hj
    decide)
/-- C12: let `b` be the `k`-th block of an input.  The `k`-th CPU sample
of the result of `ParseIostatOutput`, when there is one, has the
timestamp of `b`, the zero value in every recognized field whose name
(`user`, `nice`, `system`, `iowait`, `steal`, `idle`) no header token of
`b`, stripped of one leading `%`, carries, and in every other recognized
field the value of the token at the header position of its name (the
last such position the value line reaches).  There is such a sample when
the parse succeeds, and the parse succeeds when the lines fit the scanner
and no token under a header column is rejected by `ParseFloat`, whatever
the names of the columns. -/
theorem C12_missing_cpu_column {F T : Type} (L : Lib F T) (data : Str) (k : Nat)
    (b : RawBlock T) (hb : (rawBlocks L (newScanner data))[k]? = some b) :
    (∀ c, (ParseIostatOutput L data).1.CPUs[k]? = some c →
      c.Timestamp = b.ts ∧
      ∀ kv ∈ cpuKeys.zip c.values,
        ((∀ h ∈ b.cpuHeader, trimPercent h ≠ kv.1) → kv.2 = L.zero) ∧
        (∀ i, i < b.cpuHeader.length → i < b.cpuValues.length →
          trimPercent (b.cpuHeader.getD i []) = kv.1 →
          (∀ j, i < j → j < b.cpuHeader.length → j < b.cpuValues.length →
            trimPercent (b.cpuHeader.getD j []) ≠ kv.1) →
          L.parseFloat (b.cpuValues.getD i []) = some kv.2)) ∧
    ((ParseIostatOutput L data).2 = none →
      ∃ c, (ParseIostatOutput L data).1.CPUs[k]? = some c) ∧
    (LinesFit data → (∀ b2 ∈ rawBlocks L (newScanner data), ¬ BadBlock L b2) →
      (ParseIostatOutput L data).2 = none) := by
  obtain ⟨hc1, hc2⟩ := ParseIostatOutput_cpu_good L data k b hb
  refine ⟨?_, fun hok => ⟨_, hc2 hok⟩, ParseIostatOutput_ok L data⟩
  intro c hc
  obtain ⟨hdef, hgood⟩ := hc1 c hc
  rw [hdef]
  refine ⟨rfl, ?_⟩
  intro kv hkv
  obtain ⟨h1, h2⟩ := cpuSample_fields L b hgood kv hkv
  refine ⟨fun hlack => h1 ?_, h2⟩
  intro i hi _
  apply hlack
  rw [List.getD_eq_getElem _ _ hi]
  exact List.getElem_mem _

/-- Witness of C12 on the last block of `TestParseIostatFullSample`: the
header ends in `**idle**`; the parse succeeds, and the CPU sample of the
result has `Idle = 0` and `User = 21.73` (in hundredths). -/
theorem C12_witness :
    (ParseIostatOutput sampleLib c12Input).2 = none ∧
    ∃ c, (ParseIostatOutput sampleLib c12Input).1.CPUs[0]? = some c ∧
      c.Timestamp = c12Block.ts ∧ c.Idle = 0 ∧
      sampleLib.parseFloat "21.73".toList = some c.User := by
  have h := C12_missing_cpu_column sampleLib c12Input 0 c12Block.rawBlock (by decide)
  have hok : (ParseIostatOutput sampleLib c12Input).2 = none :=
    h.2.2 (by decide) (by
      intro b2 hb2
      have hb : b2 = c12Block.rawBlock := by
        have hl : rawBlocks sampleLib (newScanner c12Input) = [c12Block.rawBlock] := by decide
        rw [hl] at hb2
        exact List.mem_singleton.1 hb2
      rw [hb]
      rintro (hcpu | ⟨f, hf, hrow⟩)
      · exact not_badCpu_of_ok _ _ (by decide) hcpu
      · have hf2 : f = tokens "sda              0.00  161.39    0.06".toList := by
          simpa [c12Block, BlockText.rawBlock] using hf
        rw [hf2] at hrow
        exact not_badRow_of_ok _ _ _ (by decide) hrow)
  obtain ⟨c, hc⟩ := h.2.1 hok
  obtain ⟨hts, hf⟩ := h.1 c hc
  have hval : c.values = [c.User, c.Nice, c.System, c.Iowait, c.Steal, c.Idle] := rfl
  have e1 : ∀ h ∈ c12Block.rawBlock.cpuHeader, trimPercent h ≠ "idle".toList := by decide
  have e2 : trimPercent (c12Block.rawBlock.cpuHeader.getD 0 []) = "user".toList := by decide
  have e3 : ∀ j, j < c12Block.rawBlock.cpuHeader.length →
      (0 < j → j < c12Block.rawBlock.cpuValues.length →
        trimPercent (c12Block.rawBlock.cpuHeader.getD j []) ≠ "user".toList) := by decide
  refine ⟨hok, c, hc, hts, ?_, ?_⟩
  · exact (hf ("idle".toList, c.Idle) (by rw [hval]; simp [cpuKeys, cpuColumns, trimPercent])).1
      e1
  · exact (hf ("user".toList, c.User) (by rw [hval]; simp [cpuKeys, cpuColumns, trimPercent])).2
      0 (by decide) (by decide) e2 (forall_between _ _ _ e3)

/-- C14: let `b` be the `k`-th block of an input.  A CPU value line or a
device row with fewer tokens than its header raises no error on account
of the missing tokens: the parse succeeds when the lines fit the scanner
and no token that is present under a header column is rejected by
`ParseFloat`.  In the `k`-th CPU sample of the result, and in the device
sample that a successful parse holds for every row of `b`, every
recognized field all of whose columns lie beyond the end of the row is
the zero value, and a field with a column within the row holds the value
of the row's token under it; a device row that is only a name yields the
all-zero sample of that name. -/
theorem C14_short_rows {F T : Type} (L : Lib F T) (data : Str) (k : Nat) (b : RawBlock T)
    (hb : (rawBlocks L (newScanner data))[k]? = some b) :
    (LinesFit data → (∀ b2 ∈ rawBlocks L (newScanner data), ¬ BadBlock L b2) →
      (ParseIostatOutput L data).2 = none) ∧
    (∀ name, ¬ BadRow L b.devHeader [name]) ∧
    (∀ c, (ParseIostatOutput L data).1.CPUs[k]? = some c →
      c.Timestamp = b.ts ∧
      ∀ kv ∈ cpuKeys.zip c.values,
        ((∀ i, i < b.cpuHeader.length → trimPercent (b.cpuHeader.getD i []) = kv.1 →
            b.cpuValues.length ≤ i) → kv.2 = L.zero) ∧
        (∀ i, i < b.cpuHeader.length → i < b.cpuValues.length →
          trimPercent (b.cpuHeader.getD i []) = kv.1 →
          (∀ j, i < j → j < b.cpuHeader.length → j < b.cpuValues.length →
            trimPercent (b.cpuHeader.getD j []) ≠ kv.1) →
          L.parseFloat (b.cpuValues.getD i []) = some kv.2)) ∧
    ((ParseIostatOutput L data).2 = none →
      (∃ c, (ParseIostatOutput L data).1.CPUs[k]? = some c) ∧
      ∀ flds ∈ b.rows,
        ∃ d ∈ (ParseIostatOutput L data).1.Devices.get (flds.getD 0 []),
          d.Name = flds.getD 0 [] ∧ d.Timestamp = b.ts ∧
          (∀ kv ∈ deviceKeys.zip d.values,
            ((∀ i, 1 ≤ i → i < b.devHeader.length →
                trimPercent (b.devHeader.getD i []) = kv.1 → flds.length ≤ i) →
              kv.2 = L.zero) ∧
            (∀ i, 1 ≤ i → i < b.devHeader.length → i < flds.length →
              trimPercent (b.devHeader.getD i []) = kv.1 →
              (∀ j, i < j → j < b.devHeader.length → j < flds.length →
                trimPercent (b.devHeader.getD j []) ≠ kv.1) →
              L.parseFloat (flds.getD i []) = some kv.2)) ∧
          (flds.length = 1 →
            d = { Timestamp := b.ts, Name := flds.getD 0 [],
                  ReadsPerSec := L.zero, ReadKBPerSec := L.zero, ReadMergedPerSec := L.zero,
                  ReadPctMerged := L.zero, ReadAwaitMs := L.zero, ReadReqSzKB := L.zero,
                  WritesPerSec := L.zero, WriteKBPerSec := L.zero,
                  WriteMergedPerSec := L.zero, WritePctMerged := L.zero,
                  WriteAwaitMs := L.zero, WriteReqSzKB := L.zero, QueueSize := L.zero })) := by
  obtain ⟨hc1, hc2⟩ := ParseIostatOutput_cpu_good L data k b hb
  have hbm : b ∈ rawBlocks L (newScanner data) := List.mem_iff_getElem?.2 ⟨k, hb⟩
  refine ⟨ParseIostatOutput_ok L data, fun name => not_badRow_name_only L b.devHeader name,
    ?_, ?_⟩
  · intro c hc
    obtain ⟨hdef, hgood⟩ := hc1 c hc
    rw [hdef]
    refine ⟨rfl, ?_⟩
    intro kv hkv
    obtain ⟨h1, h2⟩ := cpuSample_fields L b hgood kv hkv
    refine ⟨fun hbeyond => h1 ?_, h2⟩
    intro i hi hiv hkey
    have := hbeyond i hi hkey
    omega
  · intro hok
    refine ⟨⟨_, hc2 hok⟩, ?_⟩
    intro flds hf
    have hgood : ¬ BadRow L b.devHeader flds := fun hbad =>
      ParseIostatOutput_good L data hok b hbm (Or.inr ⟨flds, hf, hbad⟩)
    refine ⟨_, ParseIostatOutput_row_mem L data hok b hbm flds hf, rfl, rfl, ?_, ?_⟩
    · intro kv hkv
      obtain ⟨h1, h2⟩ := rowSample_fields L b.ts b.devHeader flds hgood kv hkv
      refine ⟨fun hbeyond => h1 ?_, h2⟩
      intro i hi1 hi hiv hkey
      have := hbeyond i hi1 hi hkey
      omega
    · intro hlen
      match flds, hlen with
      | [name], _ => exact rowSample_name_only L b.ts b.devHeader name

/-- Witness of C14 on `c14Input`: the parse succeeds; the CPU value line
has two tokens, so `Idle = 0` and `Nice` is the value of token 1; the row
`sda` stops before `aqu-sz`, so `QueueSize = 0`; the row `sdb` is only a
name and its sample is all zero. -/
theorem C14_witness :
    (ParseIostatOutput sampleLib c14Input).2 = none ∧
    (∃ c, (ParseIostatOutput sampleLib c14Input).1.CPUs[0]? = some c ∧ c.Idle = 0 ∧
      sampleLib.parseFloat "0.00".toList = some c.Nice) ∧
    (∃ d ∈ (ParseIostatOutput sampleLib c14Input).1.Devices.get "sda".toList,
      d.QueueSize = 0 ∧ sampleLib.parseFloat "9.58".toList = some d.WritesPerSec) ∧
    (∃ d ∈ (ParseIostatOutput sampleLib c14Input).1.Devices.get "sdb".toList,
      d.values = [0, 0, 0, 0, 0, 0, 0, 0, 0, 0, 0, 0, 0]) := by
  have h := C14_short_rows sampleLib c14Input 0 c14Block.rawBlock (by decide)
  have hok : (ParseIostatOutput sampleLib c14Input).2 = none := by decide
  obtain ⟨⟨c, hc⟩, hrows⟩ := h.2.2.2 hok
  obtain ⟨_, hf⟩ := h.2.2.1 c hc
  have hval : c.values = [c.User, c.Nice, c.System, c.Iowait, c.Steal, c.Idle] := rfl
  obtain ⟨d1, hd1, _, _, hr1, _⟩ :=
    hrows (tokens "sda              2.08    9.58".toList) (by decide)
  obtain ⟨d2, hd2, _, _, _, hz2⟩ := hrows ["sdb".toList] (by decide)
  have hval1 : d1.values = d1.metrics ++ [d1.QueueSize] := rfl
  have e1 : ∀ i, i < c14Block.rawBlock.cpuHeader.length →
      trimPercent (c14Block.rawBlock.cpuHeader.getD i []) = "idle".toList →
      c14Block.rawBlock.cpuValues.length ≤ i := by decide
  have e2 : trimPercent (c14Block.rawBlock.cpuHeader.getD 1 []) = "nice".toList := by decide
  have e3 : ∀ j, j < c14Block.rawBlock.cpuHeader.length →
      (1 < j → j < c14Block.rawBlock.cpuValues.length →
        trimPercent (c14Block.rawBlock.cpuHeader.getD j []) ≠ "nice".toList) := by decide
  have e4 : ∀ i, i < c14Block.rawBlock.devHeader.length → (1 ≤ i →
      trimPercent (c14Block.rawBlock.devHeader.getD i []) = "aqu-sz".toList →
      (tokens "sda              2.08    9.58".toList).length ≤ i) := by decide
  have e5 : trimPercent (c14Block.rawBlock.devHeader.getD 2 []) = "w/s".toList := by decide
  have e6 : ∀ j, j < c14Block.rawBlock.devHeader.length →
      (2 < j → j < (tokens "sda              2.08    9.58".toList).length →
        trimPercent (c14Block.rawBlock.devHeader.getD j []) ≠ "w/s".toList) := by decide
  refine ⟨hok, ⟨c, hc, ?_, ?_⟩, ⟨d1, hd1, ?_, ?_⟩, ⟨d2, hd2, ?_⟩⟩
  · exact (hf ("idle".toList, c.Idle) (by rw [hval]; simp [cpuKeys, cpuColumns, trimPercent])).1
      e1
  · exact (hf ("nice".toList, c.Nice) (by rw [hval]; simp [cpuKeys, cpuColumns, trimPercent])).2
      1 (by decide) (by decide) e2 (forall_between _ _ _ e3)
  · exact (hr1 ("aqu-sz".toList, d1.QueueSize)
      (by rw [hval1]; simp [deviceKeys, baseKeys, baseColumns, trimPercent,
            DeviceStats.metrics])).1 (fun i h1 h2 h3 => e4 i h2 h1 h3)
  · exact (hr1 ("w/s".toList, d1.WritesPerSec)
      (by rw [hval1]; simp [deviceKeys, baseKeys, baseColumns, trimPercent,
            DeviceStats.metrics])).2 2 (by decide) (by decide) (by decide) e5
      (forall_between _ _ _ e6)
  · rw [hz2 rfl]
    rfl
/-- C11: a line `MM/DD/YY HH:MM:SS` that denotes a valid date-time parses
to that date-time (month `MM`, day `DD`, year `20YY` for `YY < 69` and
`19YY` otherwise, time `HH:MM:SS`).  Let `time.Parse` read such lines
so, and let `b` be the `k`-th block of an input.  Then `b` starts at a
scanned line whose trimmed text parses to the timestamp of `b`, which is
that date-time when the line has this form; the `k`-th CPU sample of the
result and every device sample of the result carry the timestamp of
their block; and when the parse succeeds the result holds the CPU sample
of `b` and, for every row of `b`, a device sample under the row's name,
all with the timestamp of `b`. -/
theorem C11_timestamps {F : Type} (L : Lib F Stamp)
    (hL : ∀ s t, timeParse s = some t → L.parseTime s = some t)
    (data : Str) (k : Nat) (b : RawBlock Stamp)
    (hb : (rawBlocks L (newScanner data))[k]? = some b) :
    (∀ mo d y h mi se : Nat, y < 100 → 1 ≤ mo ∧ mo ≤ 12 →
      1 ≤ d ∧ d ≤ daysIn (if y < 69 then 2000 + y else 1900 + y) mo →
      h < 24 → mi < 60 → se < 60 →
      L.parseTime (stampText mo d y h mi se) =
        some { year := if y < 69 then 2000 + y else 1900 + y, month := mo, day := d,
               hour := h, minute := mi, second := se }) ∧
    (∃ pre raw rest, newScanner data = pre ++ some raw :: rest ∧ trimSpace raw ≠ [] ∧
      L.parseTime (trimSpace raw) = some b.ts ∧
      b.cpuHeader = (findCpuHeader rest).1 ∧
      b.cpuValues = (findCpuValues (findCpuHeader rest).2).1 ∧
      b.devHeader = (findDevHeader (findCpuValues (findCpuHeader rest).2).2).1 ∧
      b.rows = (deviceRows (findDevHeader (findCpuValues (findCpuHeader rest).2).2).2).1 ∧
      ∀ mo d y h mi se : Nat, y < 100 → 1 ≤ mo ∧ mo ≤ 12 →
        1 ≤ d ∧ d ≤ daysIn (if y < 69 then 2000 + y else 1900 + y) mo →
        h < 24 → mi < 60 → se < 60 → trimSpace raw = stampText mo d y h mi se →
        b.ts = { year := if y < 69 then 2000 + y else 1900 + y, month := mo, day := d,
                 hour := h, minute := mi, second := se }) ∧
    (∀ c : CPUStats F Stamp, (ParseIostatOutput L data).1.CPUs[k]? = some c →
      c.Timestamp = b.ts) ∧
    (∀ (n : Str) (d : DeviceStats F Stamp), d ∈ (ParseIostatOutput L data).1.Devices.get n →
      ∃ b2 ∈ rawBlocks L (newScanner data), ∃ flds ∈ b2.rows,
        flds.getD 0 [] = n ∧ d = rowSample L b2.ts b2.devHeader flds ∧ d.Timestamp = b2.ts) ∧
    ((ParseIostatOutput L data).2 = none →
      (∃ c, (ParseIostatOutput L data).1.CPUs[k]? = some c ∧ c.Timestamp = b.ts) ∧
      ∀ flds ∈ b.rows,
        ∃ d ∈ (ParseIostatOutput L data).1.Devices.get (flds.getD 0 []),
          d = rowSample L b.ts b.devHeader flds ∧ d.Timestamp = b.ts) := by
  have hbm : b ∈ rawBlocks L (newScanner data) := List.mem_iff_getElem?.2 ⟨k, hb⟩
  have hfmt : ∀ mo d y h mi se : Nat, y < 100 → 1 ≤ mo ∧ mo ≤ 12 →
      1 ≤ d ∧ d ≤ daysIn (if y < 69 then 2000 + y else 1900 + y) mo →
      h < 24 → mi < 60 → se < 60 →
      L.parseTime (stampText mo d y h mi se) =
        some { year := if y < 69 then 2000 + y else 1900 + y, month := mo, day := d,
               hour := h, minute := mi, second := se } :=
    fun mo d y h mi se hy hmo hd hh hmi hse =>
      hL _ _ (timeParse_stampText mo d y h mi se hy hmo hd hh hmi hse)
  obtain ⟨hc1, hc2⟩ := ParseIostatOutput_cpuSample L data k b hb
  refine ⟨hfmt, ?_, ?_, ?_, ?_⟩
  · obtain ⟨pre, raw, rest, h1, h2, h3, h4, h5, h6, h7⟩ :=
      rawBlocks_origin L _ _ (le_refl _) b hbm
    refine ⟨pre, raw, rest, h1, h2, h3, h4, h5, h6, h7, ?_⟩
    intro mo d y h mi se hy hmo hd hh hmi hse hraw
    have := hfmt mo d y h mi se hy hmo hd hh hmi hse
    rw [← hraw, h3] at this
    exact Option.some.inj this
  · intro c hc
    rw [hc1 c hc]
    rfl
  · intro n d hd
    obtain ⟨b2, hb2, flds, hf, hn, hdef, _⟩ := ParseIostatOutput_device_origin L data n d hd
    exact ⟨b2, hb2, flds, hf, hn, hdef, by rw [hdef]; rfl⟩
  · intro hok
    refine ⟨⟨_, hc2 hok, rfl⟩, ?_⟩
    intro flds hf
    exact ⟨_, ParseIostatOutput_row_mem L data hok b hbm flds hf, rfl, rfl⟩

/-- Witness of C11 on `c3Input`, whose timestamp line is
`09/04/24 12:10:00`: the parse succeeds, and the CPU sample and the
sample of the row `sda` carry 2024-09-04 12:10:00. -/
theorem C11_witness :
    (ParseIostatOutput specLib c3Input).2 = none ∧
    specLib.parseTime "09/04/24 12:10:00".toList =
      some { year := 2024, month := 9, day := 4, hour := 12, minute := 10, second := 0 } ∧
    (∃ c, (ParseIostatOutput specLib c3Input).1.CPUs[0]? = some c ∧
      c.Timestamp =
        { year := 2024, month := 9, day := 4, hour := 12, minute := 10, second := 0 }) ∧
    ∀ flds ∈ c3Block.rawBlock.rows,
      ∃ d ∈ (ParseIostatOutput specLib c3Input).1.Devices.get (flds.getD 0 []),
        d = rowSample specLib c3Block.rawBlock.ts c3Block.rawBlock.devHeader flds ∧
        d.Timestamp =
          { year := 2024, month := 9, day := 4, hour := 12, minute := 10, second := 0 } :=
  have h := C11_timestamps specLib (fun _ _ h => h) c3Input 0 c3Block.rawBlock (by decide)
  ⟨by decide,
   h.1 9 4 24 12 10 0 (by decide) (by decide) (by decide) (by decide) (by decide) (by decide),
   (h.2.2.2.2 (by decide)).1, (h.2.2.2.2 (by decide)).2⟩

end Iostat
